import Mathlib

/-!
Frame codec and requester session of the link-layer file transfer

A shallow embedding of `client/src/pkg.c` (frame construction, byte stuffing,
validation) and `client/src/context.c` (the requester's per-frame update),
followed by theorems about them.

Conventions of the embedding.

* Bytes and the bit-fields of a frame are natural numbers; a store into a
  `w`-bit field is written with an explicit `% 2^w`.
* `content` is the 63-byte array of the frame, a list; a store at an index
  outside `content[0..62]` is an out-of-bounds write and makes the operation
  return `none`.
* `crc8` is declared in `crc8.h` but its body is not part of the sources, so it
  is a parameter `crc8 : List Nat → Nat` of every function that calls it.
* The byte view `raw` follows the layout GCC and Clang give the union on Linux
  (System V bit-field allocation, little endian): `marker` at byte 0, `size`
  in byte 1, `indx` in the low five bits of byte 2, `type` in the top three
  bits of byte 2 and the low two bits of byte 3, `content` at bytes 4..66 and
  `crc8` at byte 67.  Padding bits are zero, as `memset` in `pkginit` leaves
  them.
-/

namespace Constantine

/-! ## Constants (`pkg.defs.h`, `pkg.h`, `context.defs.h`) -/

/-- The macro `PKG_MAX_IND`. -/
def PKG_MAX_IND : Nat := 32

/-- The macro `PKG_MARKER`. -/
def PKG_MARKER : Nat := 0x7E

/-- The macro `WINSZ`. -/
def WINSZ : Nat := 5

/-- The enumerator `PKG_ACK`. -/
def PKG_ACK : Nat := 0x00
/-- The enumerator `PKG_NACK`. -/
def PKG_NACK : Nat := 0x01
/-- The enumerator `PKG_LS`. -/
def PKG_LS : Nat := 0x0A
/-- The enumerator `PKG_DOWNLOAD`. -/
def PKG_DOWNLOAD : Nat := 0x0B
/-- The enumerator `PKG_SHOW`. -/
def PKG_SHOW : Nat := 0x10
/-- The enumerator `PKG_DESCRIPTOR`. -/
def PKG_DESCRIPTOR : Nat := 0x11
/-- The enumerator `PKG_DATA`. -/
def PKG_DATA : Nat := 0x12
/-- The enumerator `PKG_END`. -/
def PKG_END : Nat := 0x1E
/-- The enumerator `PKG_ERROR`. -/
def PKG_ERROR : Nat := 0x1F

/-! ## The frame (`union Pkg`) -/

/-- The fields of `union Pkg`'s `data` view: `size` has 6 bits, `indx` and
`type` have 5 bits each, `content` has 63 bytes. -/
structure Pkg where
  marker : Nat
  size : Nat
  indx : Nat
  type : Nat
  content : List Nat
  crc8 : Nat
deriving DecidableEq

/-- The 68 bytes of `pkg->raw`. -/
def raw (pkg : Pkg) : List Nat :=
  [pkg.marker, pkg.size, pkg.indx + 32 * (pkg.type % 8), pkg.type / 8]
    ++ pkg.content ++ [pkg.crc8]

/-- The bytes handed to `crc8` by `pkgvalid` and `pkginit`:
`pkg->raw + sizeof pkg->data.marker`, `2 + pkg->data.size` of them. -/
def crc_region (pkg : Pkg) : List Nat :=
  ((raw pkg).drop 1).take (2 + pkg.size)

/-- The test `byte == 0x81 || byte == 0x88`. -/
def is_sentinel (byte : Nat) : Bool :=
  byte == 0x81 || byte == 0x88

/-- The function `add_byte_to_pkg` of `pkg.c`. -/
def add_byte_to_pkg (pkg : Pkg) (byte : Nat) : Option Pkg :=
  let i := pkg.size
  if i < 63 then
    let content := pkg.content.set i byte
    if is_sentinel byte then
      if i + 1 < 63 then
        some { pkg with content := content.set (i + 1) 0xff, size := (i + 1 + 1) % 64 }
      else
        some { pkg with content := content, size := (i + 1) % 64 }
    else
      some { pkg with content := content, size := (i + 1) % 64 }
  else
    none

/-- One outcome of `fread(&byte, 1, 1, fp)` before end of file: a byte was
read, or the read failed without reaching end of file.  End of file is the
empty list of outcomes. -/
inductive FRead where
  | byte (b : Nat)
  | fail
deriving DecidableEq

/-- The loop of `pkgread`.  `byte` is the current value of the local variable
`byte`; the result is `ret`, the frame and the unread rest of the stream. -/
def pkgread_loop (pkg : Pkg) (byte : Nat) : List FRead → Option (Int × Pkg × List FRead)
  | [] =>
    if pkg.size < 63 then some (-1, pkg, [])
    else some (1, pkg, [])
  | e :: rest =>
    if pkg.size < 63 then
      let byte1 := match e with
        | FRead.byte b => b
        | FRead.fail => byte
      match add_byte_to_pkg pkg byte1 with
      | none => none
      | some p => pkgread_loop p byte1 rest
    else some (1, pkg, e :: rest)

/-- The function `pkgread` of `pkg.c`; `byte0` is the indeterminate initial
value of the local variable `byte`. -/
def pkgread (pkg : Pkg) (byte0 : Nat) (fp : List FRead) : Option (Int × Pkg × List FRead) :=
  pkgread_loop { pkg with size := 0 } byte0 fp

/-- The function `ispkg` of `pkg.c`. -/
def ispkg (pkg : Pkg) : Bool :=
  pkg.marker == PKG_MARKER

/-- The function `pkgvalid` of `pkg.c`. -/
def pkgvalid (crc8 : List Nat → Nat) (pkg : Pkg) : Bool :=
  crc8 (crc_region pkg) % 256 == pkg.crc8

/-- The loop `for(i = 0; i < size; i++) add_byte_to_pkg(pkg, buf[i])`. -/
def add_bytes (pkg : Pkg) : List Nat → Option Pkg
  | [] => some pkg
  | b :: bs =>
    match add_byte_to_pkg pkg b with
    | none => none
    | some p => add_bytes p bs

/-- The function `pkginit` of `pkg.c`.  `buf = none` is the null pointer;
reading `buf[i]` past the end of the buffer gives `none`. -/
def pkginit (crc8 : List Nat → Nat) (size indx type : Nat) (buf : Option (List Nat)) :
    Option Pkg :=
  let pkg0 : Pkg :=
    { marker := PKG_MARKER, size := 0, indx := (indx % 256) % 32, type := type % 32,
      content := List.replicate 63 0, crc8 := 0 }
  let filled : Option Pkg :=
    match buf with
    | none => some pkg0
    | some b =>
      if size % 256 ≤ b.length then
        match add_bytes pkg0 (b.take (size % 256)) with
        | none => none
        | some p => some { p with size := (p.size + 1) % 64 }
      else none
  match filled with
  | none => none
  | some p => some { p with crc8 := crc8 (crc_region p) % 256 }

/-- One iteration of the loop of `pkg_rmv_sentinel_bytes`; the state is
`(flag, buf[0..s))`. -/
def rmv_step (st : Bool × List Nat) (byte : Nat) : Bool × List Nat :=
  if !st.1 then (is_sentinel byte, st.2 ++ [byte])
  else (false, st.2)

/-- The loop of `pkg_rmv_sentinel_bytes` over `content[0..n)`. -/
def rmv_scan (l : List Nat) : Bool × List Nat :=
  l.foldl rmv_step (false, [])

/-- The function `pkg_rmv_sentinel_bytes` of `pkg.c`. -/
def pkg_rmv_sentinel_bytes (pkg : Pkg) : Pkg :=
  let n := pkg.size
  let buf := (rmv_scan (pkg.content.take n)).2
  let s := buf.length
  let size := (s % 256) % 64
  { pkg with size := size, content := buf.take size ++ pkg.content.drop size }

/-- The bytes `content[0..size)` of a frame. -/
def payload (pkg : Pkg) : List Nat :=
  pkg.content.take pkg.size

/-! ## The requester session (`client/src/context.h`, `client/src/context.c`) -/

/-- The enumeration `CtxType`. -/
inductive CtxType where
  | CTX_DOWNLOAD
  | CTX_LS
deriving DecidableEq

/-- The requester's `struct Context`.  `win_i` and `win_buf` are `win.i` and
`win.buf`.  The file behind `desc.fp` is represented by `fp`, the bytes written
to it so far, and the terminal by `stdout`, the bytes printed so far.  The
`size_t` fields are numbers below `2^64`. -/
structure Context where
  type : CtxType
  completed : Nat
  invalid : Nat
  ack : Nat
  skip : Nat
  error : Nat
  indx : Nat
  recv : Nat
  k : Nat
  win_i : Nat
  win_buf : Pkg
  fp : List Nat
  stdout : List Nat
deriving DecidableEq

/-- The macro `incindx` of the requester's `context.defs.h`. -/
def incindx (ctx : Context) : Context :=
  { ctx with indx := (ctx.indx + 1) % PKG_MAX_IND }

/-- The function `init_pkg_with_ack` of `context.c`. -/
def init_pkg_with_ack (crc8 : List Nat → Nat) : Option Pkg :=
  pkginit crc8 0 0 PKG_ACK none

/-- The function `init_pkg_with_nack` of `context.c`; the cast `(uint8_t)indx`
happens in the call. -/
def init_pkg_with_nack (crc8 : List Nat → Nat) (indx : Nat) : Option Pkg :=
  pkginit crc8 0 (indx % 256) PKG_NACK none

/-- The function `context_update_with_data` of `context.c`.  The result is the
return value, the session and the received frame as the call leaves them. -/
def context_update_with_data (crc8 : List Nat → Nat) (ctx : Context) (pkg : Pkg) :
    Option (Nat × Context × Pkg) :=
  let ctx1 := { ctx with win_i := WINSZ }
  let valid := pkgvalid crc8 pkg
  if valid && pkg.indx == ctx1.indx then
    let pkg1 := pkg_rmv_sentinel_bytes pkg
    let ctx2 := { ctx1 with recv := (ctx1.recv + pkg1.size) % 2 ^ 64 }
    let ctx3 := { ctx2 with fp := ctx2.fp ++ pkg1.content.take pkg1.size }
    match init_pkg_with_ack crc8 with
    | none => none
    | some a => some (1, incindx { ctx3 with win_buf := a }, pkg1)
  else
    match init_pkg_with_nack crc8 ctx1.indx with
    | none => none
    | some n => some (1, { ctx1 with win_buf := n, skip := 1 }, pkg)

/-- The function `has_disk_space` of `context.c`.  `st` is what `statvfs(".")`
reports: `none` when the call fails, else `(f_bsize, f_bavail)`. -/
def has_disk_space (st : Option (Nat × Nat)) (size : Nat) : Bool :=
  match st with
  | none => false
  | some (f_bsize, f_bavail) => decide ((f_bsize * f_bavail) % 2 ^ 64 > size)

/-- The function `context_update_with_descriptor` of `context.c`. -/
def context_update_with_descriptor (crc8 : List Nat → Nat) (st : Option (Nat × Nat))
    (ctx : Context) (pkg : Pkg) : Option (Nat × Context × Pkg) :=
  let valid := pkgvalid crc8 pkg
  if valid && pkg.indx == ctx.indx && has_disk_space st pkg.size then
    match init_pkg_with_ack crc8 with
    | none => none
    | some a => some (1, { ctx with win_buf := a, recv := (ctx.recv + pkg.size) % 2 ^ 64 }, pkg)
  else
    match init_pkg_with_nack crc8 ctx.indx with
    | none => none
    | some n => some (0, { ctx with win_buf := n }, pkg)

/-- The bytes of the macro `RED`. -/
def RED : List Nat := [27, 91, 51, 49, 109]

/-- The bytes of the macro `RESET`. -/
def RESET : List Nat := [27, 91, 48, 109]

/-- What `printf(RED"- %s"RESET"\n", str)` prints: `%s` stops at the first
zero byte of `str`. -/
def show_line (str : List Nat) : List Nat :=
  RED ++ [45, 32] ++ str.takeWhile (fun b => b != 0) ++ RESET ++ [10]

/-- The function `context_update_with_show` of `context.c`. -/
def context_update_with_show (crc8 : List Nat → Nat) (ctx : Context) (pkg : Pkg) :
    Option (Nat × Context × Pkg) :=
  let valid := pkgvalid crc8 pkg
  if valid && pkg.indx == ctx.indx then
    let size := pkg.size
    let ctx1 := { ctx with recv := (ctx.recv + size) % 2 ^ 64 }
    match init_pkg_with_ack crc8 with
    | none => none
    | some a =>
      let str := pkg.content.take size ++ [0]
      some (1, incindx { ctx1 with win_buf := a, stdout := ctx1.stdout ++ show_line str }, pkg)
  else
    match init_pkg_with_nack crc8 ctx.indx with
    | none => none
    | some n => some (1, ctx, n)

/-- The function `context_update_with_meta_pkgs` of `context.c`. -/
def context_update_with_meta_pkgs (crc8 : List Nat → Nat) (ctx : Context) (pkg : Pkg) :
    Option (Nat × Context × Pkg) :=
  let valid := pkgvalid crc8 pkg
  if valid && pkg.type == PKG_END then
    some (1, { ctx with completed := 1 }, pkg)
  else
    some (0, ctx, pkg)

/-- The function `context_download_update` of `context.c`. -/
def context_download_update (crc8 : List Nat → Nat) (st : Option (Nat × Nat))
    (ctx : Context) (pkg : Pkg) : Option (Nat × Context × Pkg) :=
  if pkg.type == PKG_DATA then
    context_update_with_data crc8 ctx pkg
  else if pkg.type == PKG_DESCRIPTOR then
    context_update_with_descriptor crc8 st ctx pkg
  else
    context_update_with_meta_pkgs crc8 ctx pkg

/-- The function `context_ls_update` of `context.c`. -/
def context_ls_update (crc8 : List Nat → Nat) (ctx : Context) (pkg : Pkg) :
    Option (Nat × Context × Pkg) :=
  if pkg.type == PKG_SHOW then
    context_update_with_show crc8 ctx pkg
  else
    context_update_with_meta_pkgs crc8 ctx pkg

/-- The requester's function `context_update` of `context.c`. -/
def context_update (crc8 : List Nat → Nat) (st : Option (Nat × Nat))
    (ctx : Context) (pkg : Pkg) : Option (Nat × Context × Pkg) :=
  match ctx.type with
  | CtxType.CTX_DOWNLOAD => context_download_update crc8 st ctx pkg
  | CtxType.CTX_LS => context_ls_update crc8 ctx pkg

/-! ## Reference instances used at concrete inputs -/

/-- One step of a bitwise CRC-8 with polynomial `0x07`: shift left, reduce. -/
def crc8_bit (c : Nat) : Nat :=
  if c ≥ 128 then ((c * 2) % 256) ^^^ 0x07 else c * 2

/-- A concrete checksum to instantiate the parameter `crc8` with: CRC-8 with
polynomial `0x07` and initial value `0`. -/
def crc8_ref (buf : List Nat) : Nat :=
  buf.foldl (fun c b => Nat.iterate crc8_bit 8 (c ^^^ (b % 256))) 0

/-- A frame as `calloc` leaves it: every byte zero. -/
def zero_pkg : Pkg :=
  { marker := 0, size := 0, indx := 0, type := 0, content := List.replicate 63 0, crc8 := 0 }

/-- A session as `calloc` and the first stores of `context_init` leave it:
every field zero, `win.i = 1`. -/
def zero_ctx (type : CtxType) : Context :=
  { type := type, completed := 0, invalid := 0, ack := 0, skip := 0, error := 0, indx := 0,
    recv := 0, k := 0, win_i := 1, win_buf := zero_pkg, fp := [], stdout := [] }

/-- A DATA frame with index 1 whose content is the stuffed image of
`[0x88, 0x00, 0x81]`, with its checksum under `crc8_ref`. -/
def data_example : Pkg :=
  { marker := PKG_MARKER, size := 5, indx := 1, type := PKG_DATA,
    content := [0x88, 0xff, 0x00, 0x81, 0xff] ++ List.replicate 58 0, crc8 := 21 }

/-- The SHOW frame with index 0 that `pkginit` builds for the entry name `"a"`
under `crc8_ref`. -/
def show_example : Pkg :=
  { marker := PKG_MARKER, size := 2, indx := 0, type := PKG_SHOW,
    content := [0x61] ++ List.replicate 62 0, crc8 := 38 }

/-- The ACK frame under `crc8_ref`. -/
def ack_example : Pkg :=
  { marker := PKG_MARKER, size := 0, indx := 0, type := PKG_ACK,
    content := List.replicate 63 0, crc8 := 0 }

/-- The ERROR frame without payload under `crc8_ref`. -/
def error_example : Pkg :=
  { marker := PKG_MARKER, size := 0, indx := 0, type := PKG_ERROR,
    content := List.replicate 63 0, crc8 := 174 }

/-! ## Auxiliary notions used in the statements -/

/-- The stuffed image of a byte sequence: every sentinel is followed by `0xff`. -/
def stuff : List Nat → List Nat
  | [] => []
  | b :: bs => if is_sentinel b then b :: 0xff :: stuff bs else b :: stuff bs

/-- The unstuffed image of content bytes: a sentinel is kept and the byte after
it, whatever its value, is dropped. -/
def unstuff : List Nat → List Nat
  | [] => []
  | [b] => [b]
  | b :: c :: t => if is_sentinel b then b :: unstuff t else b :: unstuff (c :: t)

/-- The frame's `content[0..size)` is what the stuffing loop has written for the
source bytes `src`: scanning it with the loop of `pkg_rmv_sentinel_bytes` gives
back `src`, and the scan can only end right after a sentinel (flag set) when the
content area is full. -/
def Stuffed (pkg : Pkg) (src : List Nat) : Prop :=
  pkg.content.length = 63 ∧ pkg.size ≤ 63 ∧
    (rmv_scan (pkg.content.take pkg.size)).2 = src ∧
    ((rmv_scan (pkg.content.take pkg.size)).1 = true → pkg.size = 63)

/-- The frame `pkginit` starts from, after `memset` and the header stores. -/
def pkginit_blank (indx type : Nat) : Pkg :=
  { marker := PKG_MARKER, size := 0, indx := (indx % 256) % 32, type := type % 32,
    content := List.replicate 63 0, crc8 := 0 }

/-- The byte sequence `r` with bit `k` of its byte `j` inverted. -/
def flip_bit (r : List Nat) (j k : Nat) : List Nat :=
  r.set j (r.getD j 0 ^^^ 2 ^ k)

/-- The frame with bit `k` of `content[j]` inverted. -/
def flip_content_bit (pkg : Pkg) (j k : Nat) : Pkg :=
  { pkg with content := flip_bit pkg.content j k }

/-- The frame with bit `k` of its `crc8` byte inverted. -/
def flip_crc8_bit (pkg : Pkg) (k : Nat) : Pkg :=
  { pkg with crc8 := pkg.crc8 ^^^ 2 ^ k }

/-- The frame with bit `k` of its `size` field inverted: bit `k` of byte 1,
`k < 6`. -/
def flip_size_bit (pkg : Pkg) (k : Nat) : Pkg :=
  { pkg with size := pkg.size ^^^ 2 ^ k }

/-- The frame with bit `k` of its `indx` field inverted: bit `k` of byte 2,
`k < 5`. -/
def flip_indx_bit (pkg : Pkg) (k : Nat) : Pkg :=
  { pkg with indx := pkg.indx ^^^ 2 ^ k }

/-- The frame with bit `k` of its `type` field inverted: bit `5 + k` of byte 2
for `k < 3`, bit `k - 3` of byte 3 for `k = 3` and `k = 4`. -/
def flip_type_bit (pkg : Pkg) (k : Nat) : Pkg :=
  { pkg with type := pkg.type ^^^ 2 ^ k }

/-- The inverse of `crc8_bit` on the values below 256. -/
def crc8_bit_inv (y : Nat) : Nat :=
  if y % 2 = 1 then (y ^^^ 0x07) / 2 + 128 else y / 2

/-- The SHOW frame with index 8 that `pkginit` builds for the entry name `"x"`
under `crc8_ref`. -/
def size_flip_example : Pkg :=
  { marker := PKG_MARKER, size := 2, indx := 8, type := PKG_SHOW,
    content := [0x78] ++ List.replicate 62 0, crc8 := 56 }

/-- Calls `pkgread` on the stream until it returns `-1` and collects the frames
it produced, in order.  `fuel` bounds the number of calls. -/
def read_chunks (byte0 : Nat) : Nat → Pkg → List FRead → Option (List Pkg)
  | 0, _, _ => none
  | fuel + 1, pkg, fp =>
    match pkgread pkg byte0 fp with
    | none => none
    | some (ret, p, rest) =>
      if ret = -1 then some [p]
      else
        match read_chunks byte0 fuel p rest with
        | none => none
        | some ps => some (p :: ps)

/-- The receiver's view of a list of frames: each is unstuffed with
`pkg_rmv_sentinel_bytes` and the `content[0..size)` are concatenated. -/
def decode_chunks : List Pkg → List Nat
  | [] => []
  | p :: ps => payload (pkg_rmv_sentinel_bytes p) ++ decode_chunks ps

/-! ## The requester's session set-up and window loop (`client/src/context.c`, `client/src/main.c`) -/

/-- The requester's function `context_init_download`.  `fopen_ok` tells whether
`fopen(path, "wb")` succeeds; `path` holds the bytes of the string before its
terminator. -/
def context_init_download (crc8 : List Nat → Nat) (fopen_ok : Bool) (ctx : Context)
    (path : List Nat) : Option (Nat × Context) :=
  let ctx1 := { ctx with win_i := 1 }
  if fopen_ok then
    match pkginit crc8 path.length 0 PKG_DOWNLOAD (some path) with
    | none => none
    | some p => some (1, { ctx1 with fp := [], win_buf := p })
  else
    some (0, ctx1)

/-- The requester's function `context_init_ls`. -/
def context_init_ls (crc8 : List Nat → Nat) (ctx : Context) : Option (Nat × Context) :=
  let ctx1 := { ctx with win_i := 1 }
  match pkginit crc8 0 0 PKG_LS none with
  | none => none
  | some p => some (1, { ctx1 with win_buf := p })

/-- The requester's function `context_init`. -/
def context_init (crc8 : List Nat → Nat) (fopen_ok : Bool) (ctx : Context) (type : CtxType)
    (path : List Nat) : Option (Nat × Context) :=
  let ctx1 := { ctx with indx := 0, type := type }
  match type with
  | CtxType.CTX_DOWNLOAD => context_init_download crc8 fopen_ok ctx1 path
  | CtxType.CTX_LS => context_init_ls crc8 ctx1

/-- The frame the macro `pkgsend_ack` builds and sends. -/
def pkgsend_ack (crc8 : List Nat → Nat) : Option Pkg :=
  pkginit crc8 0 0 PKG_ACK none

/-- The state of the requester's `process_context`: the session, the loop
variables `i` and `count`, the frames sent on the socket so far (oldest first)
and whether the label `_end` was reached. -/
structure Loop where
  ctx : Context
  i : Nat
  count : Nat
  sent : List Pkg
  ended : Bool
deriving DecidableEq

/-- The state in which `process_context` starts. -/
def loop_start (ctx : Context) : Loop :=
  { ctx := ctx, i := 0, count := 0, sent := [], ended := false }

/-- One pass through the body of the inner `for` of `process_context`,
followed by its `i++`.  `pkg` is the receive buffer after the call of
`pkgrecv`, which with `TIMEOUT = 0` always returns 1. -/
def process_context_body (crc8 : List Nat → Nat) (st : Option (Nat × Nat)) (s : Loop)
    (pkg : Pkg) : Option Loop :=
  let after_recv : Option Loop :=
    if ispkg pkg then
      let s1 := { s with count := s.count + 1 }
      if s1.ctx.skip = 0 then
        match context_update crc8 st s1.ctx pkg with
        | none => none
        | some (_, ctx1, _) =>
          if ctx1.completed ≠ 0 then
            match pkgsend_ack crc8 with
            | none => none
            | some a => some { s1 with ctx := ctx1, sent := s1.sent ++ [a], ended := true }
          else if ctx1.ack ≠ 0 then
            some { s1 with ctx := { ctx1 with ack := 0 }, i := 0 }
          else
            some { s1 with ctx := ctx1 }
      else some s1
    else some s
  match after_recv with
  | none => none
  | some s2 =>
    if s2.ended then some s2
    else if s2.count = s2.ctx.win_i then
      some { s2 with ctx := { s2.ctx with skip := 0 }, sent := s2.sent ++ [s2.ctx.win_buf],
                     count := 0, i := s2.i + 1 }
    else
      some { s2 with i := s2.i + 1 }

/-- The test of the inner `for` of `process_context`: when it has run out
(`i ≥ win.i`) the outer `for(;;)` starts it again with `i = 0`. -/
def loop_norm (s : Loop) : Loop :=
  if s.i < s.ctx.win_i then s else { s with i := 0 }

/-- The loops of `process_context` run over the successive contents of the
receive buffer; with `win.i = 0` no frame is ever received. -/
def process_context (crc8 : List Nat → Nat) (st : Option (Nat × Nat)) :
    Loop → List Pkg → Option Loop
  | s, [] => some s
  | s, pkg :: rest =>
    if s.ended then some s
    else
      let s0 := loop_norm s
      if s0.i < s0.ctx.win_i then
        match process_context_body crc8 st s0 pkg with
        | none => none
        | some s1 => process_context crc8 st s1 rest
      else some s0

/-! ## The responder (`server/src/utils.c`, `server/src/context.h`, `server/src/context.c`) -/

namespace Server

/-- The bytes of the macro `ASSETS_PATH`, the string `"./assets/"`. -/
def ASSETS_PATH : List Nat := [46, 47, 97, 115, 115, 101, 116, 115, 47]

/-- The string a buffer holds for the C library: the bytes before the first
zero byte. -/
def cstr (buf : List Nat) : List Nat :=
  buf.takeWhile (fun b => b != 0)

/-- The eight bytes of a `size_t` in memory, least significant first. -/
def size_bytes (n : Nat) : List Nat :=
  (List.range 8).map (fun k => (n / 256 ^ k) % 256)

/-- What `get_asset_path` produces: the number of bytes it allocated, the
allocation after the stores that fall inside it, and the index of its last
store. -/
structure AssetPath where
  alloc : Nat
  path : List Nat
  nul_at : Nat
deriving DecidableEq

/-- The function `get_asset_path` of `utils.c` (the allocation is taken to
succeed).  The last store, `path[bytes + n] = 0`, is recorded in `nul_at`; a
store at an index outside the allocation leaves `path` as it is. -/
def get_asset_path (name : List Nat) (n : Nat) : AssetPath :=
  let bytes := ASSETS_PATH.length + 1
  let path0 := List.replicate (n + bytes) 0
  let path1 := ASSETS_PATH.take (bytes - 1) ++ path0.drop (bytes - 1)
  let path2 := path1.take (bytes - 1) ++ name.take n ++ path1.drop (bytes - 1 + n)
  let path3 := path2.set (bytes + n) 0
  { alloc := n + bytes, path := path3, nul_at := bytes + n }

/-- One entry of the asset directory as `readdir` returns it: whether `d_type`
is `DT_DIR`, and the bytes of `d_name` before its terminator. -/
structure Dirent where
  is_dir : Bool
  d_name : List Nat
deriving DecidableEq

/-- The file system as the responder sees it: `fopen(path, "rb")` gives the
stream of read outcomes of the file or fails, `stat(path)` gives `st_size` or
fails, `opendir("./assets/")` gives the entries in `readdir` order or fails. -/
structure FileSys where
  fopen : List Nat → Option (List FRead)
  stat : List Nat → Option Nat
  opendir : Option (List Dirent)

/-- The responder's `struct Context`.  `end_` is the field `end`; `win_i` and
`win_buf` are `win.i` and the five frames of `win.buf`; `fp` and `dp` are the
two views of `desc`, `none` for a null pointer, else what is left to read. -/
structure Context where
  type : CtxType
  end_ : Nat
  completed : Nat
  indx : Nat
  sent : Nat
  k : Nat
  win_i : Nat
  win_buf : List Pkg
  fp : Option (List FRead)
  dp : Option (List Dirent)
deriving DecidableEq

/-- The function `context_create` of the responder (the allocation is taken to
succeed): every byte zero. -/
def context_create : Context :=
  { type := CtxType.CTX_DOWNLOAD, end_ := 0, completed := 0, indx := 0, sent := 0, k := 0,
    win_i := 0, win_buf := List.replicate WINSZ zero_pkg, fp := none, dp := none }

/-- The macro `incindx` of the responder's `context.defs.h`. -/
def incindx (ctx : Context) : Context :=
  let ctx1 := { ctx with indx := (ctx.indx + 1) % 2 ^ 64 }
  if ctx1.indx = PKG_MAX_IND then { ctx1 with indx := 0 } else ctx1

/-- The function `download_initial_response`; `sizeof size` is 8. -/
def download_initial_response (crc8 : List Nat → Nat) (fs : FileSys) (ctx : Context)
    (path : List Nat) : Option (Int × Context) :=
  match fs.stat path with
  | some st_size =>
    let size := st_size % 2 ^ 64
    match pkginit crc8 8 0 PKG_DESCRIPTOR (some (size_bytes size)) with
    | none => none
    | some p => some (1, { ctx with win_buf := ctx.win_buf.set 0 p })
  | none => some (0, ctx)

/-- The responder's function `context_init_download`. -/
def context_init_download (crc8 : List Nat → Nat) (fs : FileSys) (ctx : Context) (pkg : Pkg) :
    Option (Int × Context) :=
  let ctx1 := { ctx with win_i := 1, type := CtxType.CTX_DOWNLOAD }
  let asset := get_asset_path pkg.content pkg.size
  match fs.fopen (cstr asset.path) with
  | some f =>
    match download_initial_response crc8 fs { ctx1 with fp := some f } (cstr asset.path) with
    | none => none
    | some (ret, ctx2) =>
      if ret = 0 then some (ret, { ctx2 with fp := none }) else some (ret, ctx2)
  | none => some (0, { ctx1 with fp := none })

/-- The loop `while((entry = readdir(dp)))` of `context_ls_update_with_ack`: the
first entry that is not a directory, if any, and what is left of the stream. -/
def next_file : List Dirent → Option Dirent × List Dirent
  | [] => (none, [])
  | e :: rest => if e.is_dir then next_file rest else (some e, rest)

/-- The function `context_ls_update_with_ack`. -/
def context_ls_update_with_ack (crc8 : List Nat → Nat) (ctx : Context) :
    Option (Int × Context) :=
  match ctx.dp with
  | none => none
  | some entries =>
    let found := next_file entries
    let ctx1 := { ctx with dp := some found.2 }
    match found.1 with
    | some entry =>
      let fname := entry.d_name
      let size := fname.length
      match pkginit crc8 size ctx1.indx PKG_SHOW (some fname) with
      | none => none
      | some p =>
        some (1, incindx { ctx1 with win_buf := ctx1.win_buf.set 0 p,
                                     sent := (ctx1.sent + size) % 2 ^ 64 })
    | none => some (-1, { incindx ctx1 with end_ := 1 })

/-- The responder's function `context_init_ls`. -/
def context_init_ls (crc8 : List Nat → Nat) (fs : FileSys) (ctx : Context) :
    Option (Int × Context) :=
  let ctx1 := { ctx with win_i := 1, type := CtxType.CTX_LS, dp := fs.opendir }
  match ctx1.dp with
  | some _ =>
    match context_ls_update_with_ack crc8 ctx1 with
    | none => none
    | some (ret, ctx2) =>
      if ret = 0 then some (ret, { ctx2 with dp := none }) else some (ret, ctx2)
  | none => some (0, ctx1)

/-- The responder's function `context_init`. -/
def context_init (crc8 : List Nat → Nat) (fs : FileSys) (ctx : Context) (pkg : Pkg) :
    Option (Int × Context) :=
  let ctx1 := { ctx with indx := 0 }
  if pkg.type == PKG_DOWNLOAD then context_init_download crc8 fs ctx1 pkg
  else if pkg.type == PKG_LS then context_init_ls crc8 fs ctx1
  else some (0, ctx1)

/-- The function `initpkg_data_meta`. -/
def initpkg_data_meta (crc8 : List Nat → Nat) (pkg : Pkg) (indx : Nat) : Pkg :=
  let pkg1 := { pkg with marker := PKG_MARKER, type := PKG_DATA % 32, indx := indx % 32 }
  { pkg1 with crc8 := crc8 (crc_region pkg1) % 256 }

/-- The loop of `fill_context_buf_from_index`, with the loop variable `i` and
`ret`.  `fuel` bounds the number of passes; running out of it gives `none`. -/
def fill_loop (crc8 : List Nat → Nat) (byte0 : Nat) :
    Nat → Context → Nat → Int → Option (Context × Nat × Int)
  | 0, ctx, i, ret => if i < WINSZ ∧ ret > 0 then none else some (ctx, i, ret)
  | fuel + 1, ctx, i, ret =>
    if i < WINSZ ∧ ret > 0 then
      match ctx.fp, ctx.win_buf[i]? with
      | some fp, some slot =>
        match pkgread slot byte0 fp with
        | none => none
        | some (r, p, rest) =>
          let ctx1 := { ctx with fp := some rest, win_buf := ctx.win_buf.set i p }
          let ctx2 :=
            if r ≠ 0 then
              incindx { ctx1 with sent := (ctx1.sent + p.size) % 2 ^ 64,
                                  win_buf := ctx1.win_buf.set i
                                    (initpkg_data_meta crc8 p ctx1.indx) }
            else ctx1
          fill_loop crc8 byte0 fuel ctx2 (i + 1) r
      | _, _ => none
    else some (ctx, i, ret)

/-- The function `fill_context_buf_from_index`. -/
def fill_context_buf_from_index (crc8 : List Nat → Nat) (byte0 : Nat) (ctx : Context)
    (i : Nat) : Option (Int × Context) :=
  match fill_loop crc8 byte0 WINSZ ctx i 1 with
  | none => none
  | some (ctx1, i1, ret) =>
    let ctx2 := { ctx1 with win_i := i1 }
    if ret < 0 then some (ret, { ctx2 with end_ := 1 }) else some (ret, ctx2)

/-- The function `context_download_update_with_ack`. -/
def context_download_update_with_ack (crc8 : List Nat → Nat) (byte0 : Nat) (ctx : Context) :
    Option (Int × Context) :=
  fill_context_buf_from_index crc8 byte0 ctx 0

/-- The function `context_update_with_ack`. -/
def context_update_with_ack (crc8 : List Nat → Nat) (byte0 : Nat) (ctx : Context) :
    Option (Int × Context) :=
  if ctx.end_ ≠ 0 then some (-1, { ctx with completed := 1 })
  else
    match ctx.type with
    | CtxType.CTX_DOWNLOAD => context_download_update_with_ack crc8 byte0 ctx
    | CtxType.CTX_LS => context_ls_update_with_ack crc8 ctx

/-- The function `find_nack_pkg`: the first of the `WINSZ` slots whose frame
carries the index `nack`, if there is one. -/
def find_nack_pkg (ctx : Context) (nack : Nat) : Option Nat :=
  (List.range WINSZ).find? (fun i =>
    match ctx.win_buf[i]? with
    | some p => p.indx == nack
    | none => false)

/-- The call `memmove(&buf[0], &buf[failed], (win.i - failed) * sizeof buf[0])`.
When `failed` exceeds `win.i` the length wraps around as a `size_t`, and when
`win.i` exceeds the array the copy would read past the last slot: such a copy is
outside what the C language defines, and the model leaves the five slots as
they are.  The caller goes on in either case. -/
def memmove_win (ctx : Context) (failed : Nat) : Context :=
  if failed ≤ ctx.win_i ∧ ctx.win_i ≤ ctx.win_buf.length then
    let n := ctx.win_i - failed
    { ctx with win_buf := (ctx.win_buf.drop failed).take n ++ ctx.win_buf.drop n }
  else ctx

/-- The difference `a - b` of two `size_t` values: it wraps around modulo
`2 ^ 64` when `b` exceeds `a`. -/
def size_sub (a b : Nat) : Nat :=
  (a % 2 ^ 64 + (2 ^ 64 - b % 2 ^ 64)) % 2 ^ 64

/-- The function `context_download_update_with_nack`. -/
def context_download_update_with_nack (crc8 : List Nat → Nat) (byte0 : Nat) (ctx : Context)
    (pkg : Pkg) : Option (Int × Context) :=
  let indx := pkg.indx
  match find_nack_pkg ctx indx with
  | some failed =>
    if failed > 0 then
      let ctx1 := memmove_win ctx failed
      if ctx1.end_ ≠ 0 then some (1, { ctx1 with win_i := size_sub ctx1.win_i failed })
      else fill_context_buf_from_index crc8 byte0 ctx1 (size_sub ctx1.win_i failed)
    else some (1, ctx)
  | none => fill_context_buf_from_index crc8 byte0 ctx 0

/-- The function `context_update_with_nack`. -/
def context_update_with_nack (crc8 : List Nat → Nat) (byte0 : Nat) (ctx : Context)
    (pkg : Pkg) : Option (Int × Context) :=
  match ctx.type with
  | CtxType.CTX_DOWNLOAD =>
    if ctx.end_ ≠ 0 ∧ find_nack_pkg ctx pkg.indx = none then
      some (-1, { ctx with completed := 1 })
    else context_download_update_with_nack crc8 byte0 ctx pkg
  | CtxType.CTX_LS => some (1, ctx)

/-- The responder's function `context_update`. -/
def context_update (crc8 : List Nat → Nat) (byte0 : Nat) (ctx : Context) (pkg : Pkg) :
    Option (Int × Context) :=
  if pkg.type == PKG_ACK then context_update_with_ack crc8 byte0 ctx
  else if pkg.type == PKG_NACK then context_update_with_nack crc8 byte0 ctx pkg
  else some (0, ctx)

/-- The window buffer has its five slots and every slot its 63 content bytes. -/
def WinOk (ctx : Context) : Prop :=
  ctx.win_buf.length = WINSZ ∧ ∀ q ∈ ctx.win_buf, q.content.length = 63

/-- The frame is a DATA frame with index `idx` as the responder puts it on the
wire: marker, type, index, a 6-bit `size` and the checksum of its region. -/
def DataFrame (crc8 : List Nat → Nat) (q : Pkg) (idx : Nat) : Prop :=
  q.marker = PKG_MARKER ∧ q.type = PKG_DATA ∧ q.indx = idx ∧ pkgvalid crc8 q = true ∧
    q.size ≤ 63 ∧ q.content.length = 63

/-- The session after a sequence of replies, each handed to `context_update`
as `process_context` does with the valid frames it receives. -/
def run_updates (crc8 : List Nat → Nat) (byte0 : Nat) : Context → List Pkg → Option Context
  | ctx, [] => some ctx
  | ctx, p :: ps =>
    match context_update crc8 byte0 ctx p with
    | none => none
    | some (_, ctx1) => run_updates crc8 byte0 ctx1 ps

/-- A file system in which every path names one regular file with the bytes
`f`, read without error; there is no asset directory. -/
def fs_single (f : List Nat) : FileSys :=
  { fopen := fun _ => some (f.map FRead.byte),
    stat := fun _ => some f.length,
    opendir := none }

/-- The DOWNLOAD request the requester builds for the name `"f"` under
`crc8_ref`. -/
def request_example : Pkg :=
  { marker := PKG_MARKER, size := 2, indx := 0, type := PKG_DOWNLOAD,
    content := [0x66] ++ List.replicate 62 0, crc8 := 201 }

/-- The DESCRIPTOR frame the responder builds under `crc8_ref` for a file of
1000000 bytes: the eight bytes `40 42 0F 00 00 00 00 00`, `size = 9`. -/
def descriptor_example : Pkg :=
  { marker := PKG_MARKER, size := 9, indx := 0, type := PKG_DESCRIPTOR,
    content := [0x40, 0x42, 0x0f] ++ List.replicate 60 0, crc8 := 134 }

/-- The DATA frame the responder builds under `crc8_ref` for a chunk of `size`
zero bytes read into a zeroed slot, with index `indx`. -/
def zeros_frame (size indx : Nat) : Pkg :=
  initpkg_data_meta crc8_ref { zero_pkg with size := size } indx

/-- The NACK frames `init_pkg_with_nack` builds for index 0, 1 and 3 under
`crc8_ref`. -/
def nack0_example : Pkg := { pkginit_blank 0 PKG_NACK with crc8 := 224 }

def nack1_example : Pkg := { pkginit_blank 1 PKG_NACK with crc8 := 231 }

def nack3_example : Pkg := { pkginit_blank 3 PKG_NACK with crc8 := 233 }

/-- The session `context_init` produces under `crc8_ref` from a fresh context
for a DOWNLOAD request when the asset holds 64 zero bytes. -/
def opened_example : Context :=
  { context_create with
    win_i := 1, fp := some ((List.replicate 64 0).map FRead.byte),
    win_buf :=
      { marker := PKG_MARKER, size := 9, indx := 0, type := PKG_DESCRIPTOR,
        content := [64] ++ List.replicate 62 0, crc8 := 234 } :: List.replicate 4 zero_pkg }

/-- A session whose window holds the two DATA frames of an asset of 64 zero
bytes, the end of the file reached. -/
def drained_example : Context :=
  { context_create with
    win_i := 2, end_ := 1, indx := 2, sent := 64, fp := some [],
    win_buf := [zeros_frame 63 0, zeros_frame 1 1] ++ List.replicate 3 zero_pkg }

/-- A session whose window holds the first five DATA frames of an asset of 400
zero bytes, with 85 bytes left to read. -/
def window_example : Context :=
  { context_create with
    win_i := 5, indx := 5, sent := 315, fp := some ((List.replicate 85 0).map FRead.byte),
    win_buf := [zeros_frame 63 0, zeros_frame 63 1, zeros_frame 63 2, zeros_frame 63 3,
                zeros_frame 63 4] }

/-- The session the responder reaches under `crc8_ref` from a fresh context
through a DOWNLOAD request for an asset of 64 zero bytes, an ACK and a NACK for
index 1, if every step has a result. -/
def stale_example : Option Context :=
  (context_init crc8_ref (fs_single (List.replicate 64 0)) context_create request_example).bind
    (fun r => run_updates crc8_ref 0 r.2 [ack_example, nack1_example])

/-! ### The responder's loops (`server/src/main.c`) -/

/-- The macro `DELTA`. -/
def DELTA : Nat := 40

/-- The array `ERROR_MSG`: the bytes of `"Invalid Operation."` and the
terminator. -/
def ERROR_MSG : List Nat :=
  [73, 110, 118, 97, 108, 105, 100, 32, 79, 112, 101, 114, 97, 116, 105, 111, 110, 46, 0]

/-- The macro `ERROR_MSG_SIZE`, `sizeof ERROR_MSG`. -/
def ERROR_MSG_SIZE : Nat := ERROR_MSG.length

/-- The macro `iscontext`. -/
def iscontext (pkg : Pkg) : Bool :=
  pkg.type == PKG_LS || pkg.type == PKG_DOWNLOAD

/-- The call `pkgrecv(&pkg, sock, TIMEOUT)` with a non-zero timeout.  `ev` is
what arrives on the socket during the call: nothing, or one buffer.  The call
returns 1 with the buffer when it carries the marker; a buffer without the
marker is dropped and the call runs into the timeout. -/
def pkgrecv_timeout (ev : Option Pkg) : Option Pkg :=
  match ev with
  | some p => if ispkg p then some p else none
  | none => none

/-- The first of a sequence of receive events and the events after it; a
sequence that has run out stands for time-outs. -/
def next_event : List (Option Pkg) → Option Pkg × List (Option Pkg)
  | [] => (none, [])
  | e :: rest => (e, rest)

/-- The tests `pkgrecv(&pkg, sock, TIMEOUT) && pkgvalid(&pkg)` and
`PkgAck(&pkg)` of `process_context_end`. -/
def end_acked (crc8 : List Nat → Nat) (ev : Option Pkg) : Bool :=
  match pkgrecv_timeout ev with
  | some p => pkgvalid crc8 p && p.type == PKG_ACK
  | none => false

/-- The loop `for(; count < DELTA;)` of `process_context_end`: the final
`count`, the frames sent and the receive events left.  `fuel` bounds the number
of passes. -/
def process_context_end_loop (crc8 : List Nat → Nat) (snd : Pkg) :
    Nat → Nat → List (Option Pkg) → Nat × List Pkg × List (Option Pkg)
  | 0, count, evs => (count, [], evs)
  | fuel + 1, count, evs =>
    if count < DELTA then
      let ev := next_event evs
      if end_acked crc8 ev.1 then (count, [snd], ev.2)
      else
        let r := process_context_end_loop crc8 snd fuel (count + 1) ev.2
        (r.1, snd :: r.2.1, r.2.2)
    else (count, [], evs)

/-- The function `process_context_end`: the frames sent and the receive events
left. -/
def process_context_end (crc8 : List Nat → Nat) (type : Nat) (evs : List (Option Pkg)) :
    Option (List Pkg × List (Option Pkg)) :=
  let msg := if type = PKG_ERROR then some ERROR_MSG else none
  let size := if type = PKG_ERROR then ERROR_MSG_SIZE else 0
  match pkginit crc8 size 0 type msg with
  | none => none
  | some snd =>
    let r := process_context_end_loop crc8 snd DELTA 0 evs
    some (r.2.1, r.2.2)

/-- The function `sendwin`: the frames of slots `0 .. win.i - 1`, in order.
Reading a slot beyond the array gives `none`. -/
def sendwin (ctx : Context) : Option (List Pkg) :=
  if ctx.win_i ≤ ctx.win_buf.length then some (ctx.win_buf.take ctx.win_i) else none

/-- What `process_context` has done when the receive events listed have been
used up: the frames sent (oldest first), the session, and whether the loop was
left through finalization. -/
structure Served where
  sent : List Pkg
  ctx : Context
  finished : Bool
deriving DecidableEq

/-- The frames `win` sent before what follows. -/
def after_sendwin (win : List Pkg) (r : Option Served) : Option Served :=
  match r with
  | none => none
  | some s => some { s with sent := win ++ s.sent }

/-- The responder's function `process_context`, one pass of its `for(;;)` per
receive event. -/
def process_context (crc8 : List Nat → Nat) (byte0 : Nat) :
    Context → List (Option Pkg) → Option Served
  | ctx, [] => some { sent := [], ctx := ctx, finished := false }
  | ctx, ev :: rest =>
    match sendwin ctx with
    | none => none
    | some win =>
      match pkgrecv_timeout ev with
      | some p =>
        if pkgvalid crc8 p then
          match context_update crc8 byte0 ctx p with
          | none => none
          | some (_, ctx1) =>
            if ctx1.completed ≠ 0 then
              match process_context_end crc8 PKG_END rest with
              | none => none
              | some (sent, _) => some { sent := win ++ sent, ctx := ctx1, finished := true }
            else after_sendwin win (process_context crc8 byte0 ctx1 rest)
        else after_sendwin win (process_context crc8 byte0 ctx rest)
      | none => after_sendwin win (process_context crc8 byte0 ctx rest)

/-- One pass of the `for(;;)` of `main`: `pkg` is the buffer after
`pkgrecv(&pkg, sock, 0)`, `evs` the receive events that follow; the result is
the list of frames sent, oldest first. -/
def main_pass (crc8 : List Nat → Nat) (byte0 : Nat) (fs : FileSys) (pkg : Pkg)
    (evs : List (Option Pkg)) : Option (List Pkg) :=
  if pkgvalid crc8 pkg && iscontext pkg then
    match context_init crc8 fs context_create pkg with
    | none => none
    | some (ret, ctx) =>
      if ret ≠ 0 then
        match pkgsend_ack crc8, process_context crc8 byte0 ctx evs with
        | some a, some s => some (a :: s.sent)
        | _, _ => none
      else
        match process_context_end crc8 PKG_ERROR evs with
        | none => none
        | some (sent, _) => some sent
  else some []

/-- The receive event of attempt `n` (from 0) in a sequence of events. -/
def nth_event (evs : List (Option Pkg)) (n : Nat) : Option Pkg :=
  (next_event (evs.drop n)).1

/-- The LS request the requester builds under `crc8_ref`. -/
def ls_request_example : Pkg := { pkginit_blank 0 PKG_LS with crc8 := 199 }

/-- The END frame `process_context_end` builds under `crc8_ref`. -/
def end_example : Pkg := { pkginit_blank 0 PKG_END with crc8 := 78 }

/-- The ERROR frame `process_context_end` builds under `crc8_ref`. -/
def error_frame_example : Pkg :=
  { marker := PKG_MARKER, size := 20, indx := 0, type := PKG_ERROR,
    content := ERROR_MSG ++ List.replicate 44 0, crc8 := 2 }

/-- A file system with no asset file and the asset directory with the entries
`es`. -/
def fs_dir (es : List Dirent) : FileSys :=
  { fopen := fun _ => none, stat := fun _ => none, opendir := some es }

/-- A file system in which neither an asset nor the asset directory opens. -/
def fs_none : FileSys :=
  { fopen := fun _ => none, stat := fun _ => none, opendir := none }

/-- The entries `"."` and `".."`, both directories. -/
def dot_entries : List Dirent :=
  [{ is_dir := true, d_name := [46] }, { is_dir := true, d_name := [46, 46] }]

/-- The entry of the regular file `"a.bin"`. -/
def abin_entry : Dirent :=
  { is_dir := false, d_name := [97, 46, 98, 105, 110] }

/-- The names of the entries of a directory that are not directories, in
`readdir` order. -/
def file_names (es : List Dirent) : List (List Nat) :=
  (es.filter (fun e => !e.is_dir)).map (fun e => e.d_name)

/-- The session the responder is in after a request that opened (`context_init`
on a fresh context returned non-zero) and the replies `replies`, each handed to
`context_update`; `none` when the open failed or a step has no result. -/
def session_after (crc8 : List Nat → Nat) (byte0 : Nat) (fs : FileSys) (req : Pkg)
    (replies : List Pkg) : Option Context :=
  match context_init crc8 fs context_create req with
  | none => none
  | some (ret, ctx) => if ret ≠ 0 then run_updates crc8 byte0 ctx replies else none

/-- The frame is a SHOW frame with index `idx` for the entry name `name` as the
responder puts it on the wire: marker, type, index, the checksum of its region,
the byte-stuffed name at the start of its content, and a payload that the
receiver unstuffs to the name and one zero byte. -/
def ShowFrame (crc8 : List Nat → Nat) (q : Pkg) (idx : Nat) (name : List Nat) : Prop :=
  q.marker = PKG_MARKER ∧ q.type = PKG_SHOW ∧ q.indx = idx ∧ pkgvalid crc8 q = true ∧
    q.content.length = 63 ∧ q.content.take (stuff name).length = stuff name ∧
    payload (pkg_rmv_sentinel_bytes q) = name ++ [0]

/-- An LS session over a directory whose regular files are `names`, after `j + 1`
calls of `context_ls_update_with_ack` (the one of the open and one per ACK):
the index is `(j + 1) mod 32`; while `j < names.length` slot 0 holds the SHOW
frame of `names[j]` with index `j mod 32` and `end` is clear; with
`j = names.length` the iterator is exhausted and `end` is set. -/
def LsState (crc8 : List Nat → Nat) (names : List (List Nat)) (ctx : Context) (j : Nat) :
    Prop :=
  ctx.type = CtxType.CTX_LS ∧ ctx.win_i = 1 ∧ ctx.completed = 0 ∧ 0 < ctx.win_buf.length ∧
    ctx.indx = (j + 1) % 32 ∧ j ≤ names.length ∧
    (∃ rest, ctx.dp = some rest ∧ file_names rest = names.drop (j + 1)) ∧
    (∀ name, names[j]? = some name →
      ctx.end_ = 0 ∧ ∃ q, ctx.win_buf[0]? = some q ∧ ShowFrame crc8 q (j % 32) name) ∧
    (j = names.length → ctx.end_ = 1)

/-- The SHOW frame the responder builds under `crc8_ref` for the entry `"a.bin"`
with index 0. -/
def show_abin_example : Pkg :=
  { marker := PKG_MARKER, size := 6, indx := 0, type := PKG_SHOW,
    content := [97, 46, 98, 105, 110] ++ List.replicate 58 0, crc8 := 170 }

/-- The NACK frame `init_pkg_with_nack` builds for index 2 under `crc8_ref`. -/
def nack2_example : Pkg := { pkginit_blank 2 PKG_NACK with crc8 := 238 }

/-- The session the responder reaches under `crc8_ref` from a DOWNLOAD request
for an asset of 127 zero bytes through an ACK and a NACK for index 2, if every
step has a result. -/
def tail_example : Option Context :=
  session_after crc8_ref 0 (fs_single (List.replicate 127 0)) request_example
    [ack_example, nack2_example]

/-- The frame `ls_request_example` with byte 0 cleared: no marker. -/
def unmarked_ls_example : Pkg := { ls_request_example with marker := 0 }

/-- A directory entry name of 64 bytes, `aaa…a` (names may have up to 255). -/
def long_name_example : List Nat := List.replicate 64 0x61

/-- A directory holding one regular file, named `long_name_example`. -/
def long_entry_example : Dirent := { is_dir := false, d_name := long_name_example }

/-- A file system holding one regular file: the path `path` opens to the bytes
`f`, read without error; every other path fails and there is no asset
directory. -/
def fs_only (path f : List Nat) : FileSys :=
  { fopen := fun q => if q = path then some (f.map FRead.byte) else none,
    stat := fun q => if q = path then some f.length else none,
    opendir := none }

/-- The DOWNLOAD request the requester builds under `crc8_ref` for the file name
`"È"`, the two bytes `C3 88` in UTF-8. -/
def sentinel_request_example : Pkg :=
  { marker := PKG_MARKER, size := 4, indx := 0, type := PKG_DOWNLOAD,
    content := [0xC3, 0x88, 0xFF] ++ List.replicate 60 0, crc8 := 195 }

/-- The DOWNLOAD request the requester builds under `crc8_ref` for the file name
`"../x"`. -/
def traversal_request_example : Pkg :=
  { marker := PKG_MARKER, size := 5, indx := 0, type := PKG_DOWNLOAD,
    content := [46, 46, 47, 120] ++ List.replicate 59 0, crc8 := 226 }

/-- The SHOW frame with index 0 the responder builds under `crc8_ref` for the
entry name `"È"`, the two bytes `C3 88`. -/
def sentinel_show_example : Pkg :=
  { marker := PKG_MARKER, size := 4, indx := 0, type := PKG_SHOW,
    content := [0xC3, 0x88, 0xFF] ++ List.replicate 60 0, crc8 := 85 }

/-- The entry of a regular file named `"È"`, the two bytes `C3 88`. -/
def sentinel_entry_example : Dirent := { is_dir := false, d_name := [0xC3, 0x88] }

/-- The bytes of the path `"./assets/../x"`. -/
def traversal_path_example : List Nat :=
  [46, 47, 97, 115, 115, 101, 116, 115, 47, 46, 46, 47, 120]

/-- What holds of the window of a DOWNLOAD session over an asset that is read
without error.  Either the session has only been opened (one slot, the
DESCRIPTOR frame with index 0, responder index 0), or the filled slots hold valid
DATA frames with the consecutive indices `a, a + 1, ...` modulo 32 and the
responder's index is the one after the last of them; while `end` is clear such a
window is full. -/
def LockStep (crc8 : List Nat → Nat) (ctx : Context) : Prop :=
  ctx.type = CtxType.CTX_DOWNLOAD ∧ WinOk ctx ∧ ctx.indx < 32 ∧ ctx.win_i ≤ WINSZ ∧
    (∃ f : List Nat, ctx.fp = some (f.map FRead.byte)) ∧
    ((ctx.end_ = 0 ∧ ctx.win_i = 1 ∧ ctx.indx = 0 ∧
        ∃ d, ctx.win_buf[0]? = some d ∧ d.type = PKG_DESCRIPTOR ∧ d.indx = 0 ∧
          pkgvalid crc8 d = true) ∨
      (∃ a, (∀ m, m < ctx.win_i → ∃ q, ctx.win_buf[m]? = some q ∧
            DataFrame crc8 q ((a + m) % 32)) ∧
          ctx.indx = (a + ctx.win_i) % 32 ∧ (ctx.end_ = 0 → ctx.win_i = WINSZ)))

end Server

/-- The requester's session after the frames `ps`, each handed to
`context_update` in order, as `process_context` does with every frame it
receives while `skip` is clear. -/
def accept_frames (crc8 : List Nat → Nat) (st : Option (Nat × Nat)) :
    Context → List Pkg → Option Context
  | ctx, [] => some ctx
  | ctx, p :: ps =>
    match context_update crc8 st ctx p with
    | none => none
    | some (_, ctx1, _) => accept_frames crc8 st ctx1 ps

end Constantine

namespace Constantine

/-! ## Lists: writing one or two cells -/

theorem take_succ_set (l : List Nat) (i b : Nat) (h : i < l.length) :
    (l.set i b).take (i + 1) = l.take i ++ [b] := by
  rw [List.set_eq_take_append_cons_drop, if_pos h, List.take_append_eq_append_take]
  simp [List.length_take, Nat.min_eq_left (Nat.le_of_lt h)]

theorem take_two_set (l : List Nat) (i b c : Nat) (h : i + 1 < l.length) :
    ((l.set i b).set (i + 1) c).take (i + 1 + 1) = l.take i ++ [b, c] := by
  rw [take_succ_set _ _ _ (by simpa using h), take_succ_set _ _ _ (by omega)]
  simp

/-! ## The scan of `pkg_rmv_sentinel_bytes` -/

theorem rmv_scan_snoc (l : List Nat) (b : Nat) :
    rmv_scan (l ++ [b]) = rmv_step (rmv_scan l) b := by
  simp [rmv_scan, List.foldl_append]

theorem rmv_scan_snoc_two (l : List Nat) (b c : Nat) :
    rmv_scan (l ++ [b, c]) = rmv_step (rmv_step (rmv_scan l) b) c := by
  simp [rmv_scan, List.foldl_append]

theorem foldl_rmv_step_length (l : List Nat) (st : Bool × List Nat) :
    (l.foldl rmv_step st).2.length ≤ st.2.length + l.length := by
  induction l generalizing st with
  | nil => simp
  | cons a t ih =>
    simp only [List.foldl_cons, List.length_cons]
    refine le_trans (ih _) ?_
    unfold rmv_step
    split
    · simp; omega
    · simp

theorem rmv_scan_length (l : List Nat) : (rmv_scan l).2.length ≤ l.length := by
  simpa [rmv_scan] using foldl_rmv_step_length l (false, [])

/-- After `pkg_rmv_sentinel_bytes`, `content[0..size)` is the buffer the scan
built, whenever the frame's `size` is a 6-bit value. -/
theorem payload_rmv (pkg : Pkg) (h : pkg.size ≤ 63) :
    payload (pkg_rmv_sentinel_bytes pkg) = (rmv_scan (pkg.content.take pkg.size)).2 := by
  have h1 := rmv_scan_length (pkg.content.take pkg.size)
  have h2 : (pkg.content.take pkg.size).length ≤ 63 := by
    rw [List.length_take]; omega
  have h3 : (rmv_scan (pkg.content.take pkg.size)).2.length % 256 % 64
      = (rmv_scan (pkg.content.take pkg.size)).2.length := by omega
  simp only [payload, pkg_rmv_sentinel_bytes, h3]
  simp

theorem size_rmv (pkg : Pkg) (h : pkg.size ≤ 63) :
    (pkg_rmv_sentinel_bytes pkg).size = (rmv_scan (pkg.content.take pkg.size)).2.length := by
  have h1 := rmv_scan_length (pkg.content.take pkg.size)
  have h2 : (pkg.content.take pkg.size).length ≤ 63 := by
    rw [List.length_take]; omega
  simp only [pkg_rmv_sentinel_bytes]
  omega

/-! ## One call of `add_byte_to_pkg` -/

/-- What `add_byte_to_pkg` does on a frame with a free slot, field by field. -/
theorem add_byte_to_pkg_eq (pkg : Pkg) (b : Nat) (h : pkg.size < 63) :
    add_byte_to_pkg pkg b = some
      (if is_sentinel b = true ∧ pkg.size + 1 < 63 then
        { pkg with content := (pkg.content.set pkg.size b).set (pkg.size + 1) 0xff,
                   size := pkg.size + 1 + 1 }
      else
        { pkg with content := pkg.content.set pkg.size b, size := pkg.size + 1 }) := by
  unfold add_byte_to_pkg
  have e1 : (pkg.size + 1) % 64 = pkg.size + 1 := by omega
  by_cases hs : is_sentinel b = true
  · by_cases h2 : pkg.size + 1 < 63
    · have e2 : (pkg.size + 1 + 1) % 64 = pkg.size + 1 + 1 := by omega
      simp [h, hs, h2, e2]
    · simp [h, hs, h2, e1]
  · simp [h, hs, e1]

/-- Appending a byte keeps the stuffing invariant and extends the source. -/
theorem add_byte_step (pkg : Pkg) (src : List Nat) (b : Nat)
    (inv : Stuffed pkg src) (h : pkg.size < 63) :
    ∃ p, add_byte_to_pkg pkg b = some p ∧ Stuffed p (src ++ [b]) ∧
      p.size = pkg.size + (if is_sentinel b = true ∧ pkg.size + 1 < 63 then 2 else 1) ∧
      p.marker = pkg.marker ∧ p.indx = pkg.indx ∧ p.type = pkg.type ∧ p.crc8 = pkg.crc8 ∧
      p.content.drop p.size = pkg.content.drop p.size ∧
      payload p = payload pkg ++
        (if is_sentinel b = true ∧ pkg.size + 1 < 63 then [b, 0xff] else [b]) := by
  obtain ⟨hlen, _, hsrc, hflag⟩ := inv
  have hf : (rmv_scan (pkg.content.take pkg.size)).1 = false := by
    cases hc : (rmv_scan (pkg.content.take pkg.size)).1
    · rfl
    · have := hflag hc; omega
  refine ⟨_, add_byte_to_pkg_eq pkg b h, ?_⟩
  by_cases hs : is_sentinel b = true ∧ pkg.size + 1 < 63
  · rw [if_pos hs, if_pos hs, if_pos hs]
    refine ⟨⟨?_, ?_, ?_, ?_⟩, rfl, rfl, rfl, rfl, rfl, ?_, ?_⟩ <;> dsimp only [payload]
    · simp [hlen]
    · omega
    · rw [take_two_set _ _ _ _ (by omega), rmv_scan_snoc_two]
      simp [rmv_step, hf, hsrc, hs.1]
    · rw [take_two_set _ _ _ _ (by omega), rmv_scan_snoc_two]
      simp [rmv_step, hf, hs.1]
    · rw [List.drop_set_of_lt _ _ (by omega), List.drop_set_of_lt _ _ (by omega)]
    · rw [take_two_set _ _ _ _ (by omega)]
  · rw [if_neg hs, if_neg hs, if_neg hs]
    refine ⟨⟨?_, ?_, ?_, ?_⟩, rfl, rfl, rfl, rfl, rfl, ?_, ?_⟩ <;> dsimp only [payload]
    · simp [hlen]
    · omega
    · rw [take_succ_set _ _ _ (by omega), rmv_scan_snoc]
      simp [rmv_step, hf, hsrc]
    · rw [take_succ_set _ _ _ (by omega), rmv_scan_snoc]
      simp only [rmv_step, hf]
      simp only [Bool.not_false, if_true]
      intro hb
      have : ¬ pkg.size + 1 < 63 := fun h2 => hs ⟨hb, h2⟩
      omega
    · rw [List.drop_set_of_lt _ _ (by omega)]
    · rw [take_succ_set _ _ _ (by omega)]

/-! ## `pkgread` on a stream without read errors -/

theorem pkgread_loop_bytes (f : List Nat) :
    ∀ (pkg : Pkg) (src : List Nat) (byte : Nat), Stuffed pkg src →
    ∃ ret p rest src1,
      pkgread_loop pkg byte (f.map FRead.byte) = some (ret, p, rest.map FRead.byte) ∧
      Stuffed p src1 ∧ src1 ++ rest = src ++ f ∧
      (ret = -1 ∧ rest = [] ∧ p.size < 63 ∨ ret = 1 ∧ p.size = 63) ∧
      rest.length ≤ f.length ∧ (pkg.size < p.size → rest.length < f.length) := by
  induction f with
  | nil =>
    intro pkg src byte inv
    by_cases h : pkg.size < 63
    · exact ⟨-1, pkg, [], src, by simp [pkgread_loop, h], inv, rfl,
        Or.inl ⟨rfl, rfl, h⟩, le_refl _, fun hlt => absurd hlt (lt_irrefl _)⟩
    · have h63 : pkg.size = 63 := by have := inv.2.1; omega
      exact ⟨1, pkg, [], src, by simp [pkgread_loop, h], inv, rfl,
        Or.inr ⟨rfl, h63⟩, le_refl _, fun hlt => absurd hlt (lt_irrefl _)⟩
  | cons b t ih =>
    intro pkg src byte inv
    by_cases h : pkg.size < 63
    · obtain ⟨p1, hp1, inv1, -⟩ := add_byte_step pkg src b inv h
      obtain ⟨ret, p, rest, src1, hrun, inv2, hcat, hret, hle, -⟩ := ih p1 (src ++ [b]) b inv1
      refine ⟨ret, p, rest, src1, ?_, inv2, ?_, hret, ?_, ?_⟩
      · simp [pkgread_loop, h, hp1, hrun]
      · simpa using hcat
      · simp; omega
      · intro _; simp; omega
    · have h63 : pkg.size = 63 := by have := inv.2.1; omega
      exact ⟨1, pkg, b :: t, src, by simp [pkgread_loop, h], inv, rfl,
        Or.inr ⟨rfl, h63⟩, le_refl _, fun hlt => absurd hlt (lt_irrefl _)⟩

/-- One call of `pkgread` on an error-free stream: it returns, the unstuffed
chunk followed by the unread rest is the stream, and a return value of `1`
means that at least one byte was consumed. -/
theorem pkgread_bytes (f : List Nat) (pkg : Pkg) (byte0 : Nat) (hlen : pkg.content.length = 63) :
    ∃ ret p rest,
      pkgread pkg byte0 (f.map FRead.byte) = some (ret, p, rest.map FRead.byte) ∧
      p.content.length = 63 ∧ p.size ≤ 63 ∧
      payload (pkg_rmv_sentinel_bytes p) ++ rest = f ∧
      (ret = -1 ∧ rest = [] ∨ ret = 1 ∧ p.size = 63 ∧ rest.length < f.length) := by
  have inv0 : Stuffed { pkg with size := 0 } [] := by
    refine ⟨hlen, by simp, ?_, ?_⟩ <;> simp [rmv_scan]
  obtain ⟨ret, p, rest, src1, hrun, inv, hcat, hret, -, hlt⟩ :=
    pkgread_loop_bytes f _ [] byte0 inv0
  refine ⟨ret, p, rest, hrun, inv.1, inv.2.1, ?_, ?_⟩
  · rw [payload_rmv p inv.2.1, inv.2.2.1]; simpa using hcat
  · rcases hret with ⟨h1, h2, -⟩ | ⟨h1, h2⟩
    · exact Or.inl ⟨h1, h2⟩
    · exact Or.inr ⟨h1, h2, hlt (by simp [h2])⟩

theorem read_chunks_bytes (byte0 : Nat) :
    ∀ (fuel : Nat) (f : List Nat) (pkg : Pkg), f.length < fuel → pkg.content.length = 63 →
    ∃ chunks, read_chunks byte0 fuel pkg (f.map FRead.byte) = some chunks ∧
      decode_chunks chunks = f := by
  intro fuel
  induction fuel with
  | zero => intro f pkg h; omega
  | succ n ih =>
    intro f pkg hfuel hlen
    obtain ⟨ret, p, rest, hrun, hplen, -, hcat, hret⟩ := pkgread_bytes f pkg byte0 hlen
    rcases hret with ⟨h1, h2⟩ | ⟨h1, -, h3⟩
    · refine ⟨[p], ?_, ?_⟩
      · simp [read_chunks, hrun, h1]
      · subst h2; simpa [decode_chunks] using hcat
    · obtain ⟨cs, hcs, hdec⟩ := ih rest p (by omega) hplen
      refine ⟨p :: cs, ?_, ?_⟩
      · simp [read_chunks, hrun, h1, hcs]
      · simp [decode_chunks, hdec, hcat]

/-! ## The stuffing loop of `pkginit` -/

theorem drop_eq_of_le (l1 l2 : List Nat) (a b : Nat) (hab : a ≤ b)
    (h : l1.drop a = l2.drop a) : l1.drop b = l2.drop b := by
  have e : b = a + (b - a) := by omega
  rw [e, ← List.drop_drop, ← List.drop_drop, h]

theorem stuff_length_pos (b : Nat) (t : List Nat) : 1 ≤ (stuff (b :: t)).length := by
  unfold stuff; split <;> simp

theorem stuff_length (s : List Nat) :
    (stuff s).length = s.length + s.countP is_sentinel := by
  induction s with
  | nil => rfl
  | cons b t ih =>
    unfold stuff
    by_cases hb : is_sentinel b = true
    · simp [hb, ih]; omega
    · simp [hb, ih]; omega

/-- The stuffing loop on a frame that satisfies the invariant.  It stays inside
the content area as long as everything before the last byte, stuffed, leaves
the last byte a slot; when the whole stuffed image fits, `content[0..size)` is
extended by exactly that image. -/
theorem add_bytes_spec (s : List Nat) :
    ∀ (pkg : Pkg) (src : List Nat), Stuffed pkg src →
    (s ≠ [] → pkg.size + (stuff s.dropLast).length ≤ 62) →
    ∃ p, add_bytes pkg s = some p ∧ Stuffed p (src ++ s) ∧ pkg.size ≤ p.size ∧
      p.marker = pkg.marker ∧ p.indx = pkg.indx ∧ p.type = pkg.type ∧ p.crc8 = pkg.crc8 ∧
      p.content.drop p.size = pkg.content.drop p.size ∧
      (pkg.size + (stuff s).length ≤ 63 →
        p.size = pkg.size + (stuff s).length ∧ payload p = payload pkg ++ stuff s) := by
  induction s with
  | nil =>
    intro pkg src inv _
    exact ⟨pkg, rfl, by simpa using inv, le_refl _, rfl, rfl, rfl, rfl, rfl,
      fun _ => by simp [stuff]⟩
  | cons b t ih =>
    intro pkg src inv hfit
    have hfit1 := hfit (by simp)
    have hlt : pkg.size < 63 := by omega
    obtain ⟨p1, hp1, inv1, hsz, hm, hi, ht, hc, hd, hpay⟩ := add_byte_step pkg src b inv hlt
    have hstep : t ≠ [] → p1.size + (stuff t.dropLast).length ≤ 62 := by
      intro hne
      obtain ⟨c, u, rfl⟩ := List.exists_cons_of_ne_nil hne
      rw [List.dropLast_cons₂] at hfit1
      unfold stuff at hfit1
      by_cases hb : is_sentinel b = true
      · simp only [hb, if_true, List.length_cons] at hfit1
        have h2 : pkg.size + 1 < 63 := by omega
        rw [if_pos ⟨hb, h2⟩] at hsz
        omega
      · simp only [hb, List.length_cons] at hfit1
        rw [if_neg (fun h => hb h.1)] at hsz
        simp at hfit1
        omega
    obtain ⟨p, hp, inv2, hle, hm2, hi2, ht2, hc2, hd2, hpay2⟩ := ih p1 (src ++ [b]) inv1 hstep
    have hle1 : pkg.size ≤ p1.size := by rw [hsz]; omega
    refine ⟨p, ?_, ?_, by omega, by rw [hm2, hm], by rw [hi2, hi], by rw [ht2, ht],
      by rw [hc2, hc], ?_, ?_⟩
    · simp [add_bytes, hp1, hp]
    · simpa using inv2
    · rw [hd2]; exact drop_eq_of_le _ _ _ _ hle hd
    · intro hall
      unfold stuff at hall ⊢
      by_cases hb : is_sentinel b = true
      · simp only [hb, if_true, List.length_cons] at hall ⊢
        have h2 : pkg.size + 1 < 63 := by omega
        rw [if_pos ⟨hb, h2⟩] at hsz hpay
        obtain ⟨e1, e2⟩ := hpay2 (by omega)
        refine ⟨by omega, ?_⟩
        rw [e2, hpay]; simp
      · simp only [hb, List.length_cons] at hall ⊢
        rw [if_neg (fun h => hb h.1)] at hsz hpay
        simp at hall
        obtain ⟨e1, e2⟩ := hpay2 (by omega)
        refine ⟨by simp; omega, ?_⟩
        rw [e2, hpay]; simp

/-! ## The scan of `pkg_rmv_sentinel_bytes` computes `unstuff` -/

theorem foldl_rmv_step_unstuff (l : List Nat) :
    ∀ acc : List Nat, (l.foldl rmv_step (false, acc)).2 = acc ++ unstuff l := by
  induction l using unstuff.induct with
  | case1 => intro acc; simp [unstuff]
  | case2 b => intro acc; simp [unstuff, rmv_step]
  | case3 b c t hb ih =>
    intro acc
    simp [unstuff, rmv_step, hb, ih]
  | case4 b c t hb ih =>
    intro acc
    have := ih (acc ++ [b])
    simp only [List.foldl_cons] at this ⊢
    simp [unstuff, rmv_step, hb] at this ⊢
    simpa [rmv_step] using this

theorem rmv_scan_unstuff (l : List Nat) : (rmv_scan l).2 = unstuff l := by
  simpa [rmv_scan] using foldl_rmv_step_unstuff l []

theorem unstuff_stuff (s : List Nat) : unstuff (stuff s) = s := by
  induction s with
  | nil => rfl
  | cons b t ih =>
    unfold stuff
    by_cases hb : is_sentinel b = true
    · simp [hb, unstuff, ih]
    · simp only [hb]
      cases hst : stuff t with
      | nil => simp [hst, unstuff] at ih ⊢; exact ih
      | cons c u => simp [hst, unstuff, hb] at ih ⊢; exact ih

/-! ## `pkginit` and `pkgvalid` -/

theorem is_sentinel_iff (b : Nat) : is_sentinel b = true ↔ (b = 0x81 ∨ b = 0x88) := by
  simp [is_sentinel]

/-- The checksummed bytes do not reach the `crc8` field. -/
theorem crc_region_eq (pkg : Pkg) (hlen : pkg.content.length = 63) (hsz : pkg.size ≤ 63) :
    crc_region pkg =
      ([pkg.size, pkg.indx + 32 * (pkg.type % 8), pkg.type / 8] ++ pkg.content).take
        (2 + pkg.size) := by
  unfold crc_region raw
  simp only [List.cons_append, List.nil_append, List.drop_succ_cons, List.drop_zero]
  have e : pkg.size :: (pkg.indx + 32 * (pkg.type % 8)) :: (pkg.type / 8)
        :: (pkg.content ++ [pkg.crc8])
      = (pkg.size :: (pkg.indx + 32 * (pkg.type % 8)) :: (pkg.type / 8) :: pkg.content)
        ++ [pkg.crc8] := by simp
  rw [e, List.take_append_of_le_length (by simp [hlen]; omega)]

theorem crc_region_set_crc8 (pkg : Pkg) (c : Nat) (hlen : pkg.content.length = 63)
    (hsz : pkg.size ≤ 63) : crc_region { pkg with crc8 := c } = crc_region pkg := by
  rw [crc_region_eq _ hlen hsz, crc_region_eq _ (by exact hlen) (by exact hsz)]

/-- A frame sealed with the checksum of its own region passes `pkgvalid`. -/
theorem pkgvalid_sealed (crc8 : List Nat → Nat) (pkg : Pkg) (hlen : pkg.content.length = 63)
    (hsz : pkg.size ≤ 63) :
    pkgvalid crc8 { pkg with crc8 := crc8 (crc_region pkg) % 256 } = true := by
  unfold pkgvalid
  rw [crc_region_set_crc8 _ _ hlen hsz]
  simp

theorem pkginit_blank_stuffed (indx type : Nat) : Stuffed (pkginit_blank indx type) [] := by
  refine ⟨by simp only [pkginit_blank, List.length_replicate],
    by simp only [pkginit_blank]; omega, ?_, ?_⟩ <;>
    simp [pkginit_blank, rmv_scan]

/-- The call `pkginit(pkg, size, indx, type, NULL)`. -/
theorem pkginit_null (crc8 : List Nat → Nat) (size indx type : Nat) :
    pkginit crc8 size indx type none =
      some { pkginit_blank indx type with
              crc8 := crc8 (crc_region (pkginit_blank indx type)) % 256 } := by
  simp [pkginit, pkginit_blank]

/-- The call `pkginit(pkg, n, indx, type, buf)` on an `n`-byte buffer whose
stuffed image leaves one slot free. -/
theorem pkginit_buf (crc8 : List Nat → Nat) (indx type : Nat) (s : List Nat)
    (hfit : (stuff s).length ≤ 62) :
    ∃ p, add_bytes (pkginit_blank indx type) s = some p ∧
      pkginit crc8 s.length indx type (some s) =
        some { p with size := p.size + 1,
                      crc8 := crc8 (crc_region { p with size := p.size + 1 }) % 256 } ∧
      Stuffed p s ∧ p.size = (stuff s).length ∧ payload p = stuff s ∧
      p.content.drop p.size = List.replicate (63 - p.size) 0 ∧
      p.marker = PKG_MARKER ∧ p.indx = (indx % 256) % 32 ∧ p.type = type % 32 := by
  have hl : s.length ≤ 62 := by have := stuff_length s; omega
  have hfit1 : s ≠ [] → (pkginit_blank indx type).size + (stuff s.dropLast).length ≤ 62 := by
    intro hne
    obtain ⟨b, hb⟩ : ∃ b, s = s.dropLast ++ [b] :=
      ⟨s.getLast hne, (List.dropLast_append_getLast hne).symm⟩
    have h1 := stuff_length s
    have h2 := stuff_length s.dropLast
    have h3 : s.length = s.dropLast.length + 1 := by
      conv_lhs => rw [hb]
      simp
    have h4 : s.dropLast.countP is_sentinel ≤ s.countP is_sentinel :=
      List.Sublist.countP_le _ (List.dropLast_sublist s)
    simp only [pkginit_blank]
    omega
  obtain ⟨p, hp, inv, -, hm, hi, ht, -, hd, hpay⟩ :=
    add_bytes_spec s (pkginit_blank indx type) [] (pkginit_blank_stuffed indx type) hfit1
  obtain ⟨e1, e2⟩ := hpay (by simp only [pkginit_blank]; omega)
  have hsz : p.size = (stuff s).length := by simpa [pkginit_blank] using e1
  refine ⟨p, hp, ?_, by simpa using inv, hsz, by simpa [pkginit_blank, payload] using e2, ?_,
    by rw [hm]; rfl, by rw [hi]; rfl, by rw [ht]; rfl⟩
  · have hmod : s.length % 256 = s.length := by omega
    have hmod2 : (p.size + 1) % 64 = p.size + 1 := by omega
    have hp0 := hp
    simp only [pkginit_blank] at hp0
    simp only [pkginit, hmod, List.take_length, le_refl, if_true, hp0, hmod2]
  · rw [hd]; simp only [pkginit_blank, List.drop_replicate]

/-- A frame built by `pkginit` from a buffer whose stuffed image leaves one
slot free: what it holds and what the receiver decodes from it. -/
theorem pkginit_buf_decoded (crc8 : List Nat → Nat) (indx type : Nat) (s : List Nat)
    (hfit : (stuff s).length ≤ 62) :
    ∃ p, pkginit crc8 s.length indx type (some s) = some p ∧ pkgvalid crc8 p = true ∧
      p.marker = PKG_MARKER ∧ p.indx = (indx % 256) % 32 ∧ p.type = type % 32 ∧
      p.size = (stuff s).length + 1 ∧
      p.content = stuff s ++ List.replicate (63 - (stuff s).length) 0 ∧
      payload (pkg_rmv_sentinel_bytes p) = s ++ [0] ∧
      (pkg_rmv_sentinel_bytes p).size = s.length + 1 ∧
      (pkg_rmv_sentinel_bytes p).indx = (indx % 256) % 32 ∧
      (pkg_rmv_sentinel_bytes p).type = type % 32 := by
  obtain ⟨q, -, hinit, inv, hsz, hpay, hd, hm, hi, ht⟩ := pkginit_buf crc8 indx type s hfit
  obtain ⟨hlen, -, hsrc, hflag⟩ := inv
  have hcontent : q.content = stuff s ++ List.replicate (63 - (stuff s).length) 0 := by
    have := List.take_append_drop q.size q.content
    rw [hd] at this
    rw [← this, ← hsz]
    exact congrArg (fun l => l ++ List.replicate (63 - q.size) 0) hpay
  have htake : q.content.take (q.size + 1) = q.content.take q.size ++ [0] := by
    rw [List.take_add, hd]
    have e : 63 - q.size = (62 - q.size) + 1 := by omega
    rw [e, List.replicate_succ]
    simp
  have hf : (rmv_scan (q.content.take q.size)).1 = false := by
    cases hc : (rmv_scan (q.content.take q.size)).1
    · rfl
    · have := hflag hc; omega
  have hscan : (rmv_scan (q.content.take (q.size + 1))).2 = s ++ [0] := by
    rw [htake, rmv_scan_snoc]
    simp [rmv_step, hf, hsrc]
  have hsz1 : q.size + 1 ≤ 63 := by omega
  refine ⟨_, hinit, ?_, hm, hi, ht, by simp only [hsz], hcontent, ?_, ?_, hi, ht⟩
  · exact pkgvalid_sealed crc8 { q with size := q.size + 1 } hlen hsz1
  · have := payload_rmv { q with size := q.size + 1,
                                 crc8 := crc8 (crc_region { q with size := q.size + 1 }) % 256 } hsz1
    rw [this]; exact hscan
  · have := size_rmv { q with size := q.size + 1,
                              crc8 := crc8 (crc_region { q with size := q.size + 1 }) % 256 } hsz1
    rw [this]
    have := congrArg List.length hscan
    simpa using this

/-! ## Every frame `pkginit` returns -/

theorem add_byte_to_pkg_fields (pkg p : Pkg) (b : Nat) (h : add_byte_to_pkg pkg b = some p) :
    p.content.length = pkg.content.length ∧ p.marker = pkg.marker ∧ p.indx = pkg.indx ∧
      p.type = pkg.type ∧ p.crc8 = pkg.crc8 := by
  have hlt : pkg.size < 63 := by
    by_contra hn
    simp [add_byte_to_pkg, hn] at h
  rw [add_byte_to_pkg_eq pkg b hlt] at h
  injection h with h
  subst h
  split <;> simp

theorem add_bytes_fields (s : List Nat) :
    ∀ (pkg p : Pkg), add_bytes pkg s = some p →
    p.content.length = pkg.content.length ∧ p.marker = pkg.marker ∧ p.indx = pkg.indx ∧
      p.type = pkg.type ∧ p.crc8 = pkg.crc8 := by
  induction s with
  | nil =>
    intro pkg p h
    simp only [add_bytes, Option.some.injEq] at h
    subst h
    exact ⟨rfl, rfl, rfl, rfl, rfl⟩
  | cons b t ih =>
    intro pkg p h
    simp only [add_bytes] at h
    cases h1 : add_byte_to_pkg pkg b with
    | none => simp [h1] at h
    | some q =>
      simp only [h1] at h
      obtain ⟨a1, a2, a3, a4, a5⟩ := add_byte_to_pkg_fields pkg q b h1
      obtain ⟨b1, b2, b3, b4, b5⟩ := ih q p h
      exact ⟨b1.trans a1, b2.trans a2, b3.trans a3, b4.trans a4, b5.trans a5⟩

/-- Whenever `pkginit` returns a frame, the frame has the marker, the header
fields it was given, a 6-bit `size`, and the checksum of its own region. -/
theorem pkginit_sealed (crc8 : List Nat → Nat) (size indx type : Nat) (buf : Option (List Nat))
    (p : Pkg) (h : pkginit crc8 size indx type buf = some p) :
    p.content.length = 63 ∧ p.size ≤ 63 ∧ p.marker = PKG_MARKER ∧
      p.indx = (indx % 256) % 32 ∧ p.type = type % 32 ∧
      p.crc8 = crc8 (crc_region p) % 256 := by
  cases buf with
  | none =>
    rw [pkginit_null] at h
    injection h with h
    subst h
    refine ⟨by simp only [pkginit_blank, List.length_replicate],
      by simp only [pkginit_blank]; omega, rfl, rfl, rfl, ?_⟩
    exact congrArg (fun r => crc8 r % 256)
      (crc_region_set_crc8 (pkginit_blank indx type) _
        (by simp only [pkginit_blank, List.length_replicate])
        (by simp only [pkginit_blank]; omega)).symm
  | some b =>
    simp only [pkginit] at h
    by_cases hb : size % 256 ≤ b.length
    · simp only [hb, if_true] at h
      cases h1 : add_bytes
          { marker := PKG_MARKER, size := 0, indx := (indx % 256) % 32, type := type % 32,
            content := List.replicate 63 0, crc8 := 0 } (b.take (size % 256)) with
      | none =>
        rw [h1] at h
        exact absurd h (by simp)
      | some q =>
        simp only [h1, Option.some.injEq] at h
        obtain ⟨a1, a2, a3, a4, -⟩ := add_bytes_fields _ _ _ h1
        have hlen : q.content.length = 63 := by
          rw [a1]; simp only [List.length_replicate]
        have hsz : (q.size + 1) % 64 ≤ 63 := by omega
        subst h
        refine ⟨hlen, hsz, a2, a3, a4, ?_⟩
        exact congrArg (fun r => crc8 r % 256)
          (crc_region_set_crc8 { q with size := (q.size + 1) % 64 } _ hlen hsz).symm
    · simp [hb] at h

theorem pkginit_valid (crc8 : List Nat → Nat) (size indx type : Nat) (buf : Option (List Nat))
    (p : Pkg) (h : pkginit crc8 size indx type buf = some p) : pkgvalid crc8 p = true := by
  obtain ⟨-, -, -, -, -, hc⟩ := pkginit_sealed crc8 size indx type buf p h
  unfold pkgvalid
  rw [← hc]
  simp

/-- A store into a content cell at or beyond `size` does not change the
checksummed bytes. -/
theorem crc_region_set_content (pkg : Pkg) (j x : Nat) (hlen : pkg.content.length = 63)
    (hsz : pkg.size ≤ 63) (hj : pkg.size ≤ j) :
    crc_region { pkg with content := pkg.content.set j x } = crc_region pkg := by
  rw [crc_region_eq _ (by simpa using hlen) (by exact hsz), crc_region_eq _ hlen hsz]
  simp only []
  cases hs : pkg.size with
  | zero => rfl
  | succ n =>
    have e : 2 + (n + 1) = n + 1 + 1 + 1 := by omega
    rw [e]
    simp only [List.cons_append, List.nil_append, List.take_succ_cons]
    rw [List.take_set_of_lt _ _ (by omega)]

theorem xor_pow_ne (x k : Nat) : x ^^^ 2 ^ k ≠ x := by
  intro h
  have h1 : x ^^^ (x ^^^ 2 ^ k) = 2 ^ k := Nat.xor_cancel_left x (2 ^ k)
  rw [h, Nat.xor_self] at h1
  have : 0 < 2 ^ k := Nat.pos_pow_of_pos k (by decide)
  omega

/-! ## Claims about the frame codec -/

set_option maxRecDepth 20000

/-- C1: for every finite byte stream `f` without read errors, calling `pkgread`
until it returns `-1`, unstuffing every produced chunk with
`pkg_rmv_sentinel_bytes` and concatenating the `content[0..size)` of the chunks
in order gives back exactly `f`; any number of calls above the length of `f`
is enough to reach the `-1`.  The stream `[0x88, 0x00, 0x81]` is carried as
`[0x88, 0xFF, 0x00, 0x81, 0xFF]` and comes back as `[0x88, 0x00, 0x81]`. -/
theorem C1_pkgread_stream_roundtrip (f : List Nat) (pkg : Pkg) (byte0 fuel : Nat)
    (hlen : pkg.content.length = 63) (hfuel : f.length < fuel) :
    (∃ chunks, read_chunks byte0 fuel pkg (f.map FRead.byte) = some chunks ∧
      decode_chunks chunks = f) ∧
    (∃ p, pkgread zero_pkg 0 ([0x88, 0x00, 0x81].map FRead.byte) = some (-1, p, []) ∧
      payload p = [0x88, 0xff, 0x00, 0x81, 0xff] ∧
      payload (pkg_rmv_sentinel_bytes p) = [0x88, 0x00, 0x81]) := by
  refine ⟨read_chunks_bytes byte0 fuel f pkg hfuel hlen, ?_⟩
  refine ⟨{ zero_pkg with
            size := 5,
            content := [0x88, 0xff, 0x00, 0x81, 0xff] ++ List.replicate 58 0 }, ?_, ?_, ?_⟩
  · decide
  · decide
  · decide

/-- C1 at the stream `[0x88, 0x00, 0x81]`, read into a zeroed frame. -/
theorem C1_pkgread_stream_roundtrip_witness :
    (∃ chunks, read_chunks 0 4 zero_pkg ([0x88, 0x00, 0x81].map FRead.byte) = some chunks ∧
      decode_chunks chunks = [0x88, 0x00, 0x81]) ∧
    (∃ p, pkgread zero_pkg 0 ([0x88, 0x00, 0x81].map FRead.byte) = some (-1, p, []) ∧
      payload p = [0x88, 0xff, 0x00, 0x81, 0xff] ∧
      payload (pkg_rmv_sentinel_bytes p) = [0x88, 0x00, 0x81]) :=
  C1_pkgread_stream_roundtrip [0x88, 0x00, 0x81] zero_pkg 0 4 (by decide) (by decide)

/-- C3 (as stated) fails: the 63-byte sequence `0x81, 0, ..., 0` does not fit;
its last byte would be stored at `content[63]`, outside the content area, so no
frame comes out whose unstuffed content is the sequence. -/
theorem C3_counterexample :
    (0x81 :: List.replicate 62 0).length ≤ 63 ∧
    ¬ ∃ p, add_bytes zero_pkg (0x81 :: List.replicate 62 0) = some p ∧
        payload (pkg_rmv_sentinel_bytes p) = 0x81 :: List.replicate 62 0 := by
  refine ⟨by decide, ?_⟩
  have h : add_bytes zero_pkg (0x81 :: List.replicate 62 0) = none := by decide
  rintro ⟨p, hp, -⟩
  rw [h] at hp
  cases hp

/-- C3 (amended): for every byte sequence `s` all of whose bytes land inside the
content area, that is, whose part before the last byte has a stuffed length of
at most 62, stuffing `s` into an empty frame with `add_byte_to_pkg` and
unstuffing with `pkg_rmv_sentinel_bytes` gives `content[0..size) = s`.  This
covers every `s` whose stuffed length is at most 63, for which the content
written is the stuffed image of `s`. -/
theorem C3_stuff_unstuff_roundtrip (s : List Nat) (pkg : Pkg)
    (hlen : pkg.content.length = 63) (hsz : pkg.size = 0)
    (hfit : (stuff s.dropLast).length ≤ 62) :
    ∃ p, add_bytes pkg s = some p ∧ payload (pkg_rmv_sentinel_bytes p) = s ∧
      ((stuff s).length ≤ 63 → p.size = (stuff s).length ∧ payload p = stuff s) := by
  have inv0 : Stuffed pkg [] := by
    refine ⟨hlen, by omega, ?_, ?_⟩ <;> simp [hsz, rmv_scan]
  obtain ⟨p, hp, inv, -, -, -, -, -, -, hpay⟩ :=
    add_bytes_spec s pkg [] inv0 (fun _ => by omega)
  refine ⟨p, hp, ?_, ?_⟩
  · rw [payload_rmv p inv.2.1, inv.2.2.1]; simp
  · intro h
    obtain ⟨e1, e2⟩ := hpay (by omega)
    exact ⟨by omega, by simpa [payload, hsz] using e2⟩

/-- C3 (amended) at `[0x88, 0x00, 0x81]`, stuffed into a zeroed frame. -/
theorem C3_stuff_unstuff_roundtrip_witness :
    ∃ p, add_bytes zero_pkg [0x88, 0x00, 0x81] = some p ∧
      payload (pkg_rmv_sentinel_bytes p) = [0x88, 0x00, 0x81] ∧
      ((stuff [0x88, 0x00, 0x81]).length ≤ 63 →
        p.size = (stuff [0x88, 0x00, 0x81]).length ∧ payload p = stuff [0x88, 0x00, 0x81]) :=
  C3_stuff_unstuff_roundtrip [0x88, 0x00, 0x81] zero_pkg (by decide) (by decide) (by decide)

/-- C4: on a frame whose `size` is `i ≤ 62`, `add_byte_to_pkg` stores the byte
`b` at `content[i]`; when `b` is `0x81` or `0x88` and `i < 62` it also stores
`0xFF` at `content[i+1]` and `size` becomes `i + 2`; otherwise `size` becomes
`i + 1`, so a sentinel at the last position 62 is stored without its escape.
No other cell of `content`, no cell outside `content[0..62]` and no other field
of the frame is written. -/
theorem C4_add_byte_to_pkg_rule (pkg : Pkg) (b : Nat)
    (hlen : pkg.content.length = 63) (hi : pkg.size ≤ 62) :
    ∃ p, add_byte_to_pkg pkg b = some p ∧
      p.content.length = 63 ∧ p.content[pkg.size]? = some b ∧
      ((b = 0x81 ∨ b = 0x88) ∧ pkg.size < 62 →
        p.content[pkg.size + 1]? = some 0xff ∧ p.size = pkg.size + 2 ∧
        ∀ j, j ≠ pkg.size → j ≠ pkg.size + 1 → p.content[j]? = pkg.content[j]?) ∧
      (¬ ((b = 0x81 ∨ b = 0x88) ∧ pkg.size < 62) →
        p.size = pkg.size + 1 ∧ ∀ j, j ≠ pkg.size → p.content[j]? = pkg.content[j]?) ∧
      ((b = 0x81 ∨ b = 0x88) ∧ pkg.size = 62 →
        p.size = 63 ∧ p.content = pkg.content.set 62 b) ∧
      p.marker = pkg.marker ∧ p.indx = pkg.indx ∧ p.type = pkg.type ∧ p.crc8 = pkg.crc8 := by
  refine ⟨_, add_byte_to_pkg_eq pkg b (by omega), ?_⟩
  by_cases hs : is_sentinel b = true ∧ pkg.size + 1 < 63
  · have hs2 : (b = 0x81 ∨ b = 0x88) ∧ pkg.size < 62 :=
      ⟨(is_sentinel_iff b).1 hs.1, by omega⟩
    rw [if_pos hs]
    refine ⟨by simp [hlen], ?_, ?_, ?_, ?_, rfl, rfl, rfl, rfl⟩
    · simp [List.getElem?_set, hlen]; omega
    · intro _
      refine ⟨by simp [List.getElem?_set, hlen]; omega, rfl, ?_⟩
      intro j h1 h2
      simp only [List.getElem?_set]
      rw [if_neg (by omega), if_neg (by omega)]
    · intro hn; exact absurd hs2 hn
    · intro h; omega
  · have hs2 : ¬ ((b = 0x81 ∨ b = 0x88) ∧ pkg.size < 62) := by
      intro h
      exact hs ⟨(is_sentinel_iff b).2 h.1, by omega⟩
    rw [if_neg hs]
    refine ⟨by simp [hlen], ?_, ?_, ?_, ?_, rfl, rfl, rfl, rfl⟩
    · simp [List.getElem?_set, hlen]; omega
    · intro h; exact absurd h hs2
    · intro _
      refine ⟨rfl, ?_⟩
      intro j h1
      simp only [List.getElem?_set]
      rw [if_neg (by omega)]
    · intro h
      refine ⟨by simp only []; omega, ?_⟩
      simp only [h.2]

/-- C4 at a zeroed frame whose `size` is 62 and the sentinel `0x81`. -/
theorem C4_add_byte_to_pkg_rule_witness :
    ∃ p, add_byte_to_pkg { zero_pkg with size := 62 } 0x81 = some p ∧
      p.content.length = 63 ∧ p.content[62]? = some 0x81 ∧
      ((0x81 = 0x81 ∨ 0x81 = 0x88) ∧ 62 < 62 →
        p.content[62 + 1]? = some 0xff ∧ p.size = 62 + 2 ∧
        ∀ j, j ≠ 62 → j ≠ 62 + 1 → p.content[j]? = zero_pkg.content[j]?) ∧
      (¬ ((0x81 = 0x81 ∨ 0x81 = 0x88) ∧ 62 < 62) →
        p.size = 62 + 1 ∧ ∀ j, j ≠ 62 → p.content[j]? = zero_pkg.content[j]?) ∧
      ((0x81 = 0x81 ∨ 0x81 = 0x88) ∧ 62 = 62 →
        p.size = 63 ∧ p.content = zero_pkg.content.set 62 0x81) ∧
      p.marker = 0 ∧ p.indx = 0 ∧ p.type = 0 ∧ p.crc8 = 0 :=
  C4_add_byte_to_pkg_rule { zero_pkg with size := 62 } 0x81 (by decide) (by decide)

/-- C2 at the failing input: for the one-byte payload `[0x41]`, type DATA and
index 0, the frame built by `pkginit` passes `pkgvalid` and keeps type and
index, but after `pkg_rmv_sentinel_bytes` its `content[0..size)` is the two
bytes `[0x41, 0x00]` with `size = 2`, not the payload with `size = 1`, whatever
the checksum function is. -/
theorem C2_pkginit_roundtrip_extra_byte :
    (PKG_DATA < 32 ∧ (stuff [0x41]).length ≤ 63) ∧
    ∀ crc8 : List Nat → Nat, ∃ p, pkginit crc8 1 0 PKG_DATA (some [0x41]) = some p ∧
      pkgvalid crc8 p = true ∧
      (pkg_rmv_sentinel_bytes p).type = PKG_DATA ∧ (pkg_rmv_sentinel_bytes p).indx = 0 ∧
      payload (pkg_rmv_sentinel_bytes p) = [0x41, 0] ∧
      payload (pkg_rmv_sentinel_bytes p) ≠ [0x41] ∧
      (pkg_rmv_sentinel_bytes p).size = 2 := by
  refine ⟨by decide, ?_⟩
  intro crc8
  obtain ⟨p, hp, hv, -, -, -, -, -, hpay, hsz, hi, ht⟩ :=
    pkginit_buf_decoded crc8 0 PKG_DATA [0x41] (by decide)
  refine ⟨p, hp, hv, ht, hi, hpay, ?_, hsz⟩
  rw [hpay]; decide

/-- C5 at the failing input: for the payload `[0x88, 0x00, 0x81]`, `pkginit`
writes the 5 bytes of its stuffed image into `content` and nothing else, yet
the frame it returns has `size = 6`, whatever the checksum function is; with a
null buffer `size` is 0. -/
theorem C5_pkginit_size_off_by_one :
    (stuff [0x88, 0x00, 0x81]).length = 5 ∧
    ∀ crc8 : List Nat → Nat,
      (∃ p, pkginit crc8 3 0 PKG_DATA (some [0x88, 0x00, 0x81]) = some p ∧
        p.content = [0x88, 0xff, 0x00, 0x81, 0xff] ++ List.replicate 58 0 ∧
        p.size = 6 ∧ p.size ≠ (stuff [0x88, 0x00, 0x81]).length) ∧
      (∃ p, pkginit crc8 0 0 PKG_DATA none = some p ∧ p.size = 0) := by
  refine ⟨by decide, ?_⟩
  intro crc8
  obtain ⟨p, hp, -, -, -, -, hsz, hc, -⟩ :=
    pkginit_buf_decoded crc8 0 PKG_DATA [0x88, 0x00, 0x81] (by decide)
  have h5 : (stuff [0x88, 0x00, 0x81]).length = 5 := by decide
  have hst : stuff [0x88, 0x00, 0x81] = [0x88, 0xff, 0x00, 0x81, 0xff] := by decide
  refine ⟨⟨p, hp, ?_, by rw [hsz, h5], by rw [hsz, h5]; decide⟩,
    ⟨_, pkginit_null crc8 0 0 PKG_DATA, rfl⟩⟩
  rw [hc, h5, hst]

/-! ### The reference checksum and single-bit changes -/

theorem crc8_bit_lt : ∀ c, c < 256 → crc8_bit c < 256 := by decide

theorem crc8_bit_inv_eq : ∀ c, c < 256 → crc8_bit_inv (crc8_bit c) = c := by decide

theorem crc8_bit_iterate (n : Nat) :
    (∀ c, c < 256 → Nat.iterate crc8_bit n c < 256) ∧
    (∀ a b, a < 256 → b < 256 → Nat.iterate crc8_bit n a = Nat.iterate crc8_bit n b → a = b) := by
  induction n with
  | zero => exact ⟨fun c hc => hc, fun a b _ _ h => h⟩
  | succ m ih =>
    refine ⟨fun c hc => ?_, fun a b ha hb h => ?_⟩
    · rw [Function.iterate_succ_apply]
      exact ih.1 _ (crc8_bit_lt c hc)
    · rw [Function.iterate_succ_apply, Function.iterate_succ_apply] at h
      have h1 := ih.2 _ _ (crc8_bit_lt a ha) (crc8_bit_lt b hb) h
      rw [← crc8_bit_inv_eq a ha, ← crc8_bit_inv_eq b hb, h1]

theorem xor_bit_mod_ne (b k : Nat) (hk : k < 8) : (b ^^^ 2 ^ k) % 256 ≠ b % 256 := by
  intro h
  have e : (256 : Nat) = 2 ^ 8 := rfl
  rw [e] at h
  have h1 : Nat.testBit ((b ^^^ 2 ^ k) % 2 ^ 8) k = Nat.testBit (b % 2 ^ 8) k := by rw [h]
  rw [Nat.testBit_mod_two_pow, Nat.testBit_mod_two_pow, Nat.testBit_xor,
    Nat.testBit_two_pow] at h1
  simp only [hk, decide_True, Bool.true_and, Bool.xor_true] at h1
  cases hb : b.testBit k <;> rw [hb] at h1 <;> simp at h1

/-- A fold whose step keeps the state below 256 ends below 256. -/
theorem fold_lt (f : Nat → Nat → Nat) (hf : ∀ c b, c < 256 → f c b < 256) (r : List Nat) :
    ∀ c, c < 256 → r.foldl f c < 256 := by
  induction r with
  | nil => intro c hc; exact hc
  | cons b t ih =>
    intro c hc
    rw [List.foldl_cons]
    exact ih _ (hf c b hc)

/-- A fold whose step is injective in the state keeps two different states
different. -/
theorem fold_ne (f : Nat → Nat → Nat) (hf : ∀ c b, c < 256 → f c b < 256)
    (hinj : ∀ a b x, a < 256 → b < 256 → f a x = f b x → a = b) (r : List Nat) :
    ∀ a b, a < 256 → b < 256 → a ≠ b → r.foldl f a ≠ r.foldl f b := by
  induction r with
  | nil => intro a b _ _ h; exact h
  | cons x t ih =>
    intro a b ha hb h
    rw [List.foldl_cons, List.foldl_cons]
    exact ih _ _ (hf a x ha) (hf b x hb) (fun e => h (hinj a b x ha hb e))

/-- A fold whose step is injective in the state and tells a byte from the byte
with bit `k` inverted gives different results on a byte string and on the string
with bit `k` of one byte inverted. -/
theorem fold_flip (f : Nat → Nat → Nat) (k : Nat) (hf : ∀ c b, c < 256 → f c b < 256)
    (hinj : ∀ a b x, a < 256 → b < 256 → f a x = f b x → a = b)
    (hbyte : ∀ c x, c < 256 → f c (x ^^^ 2 ^ k) ≠ f c x) (r : List Nat) :
    ∀ (c j : Nat), c < 256 → j < r.length → (flip_bit r j k).foldl f c ≠ r.foldl f c := by
  induction r with
  | nil => intro c j _ hj; simp at hj
  | cons x t ih =>
    intro c j hc hj
    cases j with
    | zero =>
      simp only [flip_bit, List.getD_cons_zero, List.set_cons_zero, List.foldl_cons]
      exact fold_ne f hf hinj t _ _ (hf c _ hc) (hf c x hc) (hbyte c x hc)
    | succ i =>
      have hi : i < t.length := by simpa using hj
      have := ih (f c x) i (hf c x hc) hi
      simpa only [flip_bit, List.getD_cons_succ, List.set_cons_succ, List.foldl_cons] using this

/-- The reference checksum tells apart any two byte strings that differ in one
bit of one byte. -/
theorem crc8_ref_detects (r : List Nat) (j k : Nat) (hj : j < r.length) (hk : k < 8) :
    crc8_ref (flip_bit r j k) % 256 ≠ crc8_ref r % 256 := by
  have hm : ∀ y : Nat, y % 256 < 2 ^ 8 := fun y => Nat.mod_lt _ (by decide)
  have hf : ∀ c b, c < 256 →
      (fun c b => Nat.iterate crc8_bit 8 (c ^^^ (b % 256))) c b < 256 :=
    fun c b hc => (crc8_bit_iterate 8).1 _ (Nat.xor_lt_two_pow (n := 8) hc (hm b))
  have hinj : ∀ a b x, a < 256 → b < 256 →
      (fun c b => Nat.iterate crc8_bit 8 (c ^^^ (b % 256))) a x
        = (fun c b => Nat.iterate crc8_bit 8 (c ^^^ (b % 256))) b x → a = b := by
    intro a b x ha hb e
    have e1 := (crc8_bit_iterate 8).2 _ _ (Nat.xor_lt_two_pow (n := 8) ha (hm x))
      (Nat.xor_lt_two_pow (n := 8) hb (hm x)) e
    have e2 : (a ^^^ x % 256) ^^^ (x % 256) = (b ^^^ x % 256) ^^^ (x % 256) := by rw [e1]
    rw [Nat.xor_assoc, Nat.xor_self, Nat.xor_zero, Nat.xor_assoc, Nat.xor_self,
      Nat.xor_zero] at e2
    exact e2
  have hbyte : ∀ c x, c < 256 →
      (fun c b => Nat.iterate crc8_bit 8 (c ^^^ (b % 256))) c (x ^^^ 2 ^ k)
        ≠ (fun c b => Nat.iterate crc8_bit 8 (c ^^^ (b % 256))) c x := by
    intro c x hc e
    have e1 := (crc8_bit_iterate 8).2 _ _ (Nat.xor_lt_two_pow (n := 8) hc (hm _))
      (Nat.xor_lt_two_pow (n := 8) hc (hm _)) e
    exact xor_bit_mod_ne x k hk (Nat.xor_right_injective e1)
  have h := fold_flip _ k hf hinj hbyte r 0 j (by decide) hj
  have h1 := fold_lt _ hf (flip_bit r j k) 0 (by decide)
  have h2 := fold_lt _ hf r 0 (by decide)
  unfold crc8_ref
  rw [Nat.mod_eq_of_lt h1, Nat.mod_eq_of_lt h2]
  exact h
/-! ### Single-bit changes inside the checksummed bytes -/

/-- A frame that passes `pkgvalid` no longer passes it when its checksummed
bytes change in one bit and its `crc8` byte stays, provided `crc8` tells apart
byte strings that differ in one bit. -/
theorem pkgvalid_flip (crc8 : List Nat → Nat)
    (hdet : ∀ (r : List Nat) (j k : Nat), j < r.length → k < 8 →
      crc8 (flip_bit r j k) % 256 ≠ crc8 r % 256)
    (p q : Pkg) (j k : Nat) (hv : pkgvalid crc8 p = true) (hc : q.crc8 = p.crc8)
    (hr : crc_region q = flip_bit (crc_region p) j k) (hj : j < (crc_region p).length)
    (hk : k < 8) : pkgvalid crc8 q = false := by
  unfold pkgvalid at hv ⊢
  rw [hr, hc]
  have hv1 : crc8 (crc_region p) % 256 = p.crc8 := by simpa using hv
  simp only [beq_eq_false_iff_ne, ne_eq]
  intro e
  exact hdet _ j k hj hk (e.trans hv1.symm)

theorem crc_region_length (pkg : Pkg) (hlen : pkg.content.length = 63) (hsz : pkg.size ≤ 63) :
    (crc_region pkg).length = 2 + pkg.size := by
  rw [crc_region_eq _ hlen hsz, List.length_take]
  simp [hlen]
  omega

theorem indx_bit_byte : ∀ i, i < 32 → ∀ t, t < 8 → ∀ k, k < 5 →
    (i ^^^ 2 ^ k) + 32 * t = (i + 32 * t) ^^^ 2 ^ k := by decide

theorem type_low_bit_byte : ∀ i, i < 32 → ∀ t, t < 32 → ∀ k, k < 3 →
    i + 32 * ((t ^^^ 2 ^ k) % 8) = (i + 32 * (t % 8)) ^^^ 2 ^ (5 + k) ∧
      (t ^^^ 2 ^ k) / 8 = t / 8 := by decide

theorem type_high_bit_byte : ∀ t, t < 32 → ∀ k, k < 2 →
    (t ^^^ 2 ^ (3 + k)) % 8 = t % 8 ∧ (t ^^^ 2 ^ (3 + k)) / 8 = (t / 8) ^^^ 2 ^ k := by decide

/-- C6 (as stated) fails, in two ways.  In the ACK frame built by `pkginit`,
inverting bit 0 of byte 10 of the 68 bytes (a content byte beyond `size = 0`)
gives a frame that still passes `pkgvalid`, whatever the checksum function is.
And under the reference CRC-8 the SHOW frame with index 8 built for the name
`"x"` still passes `pkgvalid` after bit 1 of byte 1, a bit of its `size` field,
is inverted: `size` becomes 0 and the checksum of the two bytes that are then
checked is the stored one. -/
theorem C6_counterexample :
    (1 ≤ 10 ∧ 10 ≤ 66) ∧
    (∀ crc8 : List Nat → Nat, ∃ p, pkginit crc8 0 0 PKG_ACK none = some p ∧
      pkgvalid crc8 p = true ∧
      raw (flip_content_bit p 6 0) = flip_bit (raw p) 10 0 ∧
      raw (flip_content_bit p 6 0) ≠ raw p ∧
      pkgvalid crc8 (flip_content_bit p 6 0) = true) ∧
    pkginit crc8_ref 1 8 PKG_SHOW (some [0x78]) = some size_flip_example ∧
    pkgvalid crc8_ref size_flip_example = true ∧
    raw (flip_size_bit size_flip_example 1) = flip_bit (raw size_flip_example) 1 1 ∧
    raw (flip_size_bit size_flip_example 1) ≠ raw size_flip_example ∧
    pkgvalid crc8_ref (flip_size_bit size_flip_example 1) = true := by
  refine ⟨by decide, ?_, by decide, by decide, by decide, by decide, by decide⟩
  intro crc8
  refine ⟨_, pkginit_null crc8 0 0 PKG_ACK, pkginit_valid crc8 0 0 PKG_ACK none _
    (pkginit_null crc8 0 0 PKG_ACK), ?_, ?_, ?_⟩
  · simp [raw, flip_content_bit, flip_bit, pkginit_blank]
  · simp [raw, flip_content_bit, flip_bit, pkginit_blank]
  · simp [pkgvalid, crc_region, raw, flip_content_bit, flip_bit, pkginit_blank]

/-- C6 (amended): every frame built by `pkginit` passes `pkgvalid`.  Inverting
any one bit of its `crc8` byte makes `pkgvalid` return 0, and inverting any one
bit of a content byte `content[j]` with `j ≥ size` leaves `pkgvalid` returning
1, whatever `crc8` is.  When `crc8` tells apart any two byte strings of the
same length that differ in one bit, as a CRC-8 does, `pkgvalid` returns 0 after
one bit is inverted in the index field, in the three low bits of the type field
(byte 2), in the two high bits of the type field (byte 3) when `size ≥ 1`, or in
a content byte `content[j]` with `j + 2 ≤ size`. -/
theorem C6_bit_flips (crc8 : List Nat → Nat) (size indx type : Nat) (buf : Option (List Nat))
    (p : Pkg) (h : pkginit crc8 size indx type buf = some p) :
    pkgvalid crc8 p = true ∧
    (∀ k, k < 8 → pkgvalid crc8 (flip_crc8_bit p k) = false) ∧
    (∀ j k, p.size ≤ j → j < 63 → k < 8 → pkgvalid crc8 (flip_content_bit p j k) = true) ∧
    ((∀ (r : List Nat) (j k : Nat), j < r.length → k < 8 →
        crc8 (flip_bit r j k) % 256 ≠ crc8 r % 256) →
      (∀ k, k < 5 → raw (flip_indx_bit p k) = flip_bit (raw p) 2 k ∧
        pkgvalid crc8 (flip_indx_bit p k) = false) ∧
      (∀ k, k < 3 → raw (flip_type_bit p k) = flip_bit (raw p) 2 (5 + k) ∧
        pkgvalid crc8 (flip_type_bit p k) = false) ∧
      (∀ k, k < 2 → 1 ≤ p.size → raw (flip_type_bit p (3 + k)) = flip_bit (raw p) 3 k ∧
        pkgvalid crc8 (flip_type_bit p (3 + k)) = false) ∧
      (∀ j k, j + 2 ≤ p.size → k < 8 →
        pkgvalid crc8 (flip_content_bit p j k) = false)) := by
  obtain ⟨hlen, hsz, -, hi, ht, hc⟩ := pkginit_sealed crc8 size indx type buf p h
  have hv := pkginit_valid crc8 size indx type buf p h
  have hi32 : p.indx < 32 := by rw [hi]; exact Nat.mod_lt _ (by decide)
  have ht32 : p.type < 32 := by rw [ht]; exact Nat.mod_lt _ (by decide)
  have ht8 : p.type % 8 < 8 := Nat.mod_lt _ (by decide)
  have hrl := crc_region_length p hlen hsz
  have e2 : 2 + p.size = p.size + 1 + 1 := by omega
  refine ⟨hv, ?_, ?_, ?_⟩
  · intro k _
    unfold pkgvalid flip_crc8_bit
    rw [crc_region_set_crc8 _ _ hlen hsz, ← hc]
    simp only []
    have := xor_pow_ne p.crc8 k
    simp only [beq_eq_false_iff_ne, ne_eq]
    exact fun e => this e.symm
  · intro j k hj _ _
    unfold pkgvalid flip_content_bit flip_bit
    rw [crc_region_set_content _ _ _ hlen hsz hj, ← hc]
    simp
  · intro hdet
    refine ⟨?_, ?_, ?_, ?_⟩
    · intro k hk
      have hb := indx_bit_byte p.indx hi32 (p.type % 8) ht8 k hk
      refine ⟨?_, pkgvalid_flip crc8 hdet p _ 1 k hv rfl ?_ (by rw [hrl]; omega) (by omega)⟩
      · simp only [raw, flip_indx_bit, flip_bit, hb]
        rfl
      · rw [crc_region_eq _ hlen hsz, crc_region_eq _ (by exact hlen) (by exact hsz)]
        simp only [flip_indx_bit, flip_bit, hb, e2, List.cons_append, List.nil_append,
          List.take_succ_cons, List.set_cons_succ, List.set_cons_zero, List.getD_cons_succ,
          List.getD_cons_zero]
    · intro k hk
      obtain ⟨hb, hb3⟩ := type_low_bit_byte p.indx hi32 p.type ht32 k hk
      refine ⟨?_, pkgvalid_flip crc8 hdet p _ 1 (5 + k) hv rfl ?_ (by rw [hrl]; omega)
        (by omega)⟩
      · simp only [raw, flip_type_bit, flip_bit, hb, hb3]
        rfl
      · rw [crc_region_eq _ hlen hsz, crc_region_eq _ (by exact hlen) (by exact hsz)]
        simp only [flip_type_bit, flip_bit, hb, hb3, e2, List.cons_append, List.nil_append,
          List.take_succ_cons, List.set_cons_succ, List.set_cons_zero, List.getD_cons_succ,
          List.getD_cons_zero]
    · intro k hk hs1
      obtain ⟨hb, hb3⟩ := type_high_bit_byte p.type ht32 k hk
      obtain ⟨n, hn⟩ : ∃ n, p.size = n + 1 := ⟨p.size - 1, by omega⟩
      have e3 : 2 + p.size = n + 1 + 1 + 1 := by omega
      refine ⟨?_, pkgvalid_flip crc8 hdet p _ 2 k hv rfl ?_ (by rw [hrl]; omega) (by omega)⟩
      · simp only [raw, flip_type_bit, flip_bit, hb, hb3]
        rfl
      · rw [crc_region_eq _ hlen hsz, crc_region_eq _ (by exact hlen) (by exact hsz)]
        simp only [flip_type_bit, flip_bit, hb, hb3, e3, List.cons_append, List.nil_append,
          List.take_succ_cons, List.set_cons_succ, List.set_cons_zero, List.getD_cons_succ,
          List.getD_cons_zero]
    · intro j k hj hk
      obtain ⟨n, hn⟩ : ∃ n, p.size = n + 1 := ⟨p.size - 1, by omega⟩
      have e3 : 2 + p.size = n + 1 + 1 + 1 := by omega
      have hjn : j < n := by omega
      refine pkgvalid_flip crc8 hdet p _ (3 + j) k hv rfl ?_ (by rw [hrl]; omega) hk
      rw [crc_region_eq _ hlen hsz,
        crc_region_eq _ (by simp [flip_content_bit, flip_bit, hlen]) (by exact hsz)]
      have e4 : 3 + j = j + 1 + 1 + 1 := by omega
      simp only [flip_content_bit, flip_bit, e3, e4, List.cons_append, List.nil_append,
        List.take_succ_cons, List.set_cons_succ, List.getD_cons_succ]
      rw [List.set_take]
      simp only [List.getD_eq_getElem?_getD, List.getElem?_take_of_lt hjn]

/-- C6 (amended) at the SHOW frame built for the name `"a"` under the reference
CRC-8, which tells apart byte strings that differ in one bit. -/
theorem C6_bit_flips_witness :
    pkgvalid crc8_ref show_example = true ∧
    (∀ k, k < 8 → pkgvalid crc8_ref (flip_crc8_bit show_example k) = false) ∧
    (∀ j k, show_example.size ≤ j → j < 63 → k < 8 →
      pkgvalid crc8_ref (flip_content_bit show_example j k) = true) ∧
    (∀ k, k < 5 → pkgvalid crc8_ref (flip_indx_bit show_example k) = false) ∧
    (∀ k, k < 3 → pkgvalid crc8_ref (flip_type_bit show_example k) = false) ∧
    (∀ k, k < 2 → pkgvalid crc8_ref (flip_type_bit show_example (3 + k)) = false) ∧
    (∀ k, k < 8 → pkgvalid crc8_ref (flip_content_bit show_example 0 k) = false) := by
  obtain ⟨h1, h2, h3, h4⟩ :=
    C6_bit_flips crc8_ref 1 0 PKG_SHOW (some [0x61]) show_example (by decide)
  obtain ⟨g1, g2, g3, g4⟩ := h4 crc8_ref_detects
  exact ⟨h1, h2, h3, fun k hk => (g1 k hk).2, fun k hk => (g2 k hk).2,
    fun k hk => (g3 k hk (by decide)).2, fun k hk => g4 0 k (by decide) hk⟩

/-! ## The requester's replies -/

/-- The ACK frame `init_pkg_with_ack` builds. -/
theorem init_pkg_with_ack_eq (crc8 : List Nat → Nat) :
    ∃ a, init_pkg_with_ack crc8 = some a ∧ a.type = PKG_ACK ∧ a.indx = 0 ∧ a.size = 0 ∧
      a.marker = PKG_MARKER ∧ pkgvalid crc8 a = true := by
  refine ⟨_, pkginit_null crc8 0 0 PKG_ACK, rfl, rfl, rfl, rfl, ?_⟩
  exact pkginit_valid crc8 0 0 PKG_ACK none _ (pkginit_null crc8 0 0 PKG_ACK)

/-- The NACK frame `init_pkg_with_nack` builds: it carries `indx` modulo 32. -/
theorem init_pkg_with_nack_eq (crc8 : List Nat → Nat) (indx : Nat) :
    ∃ n, init_pkg_with_nack crc8 indx = some n ∧ n.type = PKG_NACK ∧ n.indx = indx % 32 ∧
      n.size = 0 ∧ n.marker = PKG_MARKER ∧ pkgvalid crc8 n = true := by
  refine ⟨_, pkginit_null crc8 0 (indx % 256) PKG_NACK, rfl, ?_, rfl, rfl, ?_⟩
  · simp only [pkginit_blank]; omega
  · exact pkginit_valid crc8 0 (indx % 256) PKG_NACK none _
      (pkginit_null crc8 0 (indx % 256) PKG_NACK)

/-- `context_update_with_data` on a valid frame with the expected index. -/
theorem context_update_with_data_accept (crc8 : List Nat → Nat) (ctx : Context) (pkg : Pkg)
    (hv : pkgvalid crc8 pkg = true) (hi : pkg.indx = ctx.indx) :
    ∃ a, init_pkg_with_ack crc8 = some a ∧
      context_update_with_data crc8 ctx pkg = some (1,
        { ctx with win_i := WINSZ,
                   recv := (ctx.recv + (pkg_rmv_sentinel_bytes pkg).size) % 2 ^ 64,
                   fp := ctx.fp ++ payload (pkg_rmv_sentinel_bytes pkg),
                   win_buf := a,
                   indx := (ctx.indx + 1) % PKG_MAX_IND },
        pkg_rmv_sentinel_bytes pkg) := by
  obtain ⟨a, ha, -⟩ := init_pkg_with_ack_eq crc8
  refine ⟨a, ha, ?_⟩
  simp only [context_update_with_data, hv, hi, ha, incindx, payload, beq_self_eq_true,
    Bool.and_self, if_true]

/-- `context_update_with_data` on a frame that fails the checksum or carries
another index. -/
theorem context_update_with_data_reject (crc8 : List Nat → Nat) (ctx : Context) (pkg : Pkg)
    (hbad : pkgvalid crc8 pkg = false ∨ pkg.indx ≠ ctx.indx) :
    ∃ n, init_pkg_with_nack crc8 ctx.indx = some n ∧
      context_update_with_data crc8 ctx pkg = some (1,
        { ctx with win_i := WINSZ, win_buf := n, skip := 1 }, pkg) := by
  obtain ⟨n, hn, -⟩ := init_pkg_with_nack_eq crc8 ctx.indx
  refine ⟨n, hn, ?_⟩
  have hc : (pkgvalid crc8 pkg && pkg.indx == ctx.indx) = false := by
    rcases hbad with h | h
    · simp [h]
    · simp [h]
  simp only [context_update_with_data, hc, hn, Bool.false_eq_true, if_false]

theorem context_update_download_data (crc8 : List Nat → Nat) (st : Option (Nat × Nat))
    (ctx : Context) (pkg : Pkg) (hD : ctx.type = CtxType.CTX_DOWNLOAD)
    (hT : pkg.type = PKG_DATA) :
    context_update crc8 st ctx pkg = context_update_with_data crc8 ctx pkg := by
  simp only [context_update, hD, context_download_update, hT, beq_self_eq_true, if_true]

/-! ## Claims about the requester session -/

/-- C7: in a DOWNLOAD session, for every frame of type DATA that passes
`pkgvalid` and whose index equals the expected index, `context_update` returns
1, appends exactly the unstuffed payload to the file, adds its length to
`recv` (a `size_t`: modulo `2^64`, and exactly when the counter cannot wrap),
sets the expected index to `(indx + 1) mod 32`, arms an ACK in `win.buf` and
leaves `skip` as it was. -/
theorem C7_data_in_order (crc8 : List Nat → Nat) (st : Option (Nat × Nat))
    (ctx : Context) (pkg : Pkg) (hD : ctx.type = CtxType.CTX_DOWNLOAD)
    (hT : pkg.type = PKG_DATA) (hsz : pkg.size ≤ 63)
    (hv : pkgvalid crc8 pkg = true) (hi : pkg.indx = ctx.indx) :
    ∃ a ctx1, init_pkg_with_ack crc8 = some a ∧ a.type = PKG_ACK ∧ pkgvalid crc8 a = true ∧
      context_update crc8 st ctx pkg = some (1, ctx1, pkg_rmv_sentinel_bytes pkg) ∧
      payload (pkg_rmv_sentinel_bytes pkg) = unstuff (payload pkg) ∧
      ctx1.fp = ctx.fp ++ unstuff (payload pkg) ∧
      ctx1.recv = (ctx.recv + (unstuff (payload pkg)).length) % 2 ^ 64 ∧
      (ctx.recv + 63 < 2 ^ 64 → ctx1.recv = ctx.recv + (unstuff (payload pkg)).length) ∧
      ctx1.indx = (ctx.indx + 1) % 32 ∧
      ctx1.win_buf = a ∧ ctx1.skip = ctx.skip ∧ ctx1.completed = ctx.completed := by
  obtain ⟨a, ha, hrun⟩ := context_update_with_data_accept crc8 ctx pkg hv hi
  obtain ⟨a2, ha2, hty, -, -, -, hva⟩ := init_pkg_with_ack_eq crc8
  have haa : a2 = a := by rw [ha] at ha2; injection ha2 with h; exact h.symm
  subst haa
  have hpay : payload (pkg_rmv_sentinel_bytes pkg) = unstuff (payload pkg) := by
    rw [payload_rmv pkg hsz, rmv_scan_unstuff]; rfl
  have hlen : (pkg_rmv_sentinel_bytes pkg).size = (unstuff (payload pkg)).length := by
    rw [size_rmv pkg hsz, rmv_scan_unstuff]; rfl
  refine ⟨a2,
    { ctx with win_i := WINSZ,
               recv := (ctx.recv + (pkg_rmv_sentinel_bytes pkg).size) % 2 ^ 64,
               fp := ctx.fp ++ payload (pkg_rmv_sentinel_bytes pkg),
               win_buf := a2,
               indx := (ctx.indx + 1) % PKG_MAX_IND },
    ha, hty, hva, ?_, hpay, ?_, ?_, ?_, rfl, rfl, rfl, rfl⟩
  · rw [context_update_download_data crc8 st ctx pkg hD hT]; exact hrun
  · simp only [hpay]
  · simp only [hlen]
  · intro hno
    have hle : (unstuff (payload pkg)).length ≤ 63 := by
      have h1 := rmv_scan_length (pkg.content.take pkg.size)
      have h2 : (pkg.content.take pkg.size).length ≤ 63 := by
        rw [List.length_take]; omega
      rw [rmv_scan_unstuff] at h1
      exact le_trans h1 h2
    simp only [hlen]
    exact Nat.mod_eq_of_lt (by omega)

/-- C7 at the frame `data_example` received in a DOWNLOAD session that expects
index 1. -/
theorem C7_data_in_order_witness :
    ∃ a ctx1, init_pkg_with_ack crc8_ref = some a ∧ a.type = PKG_ACK ∧
      pkgvalid crc8_ref a = true ∧
      context_update crc8_ref none { zero_ctx CtxType.CTX_DOWNLOAD with indx := 1 } data_example
        = some (1, ctx1, pkg_rmv_sentinel_bytes data_example) ∧
      payload (pkg_rmv_sentinel_bytes data_example) = unstuff (payload data_example) ∧
      ctx1.fp = [] ++ unstuff (payload data_example) ∧
      ctx1.recv = (0 + (unstuff (payload data_example)).length) % 2 ^ 64 ∧
      (0 + 63 < 2 ^ 64 → ctx1.recv = 0 + (unstuff (payload data_example)).length) ∧
      ctx1.indx = (1 + 1) % 32 ∧
      ctx1.win_buf = a ∧ ctx1.skip = 0 ∧ ctx1.completed = 0 :=
  C7_data_in_order crc8_ref none { zero_ctx CtxType.CTX_DOWNLOAD with indx := 1 } data_example
    (by decide) (by decide) (by decide) (by decide) (by decide)

/-- C8: in a DOWNLOAD session whose expected index is below 32, a DATA frame
that fails the checksum or whose index differs from the expected index never
arms an ACK: `context_update` arms a NACK carrying the expected index, sets
`skip`, and leaves the expected index and the file unchanged.  Consequently,
when the same valid in-order DATA frame is delivered twice, the first delivery
appends its payload to the file and arms an ACK, the second arms a NACK
carrying the new expected index and appends nothing. -/
theorem C8_data_rejected (crc8 : List Nat → Nat) (st : Option (Nat × Nat))
    (ctx : Context) (pkg : Pkg) (hD : ctx.type = CtxType.CTX_DOWNLOAD)
    (hT : pkg.type = PKG_DATA) (hx : ctx.indx < 32) (hsz : pkg.size ≤ 63) :
    ((pkgvalid crc8 pkg = false ∨ pkg.indx ≠ ctx.indx) →
      ∃ n ctx1, init_pkg_with_nack crc8 ctx.indx = some n ∧
        n.type = PKG_NACK ∧ n.type ≠ PKG_ACK ∧ n.indx = ctx.indx ∧
        context_update crc8 st ctx pkg = some (1, ctx1, pkg) ∧
        ctx1.win_buf = n ∧ ctx1.skip = 1 ∧ ctx1.indx = ctx.indx ∧ ctx1.fp = ctx.fp) ∧
    ((pkgvalid crc8 pkg = true ∧ pkg.indx = ctx.indx) →
      ∃ ctx1 p1 ctx2 p2,
        context_update crc8 st ctx pkg = some (1, ctx1, p1) ∧
        context_update crc8 st ctx1 pkg = some (1, ctx2, p2) ∧
        ctx1.win_buf.type = PKG_ACK ∧ ctx1.fp = ctx.fp ++ unstuff (payload pkg) ∧
        ctx2.win_buf.type = PKG_NACK ∧ ctx2.win_buf.indx = ctx1.indx ∧
        ctx2.indx = ctx1.indx ∧ ctx2.skip = 1 ∧
        ctx2.fp = ctx.fp ++ unstuff (payload pkg)) := by
  constructor
  · intro hbad
    obtain ⟨n, hn, hrun⟩ := context_update_with_data_reject crc8 ctx pkg hbad
    obtain ⟨n2, hn2, hty, hix, -⟩ := init_pkg_with_nack_eq crc8 ctx.indx
    have hnn : n2 = n := by rw [hn] at hn2; injection hn2 with h; exact h.symm
    subst hnn
    refine ⟨n2, { ctx with win_i := WINSZ, win_buf := n2, skip := 1 }, hn, hty, ?_, ?_, ?_,
      rfl, rfl, rfl, rfl⟩
    · rw [hty]; decide
    · rw [hix]; omega
    · rw [context_update_download_data crc8 st ctx pkg hD hT]; exact hrun
  · rintro ⟨hv, hi⟩
    obtain ⟨a, ha, hrun⟩ := context_update_with_data_accept crc8 ctx pkg hv hi
    obtain ⟨a2, ha2, hty, -⟩ := init_pkg_with_ack_eq crc8
    have haa : a2 = a := by rw [ha] at ha2; injection ha2 with h; exact h.symm
    subst haa
    have hpay : payload (pkg_rmv_sentinel_bytes pkg) = unstuff (payload pkg) := by
      rw [payload_rmv pkg hsz, rmv_scan_unstuff]; rfl
    have hne : pkg.indx ≠ (ctx.indx + 1) % PKG_MAX_IND := by
      rw [hi]; simp only [PKG_MAX_IND]; omega
    obtain ⟨n, hn, hrun2⟩ := context_update_with_data_reject crc8
      { ctx with win_i := WINSZ,
                 recv := (ctx.recv + (pkg_rmv_sentinel_bytes pkg).size) % 2 ^ 64,
                 fp := ctx.fp ++ payload (pkg_rmv_sentinel_bytes pkg),
                 win_buf := a2,
                 indx := (ctx.indx + 1) % PKG_MAX_IND } pkg (Or.inr hne)
    obtain ⟨n2, hn2, hnty, hnix, -⟩ := init_pkg_with_nack_eq crc8 ((ctx.indx + 1) % PKG_MAX_IND)
    have hnn : n2 = n := by
      have := hn
      simp only [] at this
      rw [this] at hn2; injection hn2 with h; exact h.symm
    subst hnn
    refine ⟨
      { ctx with win_i := WINSZ,
                 recv := (ctx.recv + (pkg_rmv_sentinel_bytes pkg).size) % 2 ^ 64,
                 fp := ctx.fp ++ payload (pkg_rmv_sentinel_bytes pkg),
                 win_buf := a2,
                 indx := (ctx.indx + 1) % PKG_MAX_IND },
      pkg_rmv_sentinel_bytes pkg,
      { ctx with win_i := WINSZ,
                 recv := (ctx.recv + (pkg_rmv_sentinel_bytes pkg).size) % 2 ^ 64,
                 fp := ctx.fp ++ payload (pkg_rmv_sentinel_bytes pkg),
                 win_buf := n2,
                 indx := (ctx.indx + 1) % PKG_MAX_IND,
                 skip := 1 },
      pkg, ?_, ?_, hty, ?_, hnty, ?_, rfl, rfl, ?_⟩
    · rw [context_update_download_data crc8 st ctx pkg hD hT]; exact hrun
    · have hD1 : ({ ctx with win_i := WINSZ,
                              recv := (ctx.recv + (pkg_rmv_sentinel_bytes pkg).size) % 2 ^ 64,
                              fp := ctx.fp ++ payload (pkg_rmv_sentinel_bytes pkg),
                              win_buf := a2,
                              indx := (ctx.indx + 1) % PKG_MAX_IND } : Context).type
          = CtxType.CTX_DOWNLOAD := hD
      rw [context_update_download_data crc8 st _ pkg hD1 hT]; exact hrun2
    · simp only [hpay]
    · rw [hnix]; simp only [PKG_MAX_IND]; omega
    · simp only [hpay]

/-- C8 at two inputs: the frame `data_example` (index 1) received while index 2
is expected, and the same frame delivered twice while index 1 is expected. -/
theorem C8_data_rejected_witness :
    (∃ n ctx1, init_pkg_with_nack crc8_ref 2 = some n ∧
        n.type = PKG_NACK ∧ n.type ≠ PKG_ACK ∧ n.indx = 2 ∧
        context_update crc8_ref none { zero_ctx CtxType.CTX_DOWNLOAD with indx := 2 }
          data_example = some (1, ctx1, data_example) ∧
        ctx1.win_buf = n ∧ ctx1.skip = 1 ∧ ctx1.indx = 2 ∧ ctx1.fp = []) ∧
    (∃ ctx1 p1 ctx2 p2,
        context_update crc8_ref none { zero_ctx CtxType.CTX_DOWNLOAD with indx := 1 }
          data_example = some (1, ctx1, p1) ∧
        context_update crc8_ref none ctx1 data_example = some (1, ctx2, p2) ∧
        ctx1.win_buf.type = PKG_ACK ∧ ctx1.fp = [] ++ unstuff (payload data_example) ∧
        ctx2.win_buf.type = PKG_NACK ∧ ctx2.win_buf.indx = ctx1.indx ∧
        ctx2.indx = ctx1.indx ∧ ctx2.skip = 1 ∧
        ctx2.fp = [] ++ unstuff (payload data_example)) :=
  ⟨(C8_data_rejected crc8_ref none { zero_ctx CtxType.CTX_DOWNLOAD with indx := 2 }
      data_example (by decide) (by decide) (by decide) (by decide)).1 (Or.inr (by decide)),
   (C8_data_rejected crc8_ref none { zero_ctx CtxType.CTX_DOWNLOAD with indx := 1 }
      data_example (by decide) (by decide) (by decide) (by decide)).2
      ⟨by decide, by decide⟩⟩

/-- C9 (what the code does): in an LS session, a SHOW frame that fails the
checksum or whose index differs from the expected index leaves the whole
session as it was, `win.buf` included: the NACK carrying the expected index is
built in the received frame, not in the outbound reply.  The expected index is
unchanged and nothing is printed. -/
theorem C9_show_rejected_reply_untouched (crc8 : List Nat → Nat) (st : Option (Nat × Nat))
    (ctx : Context) (pkg : Pkg) (hL : ctx.type = CtxType.CTX_LS) (hT : pkg.type = PKG_SHOW)
    (hbad : pkgvalid crc8 pkg = false ∨ pkg.indx ≠ ctx.indx) :
    ∃ n, init_pkg_with_nack crc8 ctx.indx = some n ∧ n.type = PKG_NACK ∧
      n.indx = ctx.indx % 32 ∧
      context_update crc8 st ctx pkg = some (1, ctx, n) := by
  obtain ⟨n, hn, hty, hix, -⟩ := init_pkg_with_nack_eq crc8 ctx.indx
  refine ⟨n, hn, hty, hix, ?_⟩
  have hc : (pkgvalid crc8 pkg && pkg.indx == ctx.indx) = false := by
    rcases hbad with h | h
    · simp [h]
    · simp [h]
  simp only [context_update, hL, context_ls_update, hT, beq_self_eq_true, if_true,
    context_update_with_show, hc, hn, Bool.false_eq_true, if_false]

/-- C9 at the failing input: an LS session that expects index 1 with an ACK in
`win.buf` receives the valid SHOW frame `show_example` with index 0 again; the
session comes back unchanged, so the reply still armed is the ACK. -/
theorem C9_show_rejected_reply_untouched_witness :
    (∃ n, init_pkg_with_nack crc8_ref 1 = some n ∧ n.type = PKG_NACK ∧ n.indx = 1 % 32 ∧
      context_update crc8_ref none
        { zero_ctx CtxType.CTX_LS with indx := 1, win_buf := ack_example } show_example
        = some (1, { zero_ctx CtxType.CTX_LS with indx := 1, win_buf := ack_example }, n)) ∧
    pkgvalid crc8_ref show_example = true ∧
    ({ zero_ctx CtxType.CTX_LS with indx := 1, win_buf := ack_example } : Context).win_buf.type
      = PKG_ACK :=
  ⟨C9_show_rejected_reply_untouched crc8_ref none
      { zero_ctx CtxType.CTX_LS with indx := 1, win_buf := ack_example } show_example
      (by decide) (by decide) (Or.inr (by decide)),
    by decide, by decide⟩

/-- C10 (as stated) fails: a DOWNLOAD session with an ACK armed in `win.buf`
that receives a valid ERROR frame still has the ACK armed afterwards; no NACK
is built, whatever the checksum function is. -/
theorem C10_counterexample :
    (PKG_ERROR ≠ PKG_DATA ∧ PKG_ERROR ≠ PKG_SHOW ∧ PKG_ERROR ≠ PKG_DESCRIPTOR ∧
      PKG_ERROR ≠ PKG_END) ∧
    ∀ crc8 : List Nat → Nat, ∃ e a ret ctx1 p1,
      pkginit crc8 0 0 PKG_ERROR none = some e ∧ pkgvalid crc8 e = true ∧
      init_pkg_with_ack crc8 = some a ∧
      context_update crc8 none { zero_ctx CtxType.CTX_DOWNLOAD with win_buf := a } e
        = some (ret, ctx1, p1) ∧
      ctx1.win_buf.type = PKG_ACK ∧ ctx1.win_buf.type ≠ PKG_NACK := by
  refine ⟨by decide, ?_⟩
  intro crc8
  obtain ⟨a, ha, hty, -⟩ := init_pkg_with_ack_eq crc8
  refine ⟨_, a, 0, { zero_ctx CtxType.CTX_DOWNLOAD with win_buf := a },
    { pkginit_blank 0 PKG_ERROR with
        crc8 := crc8 (crc_region (pkginit_blank 0 PKG_ERROR)) % 256 },
    pkginit_null crc8 0 0 PKG_ERROR,
    pkginit_valid crc8 0 0 PKG_ERROR none _ (pkginit_null crc8 0 0 PKG_ERROR), ha, ?_, hty, ?_⟩
  · simp [context_update, zero_ctx, context_download_update, context_update_with_meta_pkgs,
      pkginit_blank, PKG_ERROR, PKG_DATA, PKG_DESCRIPTOR, PKG_END]
  · rw [hty]; decide

/-- C10 (amended): for every received frame, valid or not, whose type is none
of DATA, SHOW, DESCRIPTOR or END (for example ACK, NACK, LS, DOWNLOAD, ERROR),
`context_update` returns 0 and leaves the session, the armed reply in `win.buf`
included, and the frame unchanged: no NACK is built. -/
theorem C10_other_types_ignored (crc8 : List Nat → Nat) (st : Option (Nat × Nat))
    (ctx : Context) (pkg : Pkg) (h1 : pkg.type ≠ PKG_DATA) (h2 : pkg.type ≠ PKG_SHOW)
    (h3 : pkg.type ≠ PKG_DESCRIPTOR) (h4 : pkg.type ≠ PKG_END) :
    context_update crc8 st ctx pkg = some (0, ctx, pkg) := by
  cases hty : ctx.type <;>
    simp [context_update, hty, context_download_update, context_ls_update,
      context_update_with_meta_pkgs, h1, h2, h3, h4]

/-- C10 (amended) at the valid frame `error_example` received in a DOWNLOAD
session with an ACK armed. -/
theorem C10_other_types_ignored_witness :
    pkgvalid crc8_ref error_example = true ∧
    context_update crc8_ref none { zero_ctx CtxType.CTX_DOWNLOAD with win_buf := ack_example }
      error_example
      = some (0, { zero_ctx CtxType.CTX_DOWNLOAD with win_buf := ack_example }, error_example) :=
  ⟨by decide, C10_other_types_ignored crc8_ref none
    { zero_ctx CtxType.CTX_DOWNLOAD with win_buf := ack_example } error_example
    (by decide) (by decide) (by decide) (by decide)⟩

/-! ## The requester's window loop -/

/-- `context_update` always returns, and the reply in `win.buf` afterwards is
the one that was there before, an ACK or a NACK. -/
theorem context_update_reply (crc8 : List Nat → Nat) (st : Option (Nat × Nat))
    (ctx : Context) (pkg : Pkg) :
    ∃ r ctx1 p1, context_update crc8 st ctx pkg = some (r, ctx1, p1) ∧
      (ctx1.win_buf = ctx.win_buf ∨ ctx1.win_buf.type = PKG_ACK ∨
        ctx1.win_buf.type = PKG_NACK) := by
  obtain ⟨a, ha, hat, -⟩ := init_pkg_with_ack_eq crc8
  obtain ⟨n, hn, hnt, -⟩ := init_pkg_with_nack_eq crc8 ctx.indx
  unfold context_update context_download_update context_ls_update context_update_with_data
    context_update_with_descriptor context_update_with_show context_update_with_meta_pkgs
  simp only [ha, hn, incindx]
  cases ctx.type <;> simp only [] <;> split_ifs <;>
    first
      | exact ⟨_, _, _, rfl, Or.inl rfl⟩
      | exact ⟨_, _, _, rfl, Or.inr (Or.inl hat)⟩
      | exact ⟨_, _, _, rfl, Or.inr (Or.inr hnt)⟩

/-- One pass through the loop body always returns; every frame it sends is
either the terminating ACK or the frame found in `win.buf`, and `win.buf`
afterwards is the old one, an ACK or a NACK. -/
theorem process_context_body_sent (crc8 : List Nat → Nat) (st : Option (Nat × Nat))
    (s : Loop) (pkg : Pkg) :
    ∃ s1, process_context_body crc8 st s pkg = some s1 ∧
      (s1.ctx.win_buf = s.ctx.win_buf ∨ s1.ctx.win_buf.type = PKG_ACK ∨
        s1.ctx.win_buf.type = PKG_NACK) ∧
      (s1.sent = s.sent ∨
        ∃ q, s1.sent = s.sent ++ [q] ∧
          (q = s.ctx.win_buf ∨ q.type = PKG_ACK ∨ q.type = PKG_NACK)) := by
  obtain ⟨a, ha, hat, -⟩ := init_pkg_with_ack_eq crc8
  have hsa : pkgsend_ack crc8 = some a := ha
  obtain ⟨r, ctx1, p1, hu, hw⟩ := context_update_reply crc8 st s.ctx pkg
  unfold process_context_body
  simp only [hu, hsa]
  split_ifs <;> simp only [] <;> (try split_ifs) <;>
    first
      | exact ⟨_, rfl, Or.inl rfl, Or.inl rfl⟩
      | exact ⟨_, rfl, hw, Or.inl rfl⟩
      | exact ⟨_, rfl, hw, Or.inr ⟨a, rfl, Or.inr (Or.inl hat)⟩⟩
      | exact ⟨_, rfl, Or.inl rfl, Or.inr ⟨_, rfl, Or.inl rfl⟩⟩
      | exact ⟨_, rfl, hw, Or.inr ⟨_, rfl, hw⟩⟩

/-- The window loop over any sequence of received buffers: it always returns,
and every frame it sends is an ACK, a NACK or carries a type `t` that the frame
in `win.buf` had when the loop was entered. -/
theorem process_context_sent_types (crc8 : List Nat → Nat) (st : Option (Nat × Nat))
    (t : Nat) (frames : List Pkg) :
    ∀ s : Loop,
      (s.ctx.win_buf.type = PKG_ACK ∨ s.ctx.win_buf.type = PKG_NACK ∨
        s.ctx.win_buf.type = t) →
      (∀ q ∈ s.sent, q.type = PKG_ACK ∨ q.type = PKG_NACK ∨ q.type = t) →
      ∃ s1, process_context crc8 st s frames = some s1 ∧
        ∀ q ∈ s1.sent, q.type = PKG_ACK ∨ q.type = PKG_NACK ∨ q.type = t := by
  induction frames with
  | nil => intro s _ hs; exact ⟨s, rfl, hs⟩
  | cons pkg rest ih =>
    intro s hw hs
    unfold process_context
    by_cases he : s.ended = true
    · simp only [he, if_true]; exact ⟨s, rfl, hs⟩
    · simp only [he]
      have key : ∀ s0 : Loop, s0.ctx = s.ctx → s0.sent = s.sent →
          ∃ s1, (match process_context_body crc8 st s0 pkg with
                  | none => none
                  | some s1 => process_context crc8 st s1 rest) = some s1 ∧
            ∀ q ∈ s1.sent, q.type = PKG_ACK ∨ q.type = PKG_NACK ∨ q.type = t := by
        intro s0 hc hsent
        obtain ⟨s1, hb, hw1, hs1⟩ := process_context_body_sent crc8 st s0 pkg
        rw [hb]
        have hw0 : s0.ctx.win_buf.type = PKG_ACK ∨ s0.ctx.win_buf.type = PKG_NACK ∨
            s0.ctx.win_buf.type = t := by rw [hc]; exact hw
        apply ih s1
        · rcases hw1 with h | h | h
          · rw [h]; exact hw0
          · exact Or.inl h
          · exact Or.inr (Or.inl h)
        · intro q hq
          rcases hs1 with h | ⟨q1, h, hq1⟩
          · rw [h, hsent] at hq; exact hs q hq
          · rw [h, hsent, List.mem_append, List.mem_singleton] at hq
            rcases hq with hq | hq
            · exact hs q hq
            · subst hq
              rcases hq1 with h2 | h2 | h2
              · rw [h2]; exact hw0
              · exact Or.inl h2
              · exact Or.inr (Or.inl h2)
      have hn : (loop_norm s).ctx = s.ctx ∧ (loop_norm s).sent = s.sent := by
        unfold loop_norm; split <;> exact ⟨rfl, rfl⟩
      by_cases hi : (loop_norm s).i < (loop_norm s).ctx.win_i
      · simp only [hi, if_true]
        exact key (loop_norm s) hn.1 hn.2
      · simp only [hi, if_false]
        exact ⟨_, rfl, by rw [hn.2]; exact hs⟩

/-! ## Claims about the requester's window loop -/

/-- C11 (as stated) fails: an LS session enters the window loop with the LS
request in `win.buf`; when the first buffer received is a valid ACK frame, the
frame the loop sends at the end of that window is the LS request, neither an
ACK nor a NACK, whatever the checksum function is. -/
theorem C11_counterexample :
    (PKG_LS ≠ PKG_ACK ∧ PKG_LS ≠ PKG_NACK) ∧
    ∀ crc8 : List Nat → Nat, ∃ ctx a s1,
      context_init crc8 true (zero_ctx CtxType.CTX_DOWNLOAD) CtxType.CTX_LS [] = some (1, ctx) ∧
      pkginit crc8 0 0 PKG_ACK none = some a ∧ ispkg a = true ∧ pkgvalid crc8 a = true ∧
      process_context crc8 none (loop_start ctx) [a] = some s1 ∧
      s1.sent = [ctx.win_buf] ∧ ctx.win_buf.type = PKG_LS := by
  refine ⟨by decide, ?_⟩
  intro crc8
  have hls := pkginit_null crc8 0 0 PKG_LS
  have hack := pkginit_null crc8 0 0 PKG_ACK
  refine ⟨{ zero_ctx CtxType.CTX_DOWNLOAD with
              indx := 0, type := CtxType.CTX_LS, win_i := 1,
              win_buf := { pkginit_blank 0 PKG_LS with
                            crc8 := crc8 (crc_region (pkginit_blank 0 PKG_LS)) % 256 } },
    _,
    { ctx := { zero_ctx CtxType.CTX_DOWNLOAD with
                indx := 0, type := CtxType.CTX_LS, win_i := 1, skip := 0,
                win_buf := { pkginit_blank 0 PKG_LS with
                              crc8 := crc8 (crc_region (pkginit_blank 0 PKG_LS)) % 256 } },
      i := 1, count := 0,
      sent := [{ pkginit_blank 0 PKG_LS with
                  crc8 := crc8 (crc_region (pkginit_blank 0 PKG_LS)) % 256 }],
      ended := false },
    ?_, hack, rfl, pkginit_valid crc8 0 0 PKG_ACK none _ hack, ?_, rfl, rfl⟩
  · simp only [context_init, context_init_ls, hls]
  · simp [process_context, loop_norm, loop_start, process_context_body, zero_ctx, ispkg,
      pkginit_blank, context_update, context_ls_update, context_update_with_meta_pkgs, PKG_ACK,
      PKG_SHOW, PKG_END, PKG_MARKER]

/-- C11 (amended): for every sequence of buffers received by the window loop,
`process_context` returns and every frame it has sent is of type ACK, NACK or
the type of the frame that was in `win.buf` when the loop was entered (the
initial LS or DOWNLOAD request); when that frame is an ACK or a NACK, every
frame sent is an ACK or a NACK. -/
theorem C11_sent_frames (crc8 : List Nat → Nat) (st : Option (Nat × Nat)) (ctx : Context)
    (frames : List Pkg) :
    ∃ s1, process_context crc8 st (loop_start ctx) frames = some s1 ∧
      (∀ q ∈ s1.sent, q.type = PKG_ACK ∨ q.type = PKG_NACK ∨ q.type = ctx.win_buf.type) ∧
      ((ctx.win_buf.type = PKG_ACK ∨ ctx.win_buf.type = PKG_NACK) →
        ∀ q ∈ s1.sent, q.type = PKG_ACK ∨ q.type = PKG_NACK) := by
  obtain ⟨s1, h1, h2⟩ := process_context_sent_types crc8 st ctx.win_buf.type frames
    (loop_start ctx) (Or.inr (Or.inr rfl)) (by intro q hq; simp [loop_start] at hq)
  refine ⟨s1, h1, h2, ?_⟩
  intro hw q hq
  rcases h2 q hq with h | h | h
  · exact Or.inl h
  · exact Or.inr h
  · rw [h]; exact hw

theorem loop_norm_fields (s : Loop) :
    (loop_norm s).ctx = s.ctx ∧ (loop_norm s).sent = s.sent ∧
      (loop_norm s).count = s.count ∧ (loop_norm s).ended = s.ended := by
  unfold loop_norm; split <;> exact ⟨rfl, rfl, rfl, rfl⟩

theorem loop_norm_lt (s : Loop) (hw : 0 < s.ctx.win_i) :
    (loop_norm s).i < (loop_norm s).ctx.win_i := by
  unfold loop_norm; split
  · assumption
  · exact hw

theorem process_context_cons (crc8 : List Nat → Nat) (st : Option (Nat × Nat)) (s : Loop)
    (pkg : Pkg) (rest : List Pkg) (he : s.ended = false) (hw : 0 < s.ctx.win_i) :
    process_context crc8 st s (pkg :: rest) =
      match process_context_body crc8 st (loop_norm s) pkg with
      | none => none
      | some s1 => process_context crc8 st s1 rest := by
  have h := loop_norm_lt s hw
  conv_lhs => unfold process_context
  simp only [he, Bool.false_eq_true, if_false, h, if_true]

theorem process_context_ended (crc8 : List Nat → Nat) (st : Option (Nat × Nat)) (s : Loop)
    (frames : List Pkg) (he : s.ended = true) : process_context crc8 st s frames = some s := by
  cases frames with
  | nil => rfl
  | cons p t => unfold process_context; simp only [he, if_true]

/-- What the requester's `context_update` does with a frame of type END. -/
theorem context_update_end (crc8 : List Nat → Nat) (st : Option (Nat × Nat)) (ctx : Context)
    (pkg : Pkg) (ht : pkg.type = PKG_END) :
    context_update crc8 st ctx pkg =
      if pkgvalid crc8 pkg = true then some (1, { ctx with completed := 1 }, pkg)
      else some (0, ctx, pkg) := by
  have hne1 : (PKG_END == PKG_DATA) = false := by decide
  have hne2 : (PKG_END == PKG_DESCRIPTOR) = false := by decide
  have hne3 : (PKG_END == PKG_SHOW) = false := by decide
  unfold context_update context_download_update context_ls_update
    context_update_with_meta_pkgs
  cases hty : ctx.type <;> cases hv : pkgvalid crc8 pkg <;>
    simp [ht, hne1, hne2, hne3, hty]

/-- C14: in the window loop with `skip` clear, a received frame of type END
with the marker and a valid checksum sets `completed`, whatever its index; the
loop then sends exactly one frame, the terminating ACK, reaches `_end` without
sending the reply armed in `win.buf`, and receives nothing further.  An END
frame whose checksum is wrong leaves the session, `completed` included,
unchanged. -/
theorem C14_end_frame (crc8 : List Nat → Nat) (st : Option (Nat × Nat)) (s : Loop)
    (pkg : Pkg) (rest : List Pkg) (he : s.ended = false) (hs : s.ctx.skip = 0)
    (hw : 0 < s.ctx.win_i) (hm : ispkg pkg = true) (ht : pkg.type = PKG_END) :
    (pkgvalid crc8 pkg = true →
      ∃ a s1, pkgsend_ack crc8 = some a ∧ a.type = PKG_ACK ∧
        process_context crc8 st s (pkg :: rest) = some s1 ∧
        s1.ended = true ∧ s1.ctx = { s.ctx with completed := 1 } ∧
        s1.sent = s.sent ++ [a]) ∧
    (pkgvalid crc8 pkg = false →
      context_update crc8 st s.ctx pkg = some (0, s.ctx, pkg) ∧
      ∃ s1, process_context crc8 st s [pkg] = some s1 ∧
        s1.ctx.completed = s.ctx.completed ∧
        (s.ctx.completed = 0 → s1.ended = false)) := by
  obtain ⟨a, ha, hat, -⟩ := init_pkg_with_ack_eq crc8
  have hsa : pkgsend_ack crc8 = some a := ha
  obtain ⟨n1, n2, n3, n4⟩ := loop_norm_fields s
  constructor
  · intro hv
    have hbody : process_context_body crc8 st (loop_norm s) pkg =
        some { loop_norm s with count := (loop_norm s).count + 1,
                                ctx := { s.ctx with completed := 1 },
                                sent := s.sent ++ [a], ended := true } := by
      unfold process_context_body
      simp only [hm, if_true, n1, n2, hs, context_update_end crc8 st s.ctx pkg ht, hv, hsa]
      simp
    refine ⟨a, { loop_norm s with count := (loop_norm s).count + 1,
                                  ctx := { s.ctx with completed := 1 },
                                  sent := s.sent ++ [a], ended := true },
      hsa, hat, ?_, rfl, rfl, rfl⟩
    rw [process_context_cons crc8 st s pkg rest he hw, hbody]
    exact process_context_ended crc8 st _ rest rfl
  · intro hv
    have hu : context_update crc8 st s.ctx pkg = some (0, s.ctx, pkg) := by
      rw [context_update_end crc8 st s.ctx pkg ht, hv]; simp
    refine ⟨hu, ?_⟩
    rw [process_context_cons crc8 st s pkg [] he hw]
    unfold process_context_body
    simp only [hm, if_true, n1, n2, n3, n4, he, hs, hu, hsa]
    by_cases hc : s.ctx.completed = 0
    · simp only [hc, ne_eq, not_true_eq_false, if_false]
      split_ifs <;> simp only [Bool.false_eq_true, if_false] <;> split_ifs <;>
        first
          | exact ⟨_, rfl, rfl, fun _ => rfl⟩
          | exact ⟨_, rfl, hc, fun _ => rfl⟩
    · simp only [ne_eq, hc, not_false_eq_true, if_true]
      exact ⟨_, rfl, rfl, fun h => h.elim⟩

/-- C14 at a loop that has just started in a DOWNLOAD session expecting index
7: the END frame with index 0 under `crc8_ref` arrives, followed by a further
frame; and the same frame with a wrong checksum arrives. -/
theorem C14_end_frame_witness :
    (∃ a s1, pkgsend_ack crc8_ref = some a ∧ a.type = PKG_ACK ∧
        process_context crc8_ref none
          (loop_start { zero_ctx CtxType.CTX_DOWNLOAD with indx := 7, win_buf := ack_example })
          ({ pkginit_blank 0 PKG_END with crc8 := 78 } :: [data_example]) = some s1 ∧
        s1.ended = true ∧
        s1.ctx = { ({ zero_ctx CtxType.CTX_DOWNLOAD with indx := 7, win_buf := ack_example }
                      : Context) with completed := 1 } ∧
        s1.sent = [] ++ [a]) ∧
    (context_update crc8_ref none
          { zero_ctx CtxType.CTX_DOWNLOAD with indx := 7, win_buf := ack_example }
          { pkginit_blank 0 PKG_END with crc8 := 79 }
        = some (0, { zero_ctx CtxType.CTX_DOWNLOAD with indx := 7, win_buf := ack_example },
            { pkginit_blank 0 PKG_END with crc8 := 79 }) ∧
      ∃ s1, process_context crc8_ref none
          (loop_start { zero_ctx CtxType.CTX_DOWNLOAD with indx := 7, win_buf := ack_example })
          [{ pkginit_blank 0 PKG_END with crc8 := 79 }] = some s1 ∧
        s1.ctx.completed = 0 ∧ ((0 : Nat) = 0 → s1.ended = false)) :=
  ⟨(C14_end_frame crc8_ref none
      (loop_start { zero_ctx CtxType.CTX_DOWNLOAD with indx := 7, win_buf := ack_example })
      { pkginit_blank 0 PKG_END with crc8 := 78 } [data_example]
      (by decide) (by decide) (by decide) (by decide) (by decide)).1 (by decide),
   (C14_end_frame crc8_ref none
      (loop_start { zero_ctx CtxType.CTX_DOWNLOAD with indx := 7, win_buf := ack_example })
      { pkginit_blank 0 PKG_END with crc8 := 79 } []
      (by decide) (by decide) (by decide) (by decide) (by decide)).2 (by decide)⟩

/-- C15: in the window loop, while `skip` is set, a received frame with the
marker, whatever its type (END included), is counted and changes no field of the
session other than `skip`.  `skip` is cleared exactly when the count reaches
`win.i` with this frame, and then the reply armed in `win.buf` is sent and the
count starts again at 0; otherwise nothing is sent. -/
theorem C15_quiet_window (crc8 : List Nat → Nat) (st : Option (Nat × Nat)) (s : Loop)
    (pkg : Pkg) (hk : s.ctx.skip ≠ 0) (hm : ispkg pkg = true) (he : s.ended = false) :
    ∃ s1, process_context_body crc8 st s pkg = some s1 ∧
      s1.ctx = { s.ctx with skip := s1.ctx.skip } ∧ s1.ended = false ∧
      (s.count + 1 = s.ctx.win_i →
        s1.count = 0 ∧ s1.ctx.skip = 0 ∧ s1.sent = s.sent ++ [s.ctx.win_buf]) ∧
      (s.count + 1 ≠ s.ctx.win_i →
        s1.count = s.count + 1 ∧ s1.ctx.skip = s.ctx.skip ∧ s1.sent = s.sent) := by
  unfold process_context_body
  simp only [hm, if_true, hk, if_false, he, Bool.false_eq_true]
  by_cases hc : s.count + 1 = s.ctx.win_i
  · simp only [hc, if_true]
    exact ⟨_, rfl, rfl, rfl, fun _ => ⟨rfl, rfl, rfl⟩, fun h => absurd rfl h⟩
  · simp only [hc, if_false]
    exact ⟨_, rfl, rfl, rfl, fun h => h.elim, fun _ => ⟨rfl, rfl, rfl⟩⟩

/-- C15 at a DOWNLOAD session with `skip` set, a NACK for index 2 armed and a
window of 5: the frame `data_example` arrives as the second and as the fifth
frame of the window. -/
theorem C15_quiet_window_witness :
    (∃ s1, process_context_body crc8_ref none
        { ctx := { zero_ctx CtxType.CTX_DOWNLOAD with
                    indx := 2, skip := 1, win_i := 5, win_buf := ack_example },
          i := 1, count := 1, sent := [], ended := false } data_example = some s1 ∧
      s1.ctx = { ({ zero_ctx CtxType.CTX_DOWNLOAD with
                    indx := 2, skip := 1, win_i := 5, win_buf := ack_example } : Context) with
                 skip := s1.ctx.skip } ∧ s1.ended = false ∧
      (1 + 1 = 5 → s1.count = 0 ∧ s1.ctx.skip = 0 ∧ s1.sent = [] ++ [ack_example]) ∧
      (1 + 1 ≠ 5 → s1.count = 1 + 1 ∧ s1.ctx.skip = 1 ∧ s1.sent = [])) ∧
    (∃ s1, process_context_body crc8_ref none
        { ctx := { zero_ctx CtxType.CTX_DOWNLOAD with
                    indx := 2, skip := 1, win_i := 5, win_buf := ack_example },
          i := 4, count := 4, sent := [], ended := false } data_example = some s1 ∧
      s1.ctx = { ({ zero_ctx CtxType.CTX_DOWNLOAD with
                    indx := 2, skip := 1, win_i := 5, win_buf := ack_example } : Context) with
                 skip := s1.ctx.skip } ∧ s1.ended = false ∧
      (4 + 1 = 5 → s1.count = 0 ∧ s1.ctx.skip = 0 ∧ s1.sent = [] ++ [ack_example]) ∧
      (4 + 1 ≠ 5 → s1.count = 4 + 1 ∧ s1.ctx.skip = 1 ∧ s1.sent = [])) :=
  ⟨C15_quiet_window crc8_ref none
      { ctx := { zero_ctx CtxType.CTX_DOWNLOAD with
                  indx := 2, skip := 1, win_i := 5, win_buf := ack_example },
        i := 1, count := 1, sent := [], ended := false } data_example
      (by decide) (by decide) (by decide),
   C15_quiet_window crc8_ref none
      { ctx := { zero_ctx CtxType.CTX_DOWNLOAD with
                  indx := 2, skip := 1, win_i := 5, win_buf := ack_example },
        i := 4, count := 4, sent := [], ended := false } data_example
      (by decide) (by decide) (by decide)⟩

/-! ## Claims about the requester's handling of DESCRIPTOR -/

/-- The requester's `context_update` on a DESCRIPTOR frame in a DOWNLOAD
session, branch by branch. -/
theorem context_update_descriptor (crc8 : List Nat → Nat) (st : Option (Nat × Nat))
    (ctx : Context) (pkg : Pkg) (hD : ctx.type = CtxType.CTX_DOWNLOAD)
    (hT : pkg.type = PKG_DESCRIPTOR) :
    ∃ a n, init_pkg_with_ack crc8 = some a ∧ a.type = PKG_ACK ∧
      init_pkg_with_nack crc8 ctx.indx = some n ∧ n.type = PKG_NACK ∧
      n.indx = ctx.indx % 32 ∧
      context_update crc8 st ctx pkg =
        if (pkgvalid crc8 pkg && pkg.indx == ctx.indx && has_disk_space st pkg.size) = true then
          some (1, { ctx with win_buf := a, recv := (ctx.recv + pkg.size) % 2 ^ 64 }, pkg)
        else
          some (0, { ctx with win_buf := n }, pkg) := by
  obtain ⟨a, ha, hat, -⟩ := init_pkg_with_ack_eq crc8
  obtain ⟨n, hn, hnt, hni, -⟩ := init_pkg_with_nack_eq crc8 ctx.indx
  refine ⟨a, n, ha, hat, hn, hnt, hni, ?_⟩
  have hne : (PKG_DESCRIPTOR == PKG_DATA) = false := by decide
  simp only [context_update, hD, context_download_update, hT, hne, Bool.false_eq_true,
    if_false, beq_self_eq_true, if_true, context_update_with_descriptor, ha, hn]

/-- C12 (as stated) fails: a DOWNLOAD session whose expected index is 3
receives a valid DESCRIPTOR frame with index 3 while the file system has room;
the reply armed is an ACK, whatever the checksum function is. -/
theorem C12_counterexample :
    ((3 : Nat) ≠ 0) ∧
    ∀ crc8 : List Nat → Nat, ∃ d r ctx1,
      pkginit crc8 8 3 PKG_DESCRIPTOR (some (Server.size_bytes 10)) = some d ∧
      d.type = PKG_DESCRIPTOR ∧ pkgvalid crc8 d = true ∧
      context_update crc8 (some (4096, 1000)) { zero_ctx CtxType.CTX_DOWNLOAD with indx := 3 } d
        = some (r, ctx1, d) ∧
      ctx1.win_buf.type = PKG_ACK ∧ ctx1.indx = 3 := by
  refine ⟨by decide, ?_⟩
  intro crc8
  obtain ⟨d, hd, hv, -, hi, ht, hsz, -⟩ :=
    pkginit_buf_decoded crc8 3 PKG_DESCRIPTOR (Server.size_bytes 10) (by decide)
  have hlen : (Server.size_bytes 10).length = 8 := by decide
  rw [hlen] at hd
  have ht2 : d.type = PKG_DESCRIPTOR := by rw [ht]; decide
  have hi2 : d.indx = 3 := by rw [hi]
  have hsz2 : d.size = 9 := by rw [hsz]; decide
  obtain ⟨a, n, -, hat, -, -, -, hu⟩ := context_update_descriptor crc8 (some (4096, 1000))
    { zero_ctx CtxType.CTX_DOWNLOAD with indx := 3 } d rfl ht2
  have hc : (pkgvalid crc8 d && d.indx == ({ zero_ctx CtxType.CTX_DOWNLOAD with indx := 3 }
      : Context).indx && has_disk_space (some (4096, 1000)) d.size) = true := by
    rw [hv, hi2, hsz2]; decide
  rw [if_pos hc] at hu
  exact ⟨d, _, _, hd, ht2, hv, hu, hat, rfl⟩

/-- C12 (amended): in a DOWNLOAD session a DESCRIPTOR frame is accepted (1 is
returned and an ACK armed) exactly when it passes the checksum, its index
equals the expected index, whatever that index is, and the disk-space check
passes; otherwise 0 is returned and a NACK carrying the expected index is armed.
Accepted or not, the expected index is unchanged. -/
theorem C12_descriptor_index (crc8 : List Nat → Nat) (st : Option (Nat × Nat))
    (ctx : Context) (pkg : Pkg) (hD : ctx.type = CtxType.CTX_DOWNLOAD)
    (hT : pkg.type = PKG_DESCRIPTOR) :
    ∃ r ctx1, context_update crc8 st ctx pkg = some (r, ctx1, pkg) ∧ ctx1.indx = ctx.indx ∧
      ((pkgvalid crc8 pkg = true ∧ pkg.indx = ctx.indx ∧ has_disk_space st pkg.size = true) →
        r = 1 ∧ ctx1.win_buf.type = PKG_ACK) ∧
      (¬ (pkgvalid crc8 pkg = true ∧ pkg.indx = ctx.indx ∧
            has_disk_space st pkg.size = true) →
        r = 0 ∧ ctx1.win_buf.type = PKG_NACK ∧ ctx1.win_buf.indx = ctx.indx % 32) := by
  obtain ⟨a, n, -, hat, -, hnt, hni, hu⟩ := context_update_descriptor crc8 st ctx pkg hD hT
  by_cases hc : (pkgvalid crc8 pkg && pkg.indx == ctx.indx && has_disk_space st pkg.size) = true
  · rw [if_pos hc] at hu
    refine ⟨_, _, hu, rfl, fun _ => ⟨rfl, hat⟩, fun h => ?_⟩
    simp only [Bool.and_eq_true, beq_iff_eq] at hc
    exact absurd ⟨hc.1.1, hc.1.2, hc.2⟩ h
  · rw [if_neg hc] at hu
    refine ⟨_, _, hu, rfl, fun h => ?_, fun _ => ⟨rfl, hnt, hni⟩⟩
    exfalso; apply hc
    simp only [Bool.and_eq_true, beq_iff_eq]
    exact ⟨⟨h.1, h.2.1⟩, h.2.2⟩

/-- C12 (amended) at a session expecting index 3 and the frame
`descriptor_example`, which carries index 0. -/
theorem C12_descriptor_index_witness :
    ∃ r ctx1, context_update crc8_ref (some (4096, 1000))
        { zero_ctx CtxType.CTX_DOWNLOAD with indx := 3 } Server.descriptor_example
        = some (r, ctx1, Server.descriptor_example) ∧ ctx1.indx = 3 ∧
      ((pkgvalid crc8_ref Server.descriptor_example = true ∧
          Server.descriptor_example.indx = 3 ∧
          has_disk_space (some (4096, 1000)) Server.descriptor_example.size = true) →
        r = 1 ∧ ctx1.win_buf.type = PKG_ACK) ∧
      (¬ (pkgvalid crc8_ref Server.descriptor_example = true ∧
            Server.descriptor_example.indx = 3 ∧
            has_disk_space (some (4096, 1000)) Server.descriptor_example.size = true) →
        r = 0 ∧ ctx1.win_buf.type = PKG_NACK ∧ ctx1.win_buf.indx = 3 % 32) :=
  C12_descriptor_index crc8_ref (some (4096, 1000))
    { zero_ctx CtxType.CTX_DOWNLOAD with indx := 3 } Server.descriptor_example
    (by decide) (by decide)

/-- C13 (what the code does): on a valid DESCRIPTOR frame with the expected
index, an ACK is armed exactly when `f_bsize * f_bavail` exceeds the frame's
`size` field, the number of content bytes, which is at most 63; the integer
announced in `content` is not read.  Otherwise a NACK carrying the expected
index is armed. -/
theorem C13_disk_space_check (crc8 : List Nat → Nat) (st : Option (Nat × Nat))
    (ctx : Context) (pkg : Pkg) (hD : ctx.type = CtxType.CTX_DOWNLOAD)
    (hT : pkg.type = PKG_DESCRIPTOR) (hv : pkgvalid crc8 pkg = true)
    (hi : pkg.indx = ctx.indx) :
    ∃ r ctx1, context_update crc8 st ctx pkg = some (r, ctx1, pkg) ∧
      (has_disk_space st pkg.size = true → r = 1 ∧ ctx1.win_buf.type = PKG_ACK) ∧
      (has_disk_space st pkg.size = false →
        r = 0 ∧ ctx1.win_buf.type = PKG_NACK ∧ ctx1.win_buf.indx = ctx.indx % 32) ∧
      (∀ f_bsize f_bavail, st = some (f_bsize, f_bavail) →
        (has_disk_space st pkg.size = true ↔ pkg.size < (f_bsize * f_bavail) % 2 ^ 64)) := by
  obtain ⟨a, n, -, hat, -, hnt, hni, hu⟩ := context_update_descriptor crc8 st ctx pkg hD hT
  have hds : ∀ f_bsize f_bavail, st = some (f_bsize, f_bavail) →
      (has_disk_space st pkg.size = true ↔ pkg.size < (f_bsize * f_bavail) % 2 ^ 64) := by
    intro bs ba hst
    subst hst
    simp [has_disk_space]
  by_cases hd : has_disk_space st pkg.size = true
  · have hc : (pkgvalid crc8 pkg && pkg.indx == ctx.indx && has_disk_space st pkg.size)
        = true := by simp [hd, hv, hi]
    rw [if_pos hc] at hu
    refine ⟨_, _, hu, fun _ => ⟨rfl, hat⟩, fun h => ?_, hds⟩
    rw [hd] at h; cases h
  · have hc : ¬ (pkgvalid crc8 pkg && pkg.indx == ctx.indx && has_disk_space st pkg.size)
        = true := by simp [hd]
    rw [if_neg hc] at hu
    exact ⟨_, _, hu, fun h => absurd h hd, fun _ => ⟨rfl, hnt, hni⟩, hds⟩

/-- C13 at the failing input: the DESCRIPTOR frame the responder builds for a
file of 1000000 bytes is received while 4096 bytes are available; the announced
size exceeds the available bytes, yet an ACK is armed, because 4096 exceeds the
frame's `size` field, 9. -/
theorem C13_disk_space_check_witness :
    (∃ r ctx1, context_update crc8_ref (some (4096, 1)) (zero_ctx CtxType.CTX_DOWNLOAD)
        Server.descriptor_example = some (r, ctx1, Server.descriptor_example) ∧
      (has_disk_space (some (4096, 1)) Server.descriptor_example.size = true →
        r = 1 ∧ ctx1.win_buf.type = PKG_ACK) ∧
      (has_disk_space (some (4096, 1)) Server.descriptor_example.size = false →
        r = 0 ∧ ctx1.win_buf.type = PKG_NACK ∧ ctx1.win_buf.indx = 0 % 32) ∧
      (∀ f_bsize f_bavail, some ((4096 : Nat), (1 : Nat)) = some (f_bsize, f_bavail) →
        (has_disk_space (some (4096, 1)) Server.descriptor_example.size = true ↔
          Server.descriptor_example.size < (f_bsize * f_bavail) % 2 ^ 64))) ∧
    pkginit crc8_ref 8 0 PKG_DESCRIPTOR (some (Server.size_bytes 1000000))
      = some Server.descriptor_example ∧
    has_disk_space (some (4096, 1)) Server.descriptor_example.size = true ∧
    ¬ (1000000 < 4096 * 1) :=
  ⟨C13_disk_space_check crc8_ref (some (4096, 1)) (zero_ctx CtxType.CTX_DOWNLOAD)
      Server.descriptor_example (by decide) (by decide) (by decide) (by decide),
    by decide, by decide, by decide⟩

/-! ## The responder: refilling the window -/

theorem pkgread_bytes_size (f : List Nat) (pkg : Pkg) (byte0 : Nat)
    (hlen : pkg.content.length = 63) :
    ∃ ret p rest,
      pkgread pkg byte0 (f.map FRead.byte) = some (ret, p, rest.map FRead.byte) ∧
      p.content.length = 63 ∧ p.size ≤ 63 ∧
      payload (pkg_rmv_sentinel_bytes p) ++ rest = f ∧
      (ret = -1 ∧ rest = [] ∧ p.size < 63 ∨ ret = 1 ∧ p.size = 63) := by
  have inv0 : Stuffed { pkg with size := 0 } [] := by
    refine ⟨hlen, by simp, ?_, ?_⟩ <;> simp [rmv_scan]
  obtain ⟨ret, p, rest, src1, hrun, inv, hcat, hret, -, -⟩ :=
    pkgread_loop_bytes f _ [] byte0 inv0
  refine ⟨ret, p, rest, hrun, inv.1, inv.2.1, ?_, hret⟩
  rw [payload_rmv p inv.2.1, inv.2.2.1]; simpa using hcat

theorem take_succ_set_any {α : Type} (l : List α) (i : Nat) (b : α) (h : i < l.length) :
    (l.set i b).take (i + 1) = l.take i ++ [b] := by
  rw [List.set_eq_take_append_cons_drop, if_pos h, List.take_append_eq_append_take]
  simp [List.length_take, Nat.min_eq_left (Nat.le_of_lt h)]

theorem server_incindx_lt (ctx : Server.Context) (h : ctx.indx < 32) :
    Server.incindx ctx = { ctx with indx := (ctx.indx + 1) % 32 } := by
  unfold Server.incindx
  have e : (ctx.indx + 1) % 2 ^ 64 = ctx.indx + 1 := Nat.mod_eq_of_lt (by omega)
  simp only [e, PKG_MAX_IND]
  by_cases h31 : ctx.indx + 1 = 32
  · simp [h31]
  · have e2 : (ctx.indx + 1) % 32 = ctx.indx + 1 := Nat.mod_eq_of_lt (by omega)
    simp [h31, e2]

/-- The frame `initpkg_data_meta` completes after `pkgread`. -/
theorem initpkg_data_meta_frame (crc8 : List Nat → Nat) (p : Pkg) (indx : Nat)
    (hlen : p.content.length = 63) (hsz : p.size ≤ 63) :
    Server.DataFrame crc8 (Server.initpkg_data_meta crc8 p indx) (indx % 32) ∧
      (Server.initpkg_data_meta crc8 p indx).size = p.size ∧
      (Server.initpkg_data_meta crc8 p indx).content = p.content ∧
      payload (pkg_rmv_sentinel_bytes (Server.initpkg_data_meta crc8 p indx))
        = payload (pkg_rmv_sentinel_bytes p) := by
  refine ⟨⟨rfl, rfl, rfl, ?_, hsz, hlen⟩, rfl, rfl, ?_⟩
  · exact pkgvalid_sealed crc8
      { p with marker := PKG_MARKER, type := PKG_DATA % 32, indx := indx % 32 } hlen hsz
  · rw [payload_rmv _ (by exact hsz), payload_rmv p hsz]
    rfl

theorem winok_set (ctx : Server.Context) (i : Nat) (q : Pkg) (hw : Server.WinOk ctx)
    (hq : q.content.length = 63) (c : Server.Context) (hc : c.win_buf = ctx.win_buf.set i q) :
    Server.WinOk c := by
  refine ⟨by rw [hc, List.length_set]; exact hw.1, ?_⟩
  intro x hx
  rw [hc] at hx
  rcases List.mem_or_eq_of_mem_set hx with h | h
  · exact hw.2 x h
  · rw [h]; exact hq

/-- One pass of the loop of `fill_context_buf_from_index` on an error-free
stream: slot `i` receives a DATA frame with the current index that holds the
next chunk, the index advances, and the loop goes on with `ret` as `pkgread`
returned it. -/
theorem fill_loop_step (crc8 : List Nat → Nat) (byte0 fuel : Nat) (ctx : Server.Context)
    (i : Nat) (f : List Nat) (hi : i < WINSZ) (hw : Server.WinOk ctx) (hx : ctx.indx < 32)
    (hfp : ctx.fp = some (f.map FRead.byte)) :
    ∃ r q rest,
      Server.fill_loop crc8 byte0 (fuel + 1) ctx i 1 =
        Server.fill_loop crc8 byte0 fuel
          { ctx with fp := some (rest.map FRead.byte),
                     sent := (ctx.sent + q.size) % 2 ^ 64,
                     win_buf := ctx.win_buf.set i q,
                     indx := (ctx.indx + 1) % 32 } (i + 1) r ∧
      Server.DataFrame crc8 q ctx.indx ∧
      payload (pkg_rmv_sentinel_bytes q) ++ rest = f ∧
      (r = -1 ∧ rest = [] ∧ q.size < 63 ∨ r = 1 ∧ q.size = 63) := by
  have hil : i < ctx.win_buf.length := by rw [hw.1]; exact hi
  have hslot : ctx.win_buf[i]? = some ctx.win_buf[i] := List.getElem?_eq_getElem hil
  have hsl : (ctx.win_buf[i]).content.length = 63 := hw.2 _ (List.getElem_mem hil)
  obtain ⟨r, p, rest, hrd, hplen, hpsz, hcat, hret⟩ :=
    pkgread_bytes_size f ctx.win_buf[i] byte0 hsl
  obtain ⟨hdf, hqs, -, hqp⟩ := initpkg_data_meta_frame crc8 p ctx.indx hplen hpsz
  have hr0 : r ≠ 0 := by rcases hret with ⟨h, -⟩ | ⟨h, -⟩ <;> rw [h] <;> decide
  have hmod : ctx.indx % 32 = ctx.indx := Nat.mod_eq_of_lt hx
  rw [hmod] at hdf
  refine ⟨r, Server.initpkg_data_meta crc8 p ctx.indx, rest, ?_, hdf, ?_, ?_⟩
  · conv_lhs => unfold Server.fill_loop
    have hg : i < WINSZ ∧ (1 : Int) > 0 := ⟨hi, by decide⟩
    simp only [hg, and_self, if_true, hfp, hslot, hrd, hr0, ne_eq, not_false_eq_true]
    rw [server_incindx_lt _ (by exact hx)]
    simp only [List.set_set, hqs]
  · rw [hqp]; exact hcat
  · rw [hqs]; exact hret

theorem fill_loop_stop (crc8 : List Nat → Nat) (byte0 fuel : Nat) (ctx : Server.Context)
    (i : Nat) (ret : Int) (h : ¬ (i < WINSZ ∧ ret > 0)) :
    Server.fill_loop crc8 byte0 fuel ctx i ret = some (ctx, i, ret) := by
  cases fuel <;> simp only [Server.fill_loop, h, if_false]

/-- The loop of `fill_context_buf_from_index` started at slot `i < WINSZ` on an
error-free stream `f`: it returns, having written `news`, one or more DATA
frames, into the slots from `i` on, with consecutive indices; the frames hold
successive chunks of `f`, all full except possibly the last; it stops at the end
of the window (`ret = 1`) or of the stream (`ret = -1`). -/
theorem fill_loop_spec (crc8 : List Nat → Nat) (byte0 : Nat) :
    ∀ (fuel : Nat) (ctx : Server.Context) (i : Nat) (f : List Nat),
    WINSZ ≤ i + fuel → i < WINSZ → Server.WinOk ctx → ctx.indx < 32 →
    ctx.fp = some (f.map FRead.byte) →
    ∃ news rest ret ctx1,
      Server.fill_loop crc8 byte0 fuel ctx i 1 = some (ctx1, i + news.length, ret) ∧
      1 ≤ news.length ∧ i + news.length ≤ WINSZ ∧
      ctx1.win_buf = ctx.win_buf.take i ++ news ++ ctx.win_buf.drop (i + news.length) ∧
      ctx1.fp = some (rest.map FRead.byte) ∧
      ctx1.indx = (ctx.indx + news.length) % 32 ∧
      (∀ m q, news[m]? = some q →
        Server.DataFrame crc8 q ((ctx.indx + m) % 32) ∧
        (m + 1 < news.length ∨ ret = 1 → q.size = 63) ∧
        (m + 1 = news.length → ret = -1 → q.size < 63)) ∧
      decode_chunks news ++ rest = f ∧
      (ret = 1 ∧ i + news.length = WINSZ ∨ ret = -1 ∧ rest = []) ∧
      ctx1.type = ctx.type ∧ ctx1.end_ = ctx.end_ ∧ ctx1.completed = ctx.completed ∧
      ctx1.win_i = ctx.win_i ∧ ctx1.dp = ctx.dp ∧ ctx1.k = ctx.k ∧ Server.WinOk ctx1 := by
  intro fuel
  induction fuel with
  | zero => intro ctx i f h1 h2; omega
  | succ n ih =>
    intro ctx i f hfuel hi hw hx hfp
    obtain ⟨r, q, rest1, hstep, hdf, hcat, hret⟩ :=
      fill_loop_step crc8 byte0 n ctx i f hi hw hx hfp
    have hil : i < ctx.win_buf.length := by rw [hw.1]; exact hi
    have hw2 : Server.WinOk
        { ctx with fp := some (rest1.map FRead.byte),
                   sent := (ctx.sent + q.size) % 2 ^ 64,
                   win_buf := ctx.win_buf.set i q,
                   indx := (ctx.indx + 1) % 32 } :=
      winok_set ctx i q hw hdf.2.2.2.2.2 _ rfl
    have hset : ctx.win_buf.set i q
        = ctx.win_buf.take i ++ [q] ++ ctx.win_buf.drop (i + 1) := by
      rw [List.set_eq_take_append_cons_drop, if_pos hil]; simp
    have hmod0 : (ctx.indx + 0) % 32 = ctx.indx := by
      rw [Nat.add_zero]; exact Nat.mod_eq_of_lt hx
    have single : (r = -1 ∨ i + 1 = WINSZ) →
        ∃ news rest ret ctx1,
          Server.fill_loop crc8 byte0 (n + 1) ctx i 1 = some (ctx1, i + news.length, ret) ∧
          1 ≤ news.length ∧ i + news.length ≤ WINSZ ∧
          ctx1.win_buf = ctx.win_buf.take i ++ news ++ ctx.win_buf.drop (i + news.length) ∧
          ctx1.fp = some (rest.map FRead.byte) ∧
          ctx1.indx = (ctx.indx + news.length) % 32 ∧
          (∀ m q, news[m]? = some q →
            Server.DataFrame crc8 q ((ctx.indx + m) % 32) ∧
            (m + 1 < news.length ∨ ret = 1 → q.size = 63) ∧
            (m + 1 = news.length → ret = -1 → q.size < 63)) ∧
          decode_chunks news ++ rest = f ∧
          (ret = 1 ∧ i + news.length = WINSZ ∨ ret = -1 ∧ rest = []) ∧
          ctx1.type = ctx.type ∧ ctx1.end_ = ctx.end_ ∧ ctx1.completed = ctx.completed ∧
          ctx1.win_i = ctx.win_i ∧ ctx1.dp = ctx.dp ∧ ctx1.k = ctx.k ∧
          Server.WinOk ctx1 := by
      intro hstop
      have hg : ¬ (i + 1 < WINSZ ∧ r > 0) := by
        rintro ⟨g1, g2⟩
        rcases hstop with h | h
        · rw [h] at g2; exact absurd g2 (by decide)
        · omega
      refine ⟨[q], rest1, r,
        { ctx with fp := some (rest1.map FRead.byte),
                   sent := (ctx.sent + q.size) % 2 ^ 64,
                   win_buf := ctx.win_buf.set i q,
                   indx := (ctx.indx + 1) % 32 },
        ?_, by simp, by simp; omega, ?_, rfl, rfl, ?_, ?_, ?_,
        rfl, rfl, rfl, rfl, rfl, rfl, hw2⟩
      · rw [hstep, fill_loop_stop crc8 byte0 n _ (i + 1) r hg]; rfl
      · exact hset
      · intro m x hm
        cases m with
        | zero =>
          simp only [List.getElem?_cons_zero, Option.some.injEq] at hm
          subst hm
          rw [hmod0]
          refine ⟨hdf, ?_, ?_⟩
          · rintro (h | h)
            · simp at h
            · rcases hret with ⟨h1, -⟩ | ⟨-, h2⟩
              · rw [h1] at h; exact absurd h (by decide)
              · exact h2
          · intro _ h
            rcases hret with ⟨-, -, h2⟩ | ⟨h1, -⟩
            · exact h2
            · rw [h1] at h; exact absurd h (by decide)
        | succ k => simp at hm
      · simpa [decode_chunks] using hcat
      · rcases hret with ⟨h1, h2, -⟩ | ⟨h1, -⟩
        · exact Or.inr ⟨h1, h2⟩
        · rcases hstop with h | h
          · rw [h1] at h; exact absurd h (by decide)
          · exact Or.inl ⟨h1, by simpa using h⟩
    rcases hret with ⟨h1, h2, h3⟩ | ⟨h1, h2⟩
    · exact single (Or.inl h1)
    · by_cases hlast : i + 1 = WINSZ
      · exact single (Or.inr hlast)
      · have hi1 : i + 1 < WINSZ := by omega
        obtain ⟨news, rest, ret, ctx1, hrun, hn1, hn2, hwb, hfp1, hidx, hfr, hdec, hend,
          e1, e2, e3, e4, e5, e6, hw1⟩ :=
          ih _ (i + 1) rest1 (by omega) hi1 hw2 (Nat.mod_lt _ (by decide)) rfl
        refine ⟨q :: news, rest, ret, ctx1, ?_, by simp, by simp; omega, ?_, hfp1, ?_, ?_, ?_, ?_,
          e1, e2, e3, e4, e5, e6, hw1⟩
        · rw [hstep, h1, hrun]
          simp only [List.length_cons]
          have : i + 1 + news.length = i + (news.length + 1) := by omega
          rw [this]
        · rw [hwb]
          simp only [List.length_cons]
          rw [take_succ_set_any _ _ _ hil, List.drop_set_of_lt _ _ (by omega)]
          have : i + 1 + news.length = i + (news.length + 1) := by omega
          rw [this]
          simp
        · rw [hidx]
          simp only [List.length_cons]
          omega
        · intro m x hm
          cases m with
          | zero =>
            simp only [List.getElem?_cons_zero, Option.some.injEq] at hm
            subst hm
            rw [hmod0]
            refine ⟨hdf, fun _ => h2, ?_⟩
            intro hl
            simp only [List.length_cons] at hl
            omega
          | succ k =>
            simp only [List.getElem?_cons_succ] at hm
            obtain ⟨g1, g2, g3⟩ := hfr k x hm
            have hk : ((ctx.indx + 1) % 32 + k) % 32 = (ctx.indx + (k + 1)) % 32 := by omega
            rw [hk] at g1
            refine ⟨g1, ?_, ?_⟩
            · rintro (h | h)
              · exact g2 (Or.inl (by simp only [List.length_cons] at h; omega))
              · exact g2 (Or.inr h)
            · intro hl hr
              exact g3 (by simp only [List.length_cons] at hl; omega) hr
        · simp only [decode_chunks]
          rw [List.append_assoc, hdec]
          exact hcat
        · rcases hend with ⟨g1, g2⟩ | ⟨g1, g2⟩
          · exact Or.inl ⟨g1, by simp only [List.length_cons]; omega⟩
          · exact Or.inr ⟨g1, g2⟩

/-- The function `fill_context_buf_from_index` started at slot `i < WINSZ` on
an error-free stream `f`. -/
theorem fill_context_spec (crc8 : List Nat → Nat) (byte0 : Nat) (ctx : Server.Context)
    (i : Nat) (f : List Nat) (hi : i < WINSZ) (hw : Server.WinOk ctx) (hx : ctx.indx < 32)
    (hfp : ctx.fp = some (f.map FRead.byte)) :
    ∃ news rest ret ctx1,
      Server.fill_context_buf_from_index crc8 byte0 ctx i = some (ret, ctx1) ∧
      1 ≤ news.length ∧ i + news.length ≤ WINSZ ∧ ctx1.win_i = i + news.length ∧
      ctx1.win_buf = ctx.win_buf.take i ++ news ++ ctx.win_buf.drop (i + news.length) ∧
      ctx1.fp = some (rest.map FRead.byte) ∧
      ctx1.indx = (ctx.indx + news.length) % 32 ∧
      (∀ m q, news[m]? = some q →
        Server.DataFrame crc8 q ((ctx.indx + m) % 32) ∧
        (m + 1 < news.length ∨ ret = 1 → q.size = 63) ∧
        (m + 1 = news.length → ret = -1 → q.size < 63)) ∧
      decode_chunks news ++ rest = f ∧
      (ret = 1 ∧ i + news.length = WINSZ ∧ ctx1.end_ = ctx.end_ ∨
        ret = -1 ∧ rest = [] ∧ ctx1.end_ = 1) ∧
      ctx1.type = ctx.type ∧ ctx1.completed = ctx.completed ∧ Server.WinOk ctx1 := by
  obtain ⟨news, rest, ret, c1, hrun, hn1, hn2, hwb, hfp1, hidx, hfr, hdec, hend,
    e1, e2, e3, -, -, -, hw1⟩ :=
    fill_loop_spec crc8 byte0 WINSZ ctx i f (by omega) hi hw hx hfp
  unfold Server.fill_context_buf_from_index
  rw [hrun]
  rcases hend with ⟨g1, g2⟩ | ⟨g1, g2⟩
  · have hneg : ¬ ret < 0 := by rw [g1]; decide
    simp only [hneg, if_false]
    exact ⟨news, rest, ret, _, rfl, hn1, hn2, rfl, hwb, hfp1, hidx, hfr, hdec,
      Or.inl ⟨g1, g2, e2⟩, e1, e3, hw1⟩
  · have hneg : ret < 0 := by rw [g1]; decide
    simp only [hneg, if_true]
    exact ⟨news, rest, ret, _, rfl, hn1, hn2, rfl, hwb, hfp1, hidx, hfr, hdec,
      Or.inr ⟨g1, g2, rfl⟩, e1, e3, hw1⟩

/-- An ACK in a DOWNLOAD session whose `end` is clear refills the window from
slot 0. -/
theorem context_update_ack_refill (crc8 : List Nat → Nat) (byte0 : Nat) (ctx : Server.Context)
    (pkg : Pkg) (f : List Nat) (hT : pkg.type = PKG_ACK)
    (hD : ctx.type = CtxType.CTX_DOWNLOAD) (he : ctx.end_ = 0) (hw : Server.WinOk ctx)
    (hx : ctx.indx < 32) (hfp : ctx.fp = some (f.map FRead.byte)) :
    ∃ k rest ret ctx1,
      Server.context_update crc8 byte0 ctx pkg = some (ret, ctx1) ∧
      1 ≤ k ∧ k ≤ 5 ∧ ctx1.win_i = k ∧
      (∀ m, m < k → ∃ q, ctx1.win_buf[m]? = some q ∧
        Server.DataFrame crc8 q ((ctx.indx + m) % 32) ∧ (m + 1 < k → q.size = 63)) ∧
      decode_chunks (ctx1.win_buf.take k) ++ rest = f ∧
      ctx1.fp = some (rest.map FRead.byte) ∧
      ctx1.indx = (ctx.indx + k) % 32 ∧
      (ret = 1 ∨ ret = -1) ∧ (ctx1.end_ = 1 ↔ ret = -1) ∧ (ret = -1 → rest = []) ∧
      (ret = 1 → k = 5 ∧ ctx1.end_ = 0) := by
  obtain ⟨news, rest, ret, c1, hrun, hn1, hn2, hwi, hwb, hfp1, hidx, hfr, hdec, hend,
    -, -, -⟩ := fill_context_spec crc8 byte0 ctx 0 f (by decide) hw hx hfp
  have hupd : Server.context_update crc8 byte0 ctx pkg = some (ret, c1) := by
    have h1 : (PKG_ACK == PKG_ACK) = true := by decide
    simp only [Server.context_update, hT, h1, if_true, Server.context_update_with_ack, he,
      ne_eq, not_true_eq_false, if_false, hD, Server.context_download_update_with_ack]
    exact hrun
  simp only [List.take_zero, List.nil_append, Nat.zero_add] at hwb hwi hn2
  have htake : c1.win_buf.take news.length = news := by
    rw [hwb, List.take_left]
  refine ⟨news.length, rest, ret, c1, hupd, hn1, by simpa [WINSZ] using hn2, hwi, ?_, ?_,
    hfp1, hidx, ?_, ?_, ?_, ?_⟩
  · intro m hm
    have hq : news[m]? = some news[m] := List.getElem?_eq_getElem hm
    obtain ⟨g1, g2, -⟩ := hfr m _ hq
    refine ⟨news[m], ?_, g1, fun h => g2 (Or.inl h)⟩
    rw [hwb, List.getElem?_append_left hm]; exact hq
  · rw [htake]; exact hdec
  · rcases hend with ⟨g, -⟩ | ⟨g, -⟩
    · exact Or.inl g
    · exact Or.inr g
  · rcases hend with ⟨g1, -, g3⟩ | ⟨g1, -, g3⟩
    · rw [g3, he, g1]; decide
    · rw [g3, g1]; decide
  · intro h
    rcases hend with ⟨g1, -⟩ | ⟨-, g2, -⟩
    · rw [g1] at h; exact absurd h (by decide)
    · exact g2
  · intro h
    rcases hend with ⟨-, g2, g3⟩ | ⟨g1, -⟩
    · exact ⟨by simpa [WINSZ] using g2, by rw [g3, he]⟩
    · rw [g1] at h; exact absurd h (by decide)

/-! ## Claims about the responder's window -/

/-- C17: in a DOWNLOAD session whose `end` is clear, with an error-free file
stream `f` left to read, an ACK makes `context_update` refill the window from
slot 0: afterwards `win.i = k` with `1 ≤ k ≤ 5`, slots `0..k-1` hold valid DATA
frames with indices `j, j+1, ..., j+k-1` modulo 32 (`j` the index before), each
with at most 63 content bytes and all but the last full, whose unstuffed
contents are the next `k` successive chunks of `f`; the index becomes
`(j + k) mod 32`, and `end` is set exactly when `pkgread` reached the end of the
file (`ret = -1`); otherwise the window is full. -/
theorem C17_ack_refill (crc8 : List Nat → Nat) (byte0 : Nat) (ctx : Server.Context)
    (pkg : Pkg) (f : List Nat) (hT : pkg.type = PKG_ACK)
    (hD : ctx.type = CtxType.CTX_DOWNLOAD) (he : ctx.end_ = 0) (hw : Server.WinOk ctx)
    (hx : ctx.indx < 32) (hfp : ctx.fp = some (f.map FRead.byte)) :
    ∃ k rest ret ctx1,
      Server.context_update crc8 byte0 ctx pkg = some (ret, ctx1) ∧
      1 ≤ k ∧ k ≤ 5 ∧ ctx1.win_i = k ∧
      (∀ m, m < k → ∃ q, ctx1.win_buf[m]? = some q ∧
        Server.DataFrame crc8 q ((ctx.indx + m) % 32) ∧ (m + 1 < k → q.size = 63)) ∧
      decode_chunks (ctx1.win_buf.take k) ++ rest = f ∧
      ctx1.fp = some (rest.map FRead.byte) ∧
      ctx1.indx = (ctx.indx + k) % 32 ∧
      (ret = 1 ∨ ret = -1) ∧ (ctx1.end_ = 1 ↔ ret = -1) ∧ (ret = -1 → rest = []) ∧
      (ret = 1 → k = 5 ∧ ctx1.end_ = 0) :=
  context_update_ack_refill crc8 byte0 ctx pkg f hT hD he hw hx hfp

/-- C17 at the session `opened_example` (index 0, 64 zero bytes to read) and
the frame `ack_example`. -/
theorem C17_ack_refill_witness :
    ∃ k rest ret ctx1,
      Server.context_update crc8_ref 0 Server.opened_example ack_example = some (ret, ctx1) ∧
      1 ≤ k ∧ k ≤ 5 ∧ ctx1.win_i = k ∧
      (∀ m, m < k → ∃ q, ctx1.win_buf[m]? = some q ∧
        Server.DataFrame crc8_ref q ((Server.opened_example.indx + m) % 32) ∧
        (m + 1 < k → q.size = 63)) ∧
      decode_chunks (ctx1.win_buf.take k) ++ rest = List.replicate 64 0 ∧
      ctx1.fp = some (rest.map FRead.byte) ∧
      ctx1.indx = (Server.opened_example.indx + k) % 32 ∧
      (ret = 1 ∨ ret = -1) ∧ (ctx1.end_ = 1 ↔ ret = -1) ∧ (ret = -1 → rest = []) ∧
      (ret = 1 → k = 5 ∧ ctx1.end_ = 0) :=
  C17_ack_refill crc8_ref 0 Server.opened_example ack_example (List.replicate 64 0)
    (by decide) (by decide) (by decide) ⟨by decide, by decide⟩ (by decide) rfl

/-! ## The responder: opening a DOWNLOAD session -/

theorem size_bytes_length (n : Nat) : (Server.size_bytes n).length = 8 := by
  simp [Server.size_bytes]

theorem size_bytes_fit (n : Nat) : (stuff (Server.size_bytes n)).length ≤ 62 := by
  have h := List.countP_le_length (p := is_sentinel) (l := Server.size_bytes n)
  rw [stuff_length]
  rw [size_bytes_length] at h ⊢
  omega

/-- The eight bytes are the little-endian digits of `n` in base 256. -/
theorem size_bytes_value (n : Nat) (h : n < 2 ^ 64) :
    (Server.size_bytes n).foldr (fun b acc => b + 256 * acc) 0 = n := by
  simp only [Server.size_bytes, List.range, List.range.loop, List.map, List.foldr]
  omega

/-- The responder's `context_init` on a DOWNLOAD request whose asset opens and
whose size `stat` reports: the session it leaves and the DESCRIPTOR frame in
slot 0. -/
theorem server_context_init_download (crc8 : List Nat → Nat) (fs : Server.FileSys)
    (ctx : Server.Context) (pkg : Pkg) (f : List FRead) (s : Nat)
    (hT : pkg.type = PKG_DOWNLOAD)
    (hopen : fs.fopen (Server.cstr (Server.get_asset_path pkg.content pkg.size).path) = some f)
    (hstat : fs.stat (Server.cstr (Server.get_asset_path pkg.content pkg.size).path) = some s)
    (hs : s < 2 ^ 64) :
    ∃ d, pkginit crc8 8 0 PKG_DESCRIPTOR (some (Server.size_bytes s)) = some d ∧
      Server.context_init crc8 fs ctx pkg =
        some (1, { ctx with indx := 0, win_i := 1, type := CtxType.CTX_DOWNLOAD, fp := some f,
                            win_buf := ctx.win_buf.set 0 d }) ∧
      pkgvalid crc8 d = true ∧ d.marker = PKG_MARKER ∧ d.indx = 0 ∧ d.type = PKG_DESCRIPTOR ∧
      d.size = (stuff (Server.size_bytes s)).length + 1 ∧
      d.content = stuff (Server.size_bytes s) ++
        List.replicate (63 - (stuff (Server.size_bytes s)).length) 0 ∧
      d.content.length = 63 ∧
      payload (pkg_rmv_sentinel_bytes d) = Server.size_bytes s ++ [0] := by
  obtain ⟨d, hd, hv, hm, hi, ht, hsz, hc, hpay, -⟩ :=
    pkginit_buf_decoded crc8 0 PKG_DESCRIPTOR (Server.size_bytes s) (size_bytes_fit s)
  rw [size_bytes_length] at hd
  obtain ⟨hlen, -⟩ := pkginit_sealed crc8 8 0 PKG_DESCRIPTOR _ d hd
  refine ⟨d, hd, ?_, hv, hm, by rw [hi], by rw [ht]; decide, hsz, hc, hlen, hpay⟩
  have h1 : (PKG_DOWNLOAD == PKG_DOWNLOAD) = true := by decide
  simp only [Server.context_init, hT, h1, if_true, Server.context_init_download, hopen,
    Server.download_initial_response, hstat, Nat.mod_eq_of_lt hs, hd]
  rfl

/-! ## Claims about the responder's session set-up -/

/-- C16: when a DOWNLOAD request arrives for an asset that opens and whose size
`stat` reports as `s`, `context_init` on the fresh context returns 1 and leaves
`win.i = 1`, `end` and `completed` clear, the index 0, and in slot 0 a valid frame
with marker `0x7E`, type DESCRIPTOR and index 0 whose content starts with the
byte-stuffed image of the eight bytes of `s`, least significant first. -/
theorem C16_download_open (crc8 : List Nat → Nat) (fs : Server.FileSys) (pkg : Pkg)
    (f : List FRead) (s : Nat) (hT : pkg.type = PKG_DOWNLOAD)
    (hopen : fs.fopen (Server.cstr (Server.get_asset_path pkg.content pkg.size).path) = some f)
    (hstat : fs.stat (Server.cstr (Server.get_asset_path pkg.content pkg.size).path) = some s)
    (hs : s < 2 ^ 64) :
    ∃ d ctx1, Server.context_init crc8 fs Server.context_create pkg = some (1, ctx1) ∧
      ctx1.win_i = 1 ∧ ctx1.end_ = 0 ∧ ctx1.completed = 0 ∧ ctx1.indx = 0 ∧
      ctx1.type = CtxType.CTX_DOWNLOAD ∧ ctx1.fp = some f ∧
      ctx1.win_buf[0]? = some d ∧ d.marker = 0x7E ∧ d.type = PKG_DESCRIPTOR ∧ d.indx = 0 ∧
      pkgvalid crc8 d = true ∧
      (Server.size_bytes s).length = 8 ∧
      (Server.size_bytes s).foldr (fun b acc => b + 256 * acc) 0 = s ∧
      d.content.take (stuff (Server.size_bytes s)).length = stuff (Server.size_bytes s) ∧
      payload (pkg_rmv_sentinel_bytes d) = Server.size_bytes s ++ [0] := by
  obtain ⟨d, -, hinit, hv, hm, hi, ht, -, hc, -, hpay⟩ :=
    server_context_init_download crc8 fs Server.context_create pkg f s hT hopen hstat hs
  refine ⟨d, _, hinit, rfl, rfl, rfl, rfl, rfl, rfl, ?_, hm, ht, hi, hv, size_bytes_length s,
    size_bytes_value s hs, ?_, hpay⟩
  · simp [Server.context_create, WINSZ]
  · rw [hc, List.take_left]

/-- C16 at the request `request_example` when the asset holds 64 zero bytes;
the session left is `opened_example`. -/
theorem C16_download_open_witness :
    (∃ d ctx1, Server.context_init crc8_ref (Server.fs_single (List.replicate 64 0))
        Server.context_create Server.request_example = some (1, ctx1) ∧
      ctx1.win_i = 1 ∧ ctx1.end_ = 0 ∧ ctx1.completed = 0 ∧ ctx1.indx = 0 ∧
      ctx1.type = CtxType.CTX_DOWNLOAD ∧
      ctx1.fp = some ((List.replicate 64 0).map FRead.byte) ∧
      ctx1.win_buf[0]? = some d ∧ d.marker = 0x7E ∧ d.type = PKG_DESCRIPTOR ∧ d.indx = 0 ∧
      pkgvalid crc8_ref d = true ∧
      (Server.size_bytes 64).length = 8 ∧
      (Server.size_bytes 64).foldr (fun b acc => b + 256 * acc) 0 = 64 ∧
      d.content.take (stuff (Server.size_bytes 64)).length = stuff (Server.size_bytes 64) ∧
      payload (pkg_rmv_sentinel_bytes d) = Server.size_bytes 64 ++ [0]) ∧
    Server.context_init crc8_ref (Server.fs_single (List.replicate 64 0))
        Server.context_create Server.request_example = some (1, Server.opened_example) ∧
    pkginit crc8_ref 1 0 PKG_DOWNLOAD (some [0x66]) = some Server.request_example :=
  ⟨C16_download_open crc8_ref (Server.fs_single (List.replicate 64 0)) Server.request_example
      ((List.replicate 64 0).map FRead.byte) 64 (by decide) rfl rfl (by decide),
    by decide, by decide⟩

/-! ## The responder: the first window of a DOWNLOAD session -/

theorem winok_context_create : Server.WinOk Server.context_create :=
  ⟨by decide, by decide⟩

/-- A DOWNLOAD request for an asset with the bytes `f`, followed by an ACK: the
DESCRIPTOR frame carries index 0 and leaves the responder's index at 0, so the
`k` DATA frames of the first window carry the indices `0, ..., k-1`. -/
theorem download_first_window (crc8 : List Nat → Nat) (byte0 : Nat) (fs : Server.FileSys)
    (pkg ack : Pkg) (f : List Nat) (s : Nat) (hT : pkg.type = PKG_DOWNLOAD)
    (hopen : fs.fopen (Server.cstr (Server.get_asset_path pkg.content pkg.size).path)
      = some (f.map FRead.byte))
    (hstat : fs.stat (Server.cstr (Server.get_asset_path pkg.content pkg.size).path) = some s)
    (hs : s < 2 ^ 64) (hA : ack.type = PKG_ACK) :
    ∃ d ctx0 k rest ret ctx1,
      Server.context_init crc8 fs Server.context_create pkg = some (1, ctx0) ∧
      ctx0.win_i = 1 ∧ ctx0.win_buf[0]? = some d ∧ d.type = PKG_DESCRIPTOR ∧ d.indx = 0 ∧
      ctx0.indx = 0 ∧
      Server.context_update crc8 byte0 ctx0 ack = some (ret, ctx1) ∧
      1 ≤ k ∧ k ≤ 5 ∧ ctx1.win_i = k ∧
      (∀ m, m < k → ∃ q, ctx1.win_buf[m]? = some q ∧ Server.DataFrame crc8 q m) ∧
      decode_chunks (ctx1.win_buf.take k) ++ rest = f ∧
      ctx1.indx = k := by
  obtain ⟨d, -, hinit, -, -, hi, ht, -, -, hlen, -⟩ :=
    server_context_init_download crc8 fs Server.context_create pkg (f.map FRead.byte) s hT
      hopen hstat hs
  have hw0 := winok_set Server.context_create 0 d winok_context_create hlen
    { Server.context_create with indx := 0, win_i := 1, type := CtxType.CTX_DOWNLOAD,
                                 fp := some (f.map FRead.byte),
                                 win_buf := Server.context_create.win_buf.set 0 d } rfl
  obtain ⟨k, rest, ret, ctx1, hupd, hk1, hk5, hwi, hfr, hdec, -, hidx, -⟩ :=
    context_update_ack_refill crc8 byte0 _ ack f hA rfl rfl hw0
      (by show (0 : Nat) < 32; decide) rfl
  refine ⟨d, _, k, rest, ret, ctx1, hinit, rfl, ?_, ht, hi, rfl, hupd, hk1, hk5, hwi, ?_, hdec,
    ?_⟩
  · simp [Server.context_create, WINSZ]
  · intro m hm
    obtain ⟨q, hq, hd, -⟩ := hfr m hm
    refine ⟨q, hq, ?_⟩
    have e : (0 + m) % 32 = m := by omega
    simpa only [e] using hd
  · rw [hidx]
    show (0 + k) % 32 = k
    omega

/-! ## Claims about the responder's indices -/

/-- C18 (as stated) fails: for the request `request_example`, an asset holding
the single byte `0x41` and the frame `ack_example`, the DESCRIPTOR in slot 0
carries index 0 and the DATA frame that replaces it after the ACK carries
index 0 as well, not 1; it is the only frame of the window and holds the
byte of the asset. -/
theorem C18_counterexample :
    ((0 : Nat) ≠ 1) ∧
    ∃ d ctx0 ret ctx1 q,
      Server.context_init crc8_ref (Server.fs_single [0x41]) Server.context_create
        Server.request_example = some (1, ctx0) ∧
      ctx0.win_buf[0]? = some d ∧ d.type = PKG_DESCRIPTOR ∧ d.indx = 0 ∧
      Server.context_update crc8_ref 0 ctx0 ack_example = some (ret, ctx1) ∧
      ctx1.win_buf[0]? = some q ∧ q.marker = PKG_MARKER ∧ q.type = PKG_DATA ∧ q.indx = 0 ∧
      pkgvalid crc8_ref q = true := by
  refine ⟨by decide, ?_⟩
  obtain ⟨d, ctx0, k, rest, ret, ctx1, hinit, -, hd, ht, hi, -, hupd, hk1, -, -, hfr, -⟩ :=
    download_first_window crc8_ref 0 (Server.fs_single [0x41]) Server.request_example
      ack_example [0x41] 1 (by decide) rfl rfl (by decide) (by decide)
  obtain ⟨q, hq, g1, g2, g3, g4, -⟩ := hfr 0 (by omega)
  exact ⟨d, ctx0, ret, ctx1, q, hinit, hd, ht, hi, hupd, hq, g1, g2, g3, g4⟩

/-- C18 (amended): in a DOWNLOAD session the DESCRIPTOR frame carries index 0
and does not advance the responder's index, so after the DESCRIPTOR is
acknowledged the first DATA frame carries index 0 as well: the `k` frames of
the first window are valid DATA frames with indices `0, 1, ..., k-1` holding
the first chunks of the asset, and the responder's index becomes `k`. -/
theorem C18_first_data_index (crc8 : List Nat → Nat) (byte0 : Nat) (fs : Server.FileSys)
    (pkg ack : Pkg) (f : List Nat) (s : Nat) (hT : pkg.type = PKG_DOWNLOAD)
    (hopen : fs.fopen (Server.cstr (Server.get_asset_path pkg.content pkg.size).path)
      = some (f.map FRead.byte))
    (hstat : fs.stat (Server.cstr (Server.get_asset_path pkg.content pkg.size).path) = some s)
    (hs : s < 2 ^ 64) (hA : ack.type = PKG_ACK) :
    ∃ d ctx0 k rest ret ctx1,
      Server.context_init crc8 fs Server.context_create pkg = some (1, ctx0) ∧
      ctx0.win_i = 1 ∧ ctx0.win_buf[0]? = some d ∧ d.type = PKG_DESCRIPTOR ∧ d.indx = 0 ∧
      ctx0.indx = 0 ∧
      Server.context_update crc8 byte0 ctx0 ack = some (ret, ctx1) ∧
      1 ≤ k ∧ k ≤ 5 ∧ ctx1.win_i = k ∧
      (∀ m, m < k → ∃ q, ctx1.win_buf[m]? = some q ∧ Server.DataFrame crc8 q m) ∧
      decode_chunks (ctx1.win_buf.take k) ++ rest = f ∧
      ctx1.indx = k :=
  download_first_window crc8 byte0 fs pkg ack f s hT hopen hstat hs hA

/-- C18 (amended) at the request `request_example`, an asset of 64 zero bytes
and the frame `ack_example`. -/
theorem C18_first_data_index_witness :
    ∃ d ctx0 k rest ret ctx1,
      Server.context_init crc8_ref (Server.fs_single (List.replicate 64 0))
        Server.context_create Server.request_example = some (1, ctx0) ∧
      ctx0.win_i = 1 ∧ ctx0.win_buf[0]? = some d ∧ d.type = PKG_DESCRIPTOR ∧ d.indx = 0 ∧
      ctx0.indx = 0 ∧
      Server.context_update crc8_ref 0 ctx0 ack_example = some (ret, ctx1) ∧
      1 ≤ k ∧ k ≤ 5 ∧ ctx1.win_i = k ∧
      (∀ m, m < k → ∃ q, ctx1.win_buf[m]? = some q ∧ Server.DataFrame crc8_ref q m) ∧
      decode_chunks (ctx1.win_buf.take k) ++ rest = List.replicate 64 0 ∧
      ctx1.indx = k :=
  C18_first_data_index crc8_ref 0 (Server.fs_single (List.replicate 64 0))
    Server.request_example ack_example (List.replicate 64 0) 64 (by decide) rfl rfl
    (by decide) (by decide)

/-! ## The responder: handling a NACK -/

/-- What `find_nack_pkg` reports is a slot of the array whose frame carries the
index looked for. -/
theorem find_nack_pkg_some (ctx : Server.Context) (n p : Nat)
    (h : Server.find_nack_pkg ctx n = some p) :
    p < WINSZ ∧ ∃ q, ctx.win_buf[p]? = some q ∧ q.indx = n := by
  unfold Server.find_nack_pkg at h
  have h1 := List.find?_some h
  have h2 := List.mem_of_find?_eq_some h
  refine ⟨List.mem_range.mp h2, ?_⟩
  cases hq : ctx.win_buf[p]? with
  | none => rw [hq] at h1; exact absurd h1 (by simp)
  | some q =>
    rw [hq] at h1
    exact ⟨q, rfl, by simpa using h1⟩

/-- The `size_t` difference of two values whose true difference is not
negative is that difference. -/
theorem size_sub_of_le (a b : Nat) (hb : b ≤ a) (ha : a < 2 ^ 64) :
    Server.size_sub a b = a - b := by
  unfold Server.size_sub
  rw [Nat.mod_eq_of_lt ha, Nat.mod_eq_of_lt (lt_of_le_of_lt hb ha)]
  have e : a + (2 ^ 64 - b) = (a - b) + 2 ^ 64 := by omega
  rw [e, Nat.add_mod_right, Nat.mod_eq_of_lt (by omega)]

/-- The `size_t` difference wraps around when the true difference is
negative. -/
theorem size_sub_of_lt (a b : Nat) (hb : a < b) (hb2 : b < 2 ^ 64) :
    Server.size_sub a b = a + 2 ^ 64 - b := by
  unfold Server.size_sub
  rw [Nat.mod_eq_of_lt (lt_trans hb hb2), Nat.mod_eq_of_lt hb2]
  have e : a + (2 ^ 64 - b) = a + 2 ^ 64 - b := by omega
  rw [e, Nat.mod_eq_of_lt (by omega)]

/-- The `memmove` of `context_download_update_with_nack` when the slot found
lies inside the filled part of the window: the frames of slots
`failed .. win.i - 1` arrive in slots `0 .. win.i - failed - 1`. -/
theorem memmove_win_spec (ctx : Server.Context) (p : Nat) (hw : Server.WinOk ctx)
    (hp : p ≤ ctx.win_i) (hwi : ctx.win_i ≤ WINSZ) :
    ∃ buf, Server.memmove_win ctx p = { ctx with win_buf := buf } ∧
      (∀ m, m < ctx.win_i - p → buf[m]? = ctx.win_buf[p + m]?) ∧
      Server.WinOk { ctx with win_buf := buf } := by
  obtain ⟨hl, hc⟩ := hw
  refine ⟨(ctx.win_buf.drop p).take (ctx.win_i - p) ++ ctx.win_buf.drop (ctx.win_i - p), ?_,
    ?_, ?_, ?_⟩
  · unfold Server.memmove_win
    rw [if_pos ⟨hp, by rw [hl]; exact hwi⟩]
  · intro m hm
    have hlen : m < ((ctx.win_buf.drop p).take (ctx.win_i - p)).length := by
      rw [List.length_take, List.length_drop, hl]
      simp only [WINSZ] at hwi ⊢
      omega
    rw [List.getElem?_append_left hlen, List.getElem?_take_of_lt hm, List.getElem?_drop]
  · show ((ctx.win_buf.drop p).take (ctx.win_i - p) ++ ctx.win_buf.drop (ctx.win_i - p)).length
      = WINSZ
    rw [List.length_append, List.length_take, List.length_drop, List.length_drop, hl]
    simp only [WINSZ] at hwi ⊢
    omega
  · intro q hq
    show q.content.length = 63
    have hq1 : q ∈ (ctx.win_buf.drop p).take (ctx.win_i - p) ++
        ctx.win_buf.drop (ctx.win_i - p) := hq
    rcases List.mem_append.mp hq1 with h | h
    · exact hc q (List.mem_of_mem_drop (List.mem_of_mem_take h))
    · exact hc q (List.mem_of_mem_drop h)

/-- C19: in a DOWNLOAD session with an error-free file stream `f` left to read,
a NACK whose index `find_nack_pkg` finds at position `p` inside the filled part
of the window (`p < win.i`): slot `p` carries that index; with `p = 0` the
session is left unchanged; with `p > 0` the frames of slots `p .. win.i - 1` are
moved unchanged to slots `0 .. win.i - p - 1`, and then, if `end` is set, nothing
is read and `win.i` becomes `win.i - p`, while if `end` is clear the slots from
`win.i - p` on are refilled with valid DATA frames holding the next chunks of
`f` at the indices `j, j + 1, ...` modulo 32 (`j` the responder's index), up
to the end of the window or of the file. -/
theorem C19_nack_shift (crc8 : List Nat → Nat) (byte0 : Nat) (ctx : Server.Context)
    (pkg : Pkg) (f : List Nat) (p : Nat) (hT : pkg.type = PKG_NACK)
    (hD : ctx.type = CtxType.CTX_DOWNLOAD) (hw : Server.WinOk ctx) (hx : ctx.indx < 32)
    (hfp : ctx.fp = some (f.map FRead.byte))
    (hfind : Server.find_nack_pkg ctx pkg.indx = some p) (hp : p < ctx.win_i)
    (hwi : ctx.win_i ≤ WINSZ) :
    (∃ q, ctx.win_buf[p]? = some q ∧ q.indx = pkg.indx) ∧
    (p = 0 → Server.context_update crc8 byte0 ctx pkg = some (1, ctx)) ∧
    (0 < p → ctx.end_ ≠ 0 →
      ∃ ctx1, Server.context_update crc8 byte0 ctx pkg = some (1, ctx1) ∧
        ctx1.win_i = ctx.win_i - p ∧
        (∀ m, m < ctx.win_i - p → ctx1.win_buf[m]? = ctx.win_buf[p + m]?) ∧
        ctx1 = { ctx with win_i := ctx1.win_i, win_buf := ctx1.win_buf }) ∧
    (0 < p → ctx.end_ = 0 →
      ∃ k rest ret ctx1, Server.context_update crc8 byte0 ctx pkg = some (ret, ctx1) ∧
        1 ≤ k ∧ ctx1.win_i = ctx.win_i - p + k ∧ ctx1.win_i ≤ WINSZ ∧
        (∀ m, m < ctx.win_i - p → ctx1.win_buf[m]? = ctx.win_buf[p + m]?) ∧
        (∀ m, m < k → ∃ q, ctx1.win_buf[ctx.win_i - p + m]? = some q ∧
          Server.DataFrame crc8 q ((ctx.indx + m) % 32) ∧ (m + 1 < k → q.size = 63)) ∧
        decode_chunks ((ctx1.win_buf.drop (ctx.win_i - p)).take k) ++ rest = f ∧
        ctx1.fp = some (rest.map FRead.byte) ∧ ctx1.indx = (ctx.indx + k) % 32 ∧
        (ret = 1 ∧ ctx1.win_i = WINSZ ∧ ctx1.end_ = 0 ∨
          ret = -1 ∧ rest = [] ∧ ctx1.end_ = 1)) := by
  obtain ⟨-, q, hq, hqi⟩ := find_nack_pkg_some ctx pkg.indx p hfind
  have hN : (PKG_NACK == PKG_ACK) = false := by decide
  have hNN : (PKG_NACK == PKG_NACK) = true := by decide
  have hupd0 : Server.context_update crc8 byte0 ctx pkg =
      Server.context_download_update_with_nack crc8 byte0 ctx pkg := by
    simp only [Server.context_update, hT, hN, hNN, Bool.false_eq_true, if_false, if_true,
      Server.context_update_with_nack, hD, hfind]
    simp
  refine ⟨⟨q, hq, hqi⟩, ?_, ?_, ?_⟩
  · intro h0
    rw [hupd0]
    simp only [Server.context_download_update_with_nack, hfind, h0]
    simp
  · intro hp0 he
    obtain ⟨buf, hmm, hmv, -⟩ := memmove_win_spec ctx p hw (le_of_lt hp) hwi
    have hsub : Server.size_sub ctx.win_i p = ctx.win_i - p :=
      size_sub_of_le ctx.win_i p (le_of_lt hp)
        (lt_of_le_of_lt hwi (by simp only [WINSZ]; norm_num))
    refine ⟨{ ctx with win_buf := buf, win_i := ctx.win_i - p }, ?_, rfl, hmv, rfl⟩
    rw [hupd0]
    simp only [Server.context_download_update_with_nack, hfind, gt_iff_lt, hp0, if_true, hmm,
      ne_eq, he, not_false_eq_true, hsub]
  · intro hp0 he
    obtain ⟨buf, hmm, hmv, hw1⟩ := memmove_win_spec ctx p hw (le_of_lt hp) hwi
    have hsub : Server.size_sub ctx.win_i p = ctx.win_i - p :=
      size_sub_of_le ctx.win_i p (le_of_lt hp)
        (lt_of_le_of_lt hwi (by simp only [WINSZ]; norm_num))
    have hi : ctx.win_i - p < WINSZ := by
      simp only [WINSZ] at hwi ⊢
      omega
    obtain ⟨news, rest, ret, c1, hrun, hn1, hn2, hwi1, hwb, hfp1, hidx, hfr, hdec, hend,
      -, -, -⟩ := fill_context_spec crc8 byte0 { ctx with win_buf := buf } (ctx.win_i - p) f
        hi hw1 hx hfp
    have hbl : buf.length = WINSZ := hw1.1
    have hal : (buf.take (ctx.win_i - p)).length = ctx.win_i - p := by
      rw [List.length_take, hbl]
      exact Nat.min_eq_left (le_of_lt hi)
    have hwb1 : c1.win_buf = buf.take (ctx.win_i - p) ++ (news ++
        buf.drop (ctx.win_i - p + news.length)) := by
      rw [hwb, List.append_assoc]
    refine ⟨news.length, rest, ret, c1, ?_, hn1, hwi1, by rw [hwi1]; exact hn2, ?_, ?_, ?_,
      hfp1, hidx, ?_⟩
    · rw [hupd0]
      simp only [Server.context_download_update_with_nack, hfind, gt_iff_lt, hp0, if_true, hmm,
        ne_eq, he, not_true_eq_false, if_false, hsub]
      simpa only [he] using hrun
    · intro m hm
      rw [hwb1, List.getElem?_append_left (by rw [hal]; exact hm),
        List.getElem?_take_of_lt hm]
      exact hmv m hm
    · intro m hm
      have hqm : news[m]? = some news[m] := List.getElem?_eq_getElem hm
      obtain ⟨g1, g2, -⟩ := hfr m _ hqm
      refine ⟨news[m], ?_, g1, fun h => g2 (Or.inl h)⟩
      rw [hwb1, List.getElem?_append_right (by rw [hal]; omega), hal,
        Nat.add_sub_cancel_left, List.getElem?_append_left hm]
      exact hqm
    · have hd : c1.win_buf.drop (ctx.win_i - p) =
          news ++ buf.drop (ctx.win_i - p + news.length) := by
        rw [hwb1]
        exact List.drop_left' hal
      rw [hd, List.take_left]
      exact hdec
    · rcases hend with ⟨g1, g2, g3⟩ | ⟨g1, g2, g3⟩
      · exact Or.inl ⟨g1, by rw [hwi1]; exact g2, by rw [g3]; exact he⟩
      · exact Or.inr ⟨g1, g2, g3⟩

/-- C19 at the session `window_example` (five full frames with indices 0..4,
`end` clear, 85 zero bytes left) with a NACK for index 3, found at position 3,
and at the session `drained_example` (two frames with indices 0 and 1, `end`
set) with a NACK for index 1, found at position 1. -/
theorem C19_nack_shift_witness :
    (∃ k rest ret ctx1,
        Server.context_update crc8_ref 0 Server.window_example Server.nack3_example
          = some (ret, ctx1) ∧
        1 ≤ k ∧ ctx1.win_i = 5 - 3 + k ∧ ctx1.win_i ≤ WINSZ ∧
        (∀ m, m < 5 - 3 → ctx1.win_buf[m]? = Server.window_example.win_buf[3 + m]?) ∧
        (∀ m, m < k → ∃ q, ctx1.win_buf[5 - 3 + m]? = some q ∧
          Server.DataFrame crc8_ref q ((5 + m) % 32) ∧ (m + 1 < k → q.size = 63)) ∧
        decode_chunks ((ctx1.win_buf.drop (5 - 3)).take k) ++ rest = List.replicate 85 0 ∧
        ctx1.fp = some (rest.map FRead.byte) ∧ ctx1.indx = (5 + k) % 32 ∧
        (ret = 1 ∧ ctx1.win_i = WINSZ ∧ ctx1.end_ = 0 ∨
          ret = -1 ∧ rest = [] ∧ ctx1.end_ = 1)) ∧
    (∃ ctx1, Server.context_update crc8_ref 0 Server.drained_example Server.nack1_example
          = some (1, ctx1) ∧
        ctx1.win_i = 2 - 1 ∧
        (∀ m, m < 2 - 1 → ctx1.win_buf[m]? = Server.drained_example.win_buf[1 + m]?) ∧
        ctx1 = { Server.drained_example with win_i := ctx1.win_i, win_buf := ctx1.win_buf }) :=
  ⟨(C19_nack_shift crc8_ref 0 Server.window_example Server.nack3_example
      (List.replicate 85 0) 3 (by decide) (by decide) ⟨by decide, by decide⟩ (by decide) rfl
      (by decide) (by decide) (by decide)).2.2.2 (by decide) rfl,
   (C19_nack_shift crc8_ref 0 Server.drained_example Server.nack1_example
      [] 1 (by decide) (by decide) ⟨by decide, by decide⟩ (by decide) rfl
      (by decide) (by decide) (by decide)).2.2.1 (by decide) (by decide)⟩

/-- C20 (fails in the code): `find_nack_pkg` scans all five slots, not the
filled ones.  A DOWNLOAD request for an asset of 64 zero bytes, then an ACK
(two DATA frames, indices 0 and 1, `end` set), then a NACK for index 1 (the
second frame moves to slot 0, `win.i = 1`) lead to a session whose slots carry
the indices 1, 1, 0, 0, 0.  There `find_nack_pkg` reports index 0 found at
position 2, beyond `win.i = 1`, so the length `win.i - 2` of the `memmove`
wraps around, and `context_update` on a NACK for index 0 returns 1 with
`win.i = 1 - 2` as a `size_t`, that is `2 ^ 64 - 1`. -/
theorem C20_nack_lookup_beyond_fill :
    Server.stale_example.map (fun c => (c.win_i, c.end_, c.win_buf.map (fun q => q.indx)))
      = some (1, 1, [1, 1, 0, 0, 0]) ∧
    Server.stale_example.map (fun c => Server.find_nack_pkg c 0) = some (some 2) ∧
    ¬ (2 < 1) ∧
    Server.size_sub 1 2 = 18446744073709551615 ∧
    (Server.stale_example.bind
        (fun c => Server.context_update crc8_ref 0 c Server.nack0_example)).map
        (fun r => (r.1, r.2.win_i)) = some (1, 18446744073709551615) := by
  decide

/-! ## The responder: finalization -/

theorem next_event_snd (evs : List (Option Pkg)) : (Server.next_event evs).2 = evs.drop 1 := by
  cases evs <;> rfl

theorem nth_event_zero (evs : List (Option Pkg)) :
    Server.nth_event evs 0 = (Server.next_event evs).1 := rfl

theorem nth_event_succ (evs : List (Option Pkg)) (n : Nat) :
    Server.nth_event evs (n + 1) = Server.nth_event (Server.next_event evs).2 n := by
  cases evs with
  | nil => simp [Server.nth_event, Server.next_event]
  | cons e rest => simp [Server.nth_event, Server.next_event]

/-- The test that ends finalization holds exactly for a received buffer with
the marker that passes `pkgvalid` and has type ACK. -/
theorem end_acked_iff (crc8 : List Nat → Nat) (ev : Option Pkg) :
    Server.end_acked crc8 ev = true ↔
      ∃ p, ev = some p ∧ ispkg p = true ∧ pkgvalid crc8 p = true ∧ p.type = PKG_ACK := by
  cases ev with
  | none => simp [Server.end_acked, Server.pkgrecv_timeout]
  | some p =>
    by_cases hm : ispkg p = true
    · simp [Server.end_acked, Server.pkgrecv_timeout, hm]
    · simp [Server.end_acked, Server.pkgrecv_timeout, hm]

/-- The loop of `process_context_end` with `fuel` attempts left: every frame
sent is `snd`; it stops right after the first attempt whose reply ends
finalization, and otherwise makes all the attempts. -/
theorem process_context_end_loop_spec (crc8 : List Nat → Nat) (snd : Pkg) :
    ∀ (fuel count : Nat) (evs : List (Option Pkg)), fuel + count = Server.DELTA →
      (Server.process_context_end_loop crc8 snd fuel count evs).2.1 =
        List.replicate (Server.process_context_end_loop crc8 snd fuel count evs).2.1.length snd ∧
      (Server.process_context_end_loop crc8 snd fuel count evs).2.1.length ≤ fuel ∧
      (0 < fuel → 1 ≤ (Server.process_context_end_loop crc8 snd fuel count evs).2.1.length) ∧
      (∀ n, n < fuel → Server.end_acked crc8 (Server.nth_event evs n) = true →
        (∀ m, m < n → Server.end_acked crc8 (Server.nth_event evs m) = false) →
        (Server.process_context_end_loop crc8 snd fuel count evs).2.1.length = n + 1 ∧
        (Server.process_context_end_loop crc8 snd fuel count evs).2.2 = evs.drop (n + 1)) ∧
      ((∀ n, n < fuel → Server.end_acked crc8 (Server.nth_event evs n) = false) →
        (Server.process_context_end_loop crc8 snd fuel count evs).2.1.length = fuel) := by
  intro fuel
  induction fuel with
  | zero =>
    intro count evs _
    simp [Server.process_context_end_loop]
  | succ k ih =>
    intro count evs hsum
    have hc : count < Server.DELTA := by omega
    by_cases ha : Server.end_acked crc8 (Server.next_event evs).1 = true
    · have hr : Server.process_context_end_loop crc8 snd (k + 1) count evs
          = (count, [snd], (Server.next_event evs).2) := by
        simp only [Server.process_context_end_loop, hc, if_true, ha]
      rw [hr]
      refine ⟨by simp, by simp, by simp, ?_, ?_⟩
      · intro n _ _ hfirst
        cases n with
        | zero => exact ⟨by simp, next_event_snd evs⟩
        | succ j =>
          have := hfirst 0 (by omega)
          rw [nth_event_zero, ha] at this
          exact absurd this (by decide)
      · intro hnone
        have := hnone 0 (by omega)
        rw [nth_event_zero, ha] at this
        exact absurd this (by decide)
    · have hr : Server.process_context_end_loop crc8 snd (k + 1) count evs
          = ((Server.process_context_end_loop crc8 snd k (count + 1)
                (Server.next_event evs).2).1,
              snd :: (Server.process_context_end_loop crc8 snd k (count + 1)
                (Server.next_event evs).2).2.1,
              (Server.process_context_end_loop crc8 snd k (count + 1)
                (Server.next_event evs).2).2.2) := by
        simp only [Server.process_context_end_loop, hc, if_true, ha, Bool.false_eq_true,
          if_false]
      obtain ⟨h1, h2, -, h4, h5⟩ := ih (count + 1) (Server.next_event evs).2 (by omega)
      rw [hr]
      refine ⟨?_, ?_, ?_, ?_, ?_⟩
      · simp only [List.length_cons, List.replicate_succ]
        exact congrArg (fun l => snd :: l) h1
      · simp only [List.length_cons]; omega
      · intro _; simp
      · intro n hn hacked hfirst
        cases n with
        | zero =>
          rw [nth_event_zero] at hacked
          exact absurd hacked ha
        | succ j =>
          rw [nth_event_succ] at hacked
          obtain ⟨g1, g2⟩ := h4 j (by omega) hacked (fun m hm => by
            have := hfirst (m + 1) (by omega)
            rwa [nth_event_succ] at this)
          refine ⟨by simp only [List.length_cons]; omega, ?_⟩
          rw [g2, next_event_snd, List.drop_drop]
          congr 1
          omega
      · intro hnone
        have := h5 (fun n hn => by
          have := hnone (n + 1) (by omega)
          rwa [nth_event_succ] at this)
        simp only [List.length_cons]; omega

/-- The frame `process_context_end` builds: an END frame without payload, or an
ERROR frame whose content is `ERROR_MSG`, terminator included. -/
theorem process_context_end_frame (crc8 : List Nat → Nat) (type : Nat)
    (hT : type = PKG_END ∨ type = PKG_ERROR) :
    ∃ snd,
      pkginit crc8 (if type = PKG_ERROR then Server.ERROR_MSG_SIZE else 0) 0 type
        (if type = PKG_ERROR then some Server.ERROR_MSG else none) = some snd ∧
      snd.type = type ∧ snd.marker = PKG_MARKER ∧ snd.indx = 0 ∧ pkgvalid crc8 snd = true ∧
      snd.content.length = 63 ∧
      (type = PKG_END → snd.size = 0) ∧
      (type = PKG_ERROR → snd.size = 20 ∧
        snd.content = Server.ERROR_MSG ++ List.replicate 44 0 ∧
        payload (pkg_rmv_sentinel_bytes snd) = Server.ERROR_MSG ++ [0]) := by
  rcases hT with h | h
  · subst h
    have hne : ¬ (PKG_END = PKG_ERROR) := by decide
    simp only [hne, if_false]
    refine ⟨_, pkginit_null crc8 0 0 PKG_END, rfl, rfl, rfl, ?_, ?_, fun _ => rfl,
      fun h => h.elim⟩
    · exact pkginit_valid crc8 0 0 PKG_END none _ (pkginit_null crc8 0 0 PKG_END)
    · simp only [pkginit_blank, List.length_replicate]
  · subst h
    simp only [if_true]
    obtain ⟨d, hd, hv, hm, hi, ht, hsz, hc, hpay, -⟩ :=
      pkginit_buf_decoded crc8 0 PKG_ERROR Server.ERROR_MSG (by decide)
    have hst : stuff Server.ERROR_MSG = Server.ERROR_MSG := by decide
    rw [hst] at hsz hc
    obtain ⟨hlen, -⟩ := pkginit_sealed crc8 _ 0 PKG_ERROR _ d hd
    refine ⟨d, hd, by rw [ht]; decide, hm, by rw [hi], hv, hlen,
      fun h => absurd h (by decide), fun _ => ⟨by rw [hsz]; decide, ?_, hpay⟩⟩
    rw [hc]
    rfl

/-! ## Claims about finalization -/

/-- C28: for every sequence of receive events, `process_context_end` with type
END or ERROR builds one valid frame of that type and sends it at least once and
at most `DELTA = 40` times; it stops right after the first attempt whose reply
was received with the marker, passes `pkgvalid` and has type ACK (attempt `n`,
counted from 0, gives `n + 1` sends), and when none of the 40 attempts gets such
a reply it returns after exactly 40 sends. -/
theorem C28_finalization_bounded (crc8 : List Nat → Nat) (type : Nat)
    (evs : List (Option Pkg)) (hT : type = PKG_END ∨ type = PKG_ERROR) :
    ∃ snd sent rest, Server.process_context_end crc8 type evs = some (sent, rest) ∧
      snd.type = type ∧ snd.marker = PKG_MARKER ∧ pkgvalid crc8 snd = true ∧
      sent = List.replicate sent.length snd ∧ 1 ≤ sent.length ∧ sent.length ≤ 40 ∧
      (∀ n, n < 40 → Server.end_acked crc8 (Server.nth_event evs n) = true →
        (∀ m, m < n → Server.end_acked crc8 (Server.nth_event evs m) = false) →
        sent.length = n + 1 ∧ rest = evs.drop (n + 1)) ∧
      ((∀ n, n < 40 → Server.end_acked crc8 (Server.nth_event evs n) = false) →
        sent.length = 40) ∧
      (∀ ev, Server.end_acked crc8 ev = true ↔
        ∃ p, ev = some p ∧ ispkg p = true ∧ pkgvalid crc8 p = true ∧ p.type = PKG_ACK) := by
  obtain ⟨snd, hinit, ht, hm, -, hv, -⟩ := process_context_end_frame crc8 type hT
  obtain ⟨h1, h2, h3, h4, h5⟩ :=
    process_context_end_loop_spec crc8 snd Server.DELTA 0 evs rfl
  refine ⟨snd, _, _, ?_, ht, hm, hv, h1, h3 (by decide), h2, h4, h5, end_acked_iff crc8⟩
  simp only [Server.process_context_end, hinit]

/-- C28 at an END finalization under `crc8_ref` whose first attempt times out,
whose second receives a DATA frame and whose third receives an ACK. -/
theorem C28_finalization_bounded_witness :
    ∃ snd sent rest, Server.process_context_end crc8_ref PKG_END
        [none, some data_example, some ack_example] = some (sent, rest) ∧
      snd.type = PKG_END ∧ snd.marker = PKG_MARKER ∧ pkgvalid crc8_ref snd = true ∧
      sent = List.replicate sent.length snd ∧ 1 ≤ sent.length ∧ sent.length ≤ 40 ∧
      (∀ n, n < 40 →
        Server.end_acked crc8_ref
          (Server.nth_event [none, some data_example, some ack_example] n) = true →
        (∀ m, m < n → Server.end_acked crc8_ref
          (Server.nth_event [none, some data_example, some ack_example] m) = false) →
        sent.length = n + 1 ∧
        rest = ([none, some data_example, some ack_example] : List (Option Pkg)).drop (n + 1)) ∧
      ((∀ n, n < 40 → Server.end_acked crc8_ref
          (Server.nth_event [none, some data_example, some ack_example] n) = false) →
        sent.length = 40) ∧
      (∀ ev, Server.end_acked crc8_ref ev = true ↔
        ∃ p, ev = some p ∧ ispkg p = true ∧ pkgvalid crc8_ref p = true ∧ p.type = PKG_ACK) :=
  C28_finalization_bounded crc8_ref PKG_END [none, some data_example, some ack_example]
    (Or.inl rfl)

/-! ## The responder: the serve loop and the dispatcher -/

/-- The responder's `context_update` returns 0 and leaves the session as it is
for every frame that is neither an ACK nor a NACK. -/
theorem server_context_update_other (crc8 : List Nat → Nat) (byte0 : Nat)
    (ctx : Server.Context) (pkg : Pkg) (h1 : pkg.type ≠ PKG_ACK) (h2 : pkg.type ≠ PKG_NACK) :
    Server.context_update crc8 byte0 ctx pkg = some (0, ctx) := by
  simp [Server.context_update, h1, h2]

/-- When the asset or the asset directory does not open, or the size of the
asset cannot be read, one pass of `main` is the ERROR finalization. -/
theorem main_pass_open_failed (crc8 : List Nat → Nat) (byte0 : Nat) (fs : Server.FileSys)
    (req : Pkg) (evs : List (Option Pkg)) (hv : pkgvalid crc8 req = true)
    (hfail : (req.type = PKG_DOWNLOAD ∧
        (fs.fopen (Server.cstr (Server.get_asset_path req.content req.size).path) = none ∨
         fs.stat (Server.cstr (Server.get_asset_path req.content req.size).path) = none)) ∨
      (req.type = PKG_LS ∧ fs.opendir = none)) :
    Server.main_pass crc8 byte0 fs req evs =
      (Server.process_context_end crc8 PKG_ERROR evs).map (fun r => r.1) := by
  rcases hfail with ⟨hT, hf⟩ | ⟨hT, hf⟩
  · have hc : Server.iscontext req = true := by simp [Server.iscontext, hT]
    have h1 : (PKG_DOWNLOAD == PKG_DOWNLOAD) = true := by decide
    cases hop : fs.fopen (Server.cstr (Server.get_asset_path req.content req.size).path) with
    | none =>
      simp only [Server.main_pass, hv, hc, Bool.and_self, if_true, Server.context_init, hT, h1,
        Server.context_init_download, hop, ne_eq, not_true_eq_false, if_false]
      cases Server.process_context_end crc8 PKG_ERROR evs <;> rfl
    | some f =>
      have hst : fs.stat (Server.cstr (Server.get_asset_path req.content req.size).path)
          = none := by
        rcases hf with h | h
        · rw [hop] at h; exact absurd h (by simp)
        · exact h
      simp only [Server.main_pass, hv, hc, Bool.and_self, if_true, Server.context_init, hT, h1,
        Server.context_init_download, hop, Server.download_initial_response, hst, ne_eq,
        not_true_eq_false, if_false]
      cases Server.process_context_end crc8 PKG_ERROR evs <;> rfl
  · have hc : Server.iscontext req = true := by simp [Server.iscontext, hT]
    have h1 : (PKG_LS == PKG_DOWNLOAD) = false := by decide
    have h2 : (PKG_LS == PKG_LS) = true := by decide
    simp only [Server.main_pass, hv, hc, Bool.and_self, if_true, Server.context_init, hT, h1, h2,
      Bool.false_eq_true, if_false, Server.context_init_ls, hf, ne_eq, not_true_eq_false]
    cases Server.process_context_end crc8 PKG_ERROR evs <;> rfl

/-! ## Claims about the serve loop and the error path -/

/-- C29 (as stated) fails: when neither the asset nor the asset directory
opens, the frame sent for the request `request_example` has type ERROR, but
the message it carries is not the text `Invalid Operation`: it is
`Invalid Operation.`, 18 characters, the last one a full stop. -/
theorem C29_counterexample :
    Server.main_pass crc8_ref 0 Server.fs_none Server.request_example [some ack_example]
      = some [Server.error_frame_example] ∧
    Server.error_frame_example.type = 0x1F ∧
    Server.cstr (payload Server.error_frame_example)
      = [73, 110, 118, 97, 108, 105, 100, 32, 79, 112, 101, 114, 97, 116, 105, 111, 110, 46] ∧
    Server.cstr (payload Server.error_frame_example)
      ≠ [73, 110, 118, 97, 108, 105, 100, 32, 79, 112, 101, 114, 97, 116, 105, 111, 110] ∧
    (payload Server.error_frame_example)[17]? = some 46 := by
  decide

/-- C29 (amended): when the responder cannot open the requested asset (or read
its size) or the asset directory, every frame it sends for the request is one
and the same valid frame with marker `0x7E` and type ERROR (`0x1F`), sent
between 1 and 40 times; its payload starts with the 18 characters of the text
`Invalid Operation.`, full stop included, and read as a string (up to the first
zero byte) the payload is exactly that text. -/
theorem C29_error_frame (crc8 : List Nat → Nat) (byte0 : Nat) (fs : Server.FileSys)
    (req : Pkg) (evs : List (Option Pkg)) (hv : pkgvalid crc8 req = true)
    (hfail : (req.type = PKG_DOWNLOAD ∧
        (fs.fopen (Server.cstr (Server.get_asset_path req.content req.size).path) = none ∨
         fs.stat (Server.cstr (Server.get_asset_path req.content req.size).path) = none)) ∨
      (req.type = PKG_LS ∧ fs.opendir = none)) :
    ∃ e sent, Server.main_pass crc8 byte0 fs req evs = some sent ∧
      sent = List.replicate sent.length e ∧ 1 ≤ sent.length ∧ sent.length ≤ 40 ∧
      e.marker = 0x7E ∧ e.type = 0x1F ∧ pkgvalid crc8 e = true ∧
      (payload e).take 18
        = [73, 110, 118, 97, 108, 105, 100, 32, 79, 112, 101, 114, 97, 116, 105, 111, 110, 46] ∧
      Server.cstr (payload e)
        = [73, 110, 118, 97, 108, 105, 100, 32, 79, 112, 101, 114, 97, 116, 105, 111, 110, 46] := by
  obtain ⟨e, hinit, ht, hm, -, hval, -, -, herr⟩ :=
    process_context_end_frame crc8 PKG_ERROR (Or.inr rfl)
  obtain ⟨hsz, hc, -⟩ := herr rfl
  obtain ⟨h1, h2, h3, -, -⟩ :=
    process_context_end_loop_spec crc8 e Server.DELTA 0 evs rfl
  refine ⟨e, _, ?_, h1, h3 (by decide), h2, hm, ht, hval, ?_, ?_⟩
  · rw [main_pass_open_failed crc8 byte0 fs req evs hv hfail]
    rw [if_pos rfl, if_pos rfl] at hinit
    simp only [Server.process_context_end, if_true, hinit, Option.map_some']
  · simp only [payload, hsz, hc]
    decide
  · simp only [payload, hsz, hc]
    decide

/-- C29 (amended) at the DOWNLOAD request `request_example` under `crc8_ref`
when no asset opens, with a time-out followed by an ACK. -/
theorem C29_error_frame_witness :
    ∃ e sent, Server.main_pass crc8_ref 0 Server.fs_none Server.request_example
        [none, some ack_example] = some sent ∧
      sent = List.replicate sent.length e ∧ 1 ≤ sent.length ∧ sent.length ≤ 40 ∧
      e.marker = 0x7E ∧ e.type = 0x1F ∧ pkgvalid crc8_ref e = true ∧
      (payload e).take 18
        = [73, 110, 118, 97, 108, 105, 100, 32, 79, 112, 101, 114, 97, 116, 105, 111, 110, 46] ∧
      Server.cstr (payload e)
        = [73, 110, 118, 97, 108, 105, 100, 32, 79, 112, 101, 114, 97, 116, 105, 111, 110, 46] :=
  C29_error_frame crc8_ref 0 Server.fs_none Server.request_example [none, some ack_example]
    (by decide) (Or.inl ⟨by decide, Or.inl rfl⟩)

/-- C30: in the serve loop (session not completed, `win.i` within the array) a
receive time-out, a buffer without the marker, a reply that fails `pkgvalid`
and a valid reply whose type is neither ACK nor NACK all leave the whole session
as it is: the pass sends the window and the loop goes on from the same session,
so the same window is sent again.  The responder's `context_update` returns 0
and the unchanged session for every frame type other than ACK and NACK. -/
theorem C30_ignored_replies (crc8 : List Nat → Nat) (byte0 : Nat) (ctx : Server.Context)
    (ev : Option Pkg) (rest : List (Option Pkg)) (hw : ctx.win_i ≤ ctx.win_buf.length)
    (hc : ctx.completed = 0)
    (hev : ev = none ∨ ∃ p, ev = some p ∧
      (ispkg p = false ∨ pkgvalid crc8 p = false ∨ (p.type ≠ PKG_ACK ∧ p.type ≠ PKG_NACK))) :
    (∀ pkg : Pkg, pkg.type ≠ PKG_ACK → pkg.type ≠ PKG_NACK →
      Server.context_update crc8 byte0 ctx pkg = some (0, ctx)) ∧
    Server.sendwin ctx = some (ctx.win_buf.take ctx.win_i) ∧
    Server.process_context crc8 byte0 ctx (ev :: rest) =
      Server.after_sendwin (ctx.win_buf.take ctx.win_i)
        (Server.process_context crc8 byte0 ctx rest) ∧
    Server.process_context crc8 byte0 ctx [ev] =
      some { sent := ctx.win_buf.take ctx.win_i ++ [], ctx := ctx, finished := false } := by
  have hs : Server.sendwin ctx = some (ctx.win_buf.take ctx.win_i) := by
    simp only [Server.sendwin, hw, if_true]
  have key : ∀ r : List (Option Pkg), Server.process_context crc8 byte0 ctx (ev :: r) =
      Server.after_sendwin (ctx.win_buf.take ctx.win_i)
        (Server.process_context crc8 byte0 ctx r) := by
    intro r
    rcases hev with h | ⟨p, h, hp⟩
    · subst h
      simp only [Server.process_context, hs, Server.pkgrecv_timeout]
    · subst h
      by_cases hm : ispkg p = true
      · by_cases hv : pkgvalid crc8 p = true
        · rcases hp with h | h | ⟨h1, h2⟩
          · rw [hm] at h; exact absurd h (by decide)
          · rw [hv] at h; exact absurd h (by decide)
          · simp only [Server.process_context, hs, Server.pkgrecv_timeout, hm, if_true, hv,
              server_context_update_other crc8 byte0 ctx p h1 h2, hc, ne_eq,
              not_true_eq_false, if_false]
        · simp only [Server.process_context, hs, Server.pkgrecv_timeout, hm, if_true, hv,
            Bool.false_eq_true, if_false]
      · simp only [Server.process_context, hs, Server.pkgrecv_timeout, hm, Bool.false_eq_true,
          if_false]
  refine ⟨fun pkg h1 h2 => server_context_update_other crc8 byte0 ctx pkg h1 h2, hs, key rest, ?_⟩
  rw [key []]
  rfl

/-- C30 at the session `opened_example` with the valid DATA frame
`data_example` as reply, followed by a time-out. -/
theorem C30_ignored_replies_witness :
    (∀ pkg : Pkg, pkg.type ≠ PKG_ACK → pkg.type ≠ PKG_NACK →
      Server.context_update crc8_ref 0 Server.opened_example pkg
        = some (0, Server.opened_example)) ∧
    Server.sendwin Server.opened_example
      = some (Server.opened_example.win_buf.take Server.opened_example.win_i) ∧
    Server.process_context crc8_ref 0 Server.opened_example (some data_example :: [none]) =
      Server.after_sendwin (Server.opened_example.win_buf.take Server.opened_example.win_i)
        (Server.process_context crc8_ref 0 Server.opened_example [none]) ∧
    Server.process_context crc8_ref 0 Server.opened_example [some data_example] =
      some { sent := Server.opened_example.win_buf.take Server.opened_example.win_i ++ [],
             ctx := Server.opened_example, finished := false } :=
  C30_ignored_replies crc8_ref 0 Server.opened_example (some data_example) [none]
    (by decide) (by decide) (Or.inr ⟨data_example, rfl, Or.inr (Or.inr (by decide))⟩)

/-! ## The responder: listing the asset directory -/

/-- The loop over `readdir` stops at the first entry that is not a directory;
the regular files after it are the regular files of the directory but the
first. -/
theorem next_file_names (es : List Server.Dirent) :
    (∀ e rest, Server.next_file es = (some e, rest) →
      Server.file_names es = e.d_name :: Server.file_names rest) ∧
    (∀ rest, Server.next_file es = (none, rest) → Server.file_names es = [] ∧ rest = []) := by
  induction es with
  | nil =>
    refine ⟨fun e rest h => ?_, fun rest h => ?_⟩
    · simp [Server.next_file] at h
    · simp only [Server.next_file, Prod.mk.injEq, true_and] at h
      exact ⟨rfl, h.symm⟩
  | cons a t ih =>
    by_cases hd : a.is_dir = true
    · have hn : Server.next_file (a :: t) = Server.next_file t := by
        simp [Server.next_file, hd]
      have hf : Server.file_names (a :: t) = Server.file_names t := by
        simp [Server.file_names, hd]
      rw [hn, hf]
      exact ih
    · have hn : Server.next_file (a :: t) = (some a, t) := by
        simp [Server.next_file, hd]
      have hf : Server.file_names (a :: t) = a.d_name :: Server.file_names t := by
        simp [Server.file_names, hd]
      rw [hn, hf]
      refine ⟨fun e rest h => ?_, fun rest h => ?_⟩
      · simp only [Prod.mk.injEq, Option.some.injEq] at h
        rw [← h.1, ← h.2]
      · simp at h

/-- One call of `context_ls_update_with_ack` when the iterator is at `es`: with
a regular file left, slot 0 receives its SHOW frame with the current index;
without one, no slot is written and `end` is set.  The index advances in both
cases. -/
theorem context_ls_update_step (crc8 : List Nat → Nat) (ctx : Server.Context)
    (es : List Server.Dirent) (hdp : ctx.dp = some es) (hx : ctx.indx < 32) :
    (∀ e rest, Server.next_file es = (some e, rest) → (stuff e.d_name).length ≤ 62 →
      ∃ q, Server.context_ls_update_with_ack crc8 ctx =
          some (1, { ctx with dp := some rest, win_buf := ctx.win_buf.set 0 q,
                              sent := (ctx.sent + e.d_name.length) % 2 ^ 64,
                              indx := (ctx.indx + 1) % 32 }) ∧
        Server.ShowFrame crc8 q ctx.indx e.d_name) ∧
    (∀ rest, Server.next_file es = (none, rest) →
      Server.context_ls_update_with_ack crc8 ctx =
        some (-1, { ctx with dp := some rest, indx := (ctx.indx + 1) % 32, end_ := 1 })) := by
  refine ⟨fun e rest hn hfit => ?_, fun rest hn => ?_⟩
  · obtain ⟨q, hq, hv, hm, hi, ht, -, hc, hpay, -⟩ :=
      pkginit_buf_decoded crc8 ctx.indx PKG_SHOW e.d_name hfit
    obtain ⟨hlen, -⟩ := pkginit_sealed crc8 _ ctx.indx PKG_SHOW _ q hq
    refine ⟨q, ?_, hm, by rw [ht]; decide, by rw [hi]; omega, hv, hlen, ?_, hpay⟩
    · simp only [Server.context_ls_update_with_ack, hdp, hn, hq]
      rw [server_incindx_lt _ (by exact hx)]
    · rw [hc, List.take_left]
  · simp only [Server.context_ls_update_with_ack, hdp, hn]
    rw [server_incindx_lt _ (by exact hx)]

theorem drop_eq_cons {α : Type} (l : List α) (n : Nat) (x : α) (t : List α)
    (h : l.drop n = x :: t) : l[n]? = some x ∧ l.drop (n + 1) = t ∧ n < l.length := by
  have hlt : n < l.length := by
    by_contra hn
    rw [List.drop_eq_nil_of_le (by omega)] at h
    exact absurd h (by simp)
  refine ⟨?_, ?_, hlt⟩
  · have h0 : (l.drop n)[0]? = l[n + 0]? := List.getElem?_drop l n 0
    rw [h] at h0
    simpa using h0.symm
  · have h1 : (l.drop n).drop 1 = l.drop (n + 1) := by rw [List.drop_drop]
    rw [← h1, h]
    rfl

/-- The open of an LS session makes the first call of
`context_ls_update_with_ack`. -/
theorem ls_state_init (crc8 : List Nat → Nat) (fs : Server.FileSys) (req : Pkg)
    (es : List Server.Dirent) (hT : req.type = PKG_LS) (hopen : fs.opendir = some es)
    (hfit : ∀ n ∈ Server.file_names es, (stuff n).length ≤ 62) :
    ∃ r ctx0, Server.context_init crc8 fs Server.context_create req = some (r, ctx0) ∧
      r ≠ 0 ∧ Server.LsState crc8 (Server.file_names es) ctx0 0 := by
  have h1 : (PKG_LS == PKG_DOWNLOAD) = false := by decide
  have h2 : (PKG_LS == PKG_LS) = true := by decide
  obtain ⟨hsome, hnone⟩ := context_ls_update_step crc8
    { Server.context_create with indx := 0, win_i := 1, type := CtxType.CTX_LS, dp := some es }
    es rfl (by show (0 : Nat) < 32; decide)
  obtain ⟨nsome, nnone⟩ := next_file_names es
  cases hn : Server.next_file es with
  | mk o rest =>
    cases o with
    | some e =>
      have hnames := nsome e rest hn
      have hmem : e.d_name ∈ Server.file_names es := by rw [hnames]; simp
      obtain ⟨q, hq, hshow⟩ := hsome e rest hn (hfit _ hmem)
      have hinit : Server.context_init crc8 fs Server.context_create req = some (1,
          { Server.context_create with
            indx := (0 + 1) % 32, win_i := 1, type := CtxType.CTX_LS, dp := some rest,
            win_buf := Server.context_create.win_buf.set 0 q,
            sent := (Server.context_create.sent + e.d_name.length) % 2 ^ 64 }) := by
        simp only [Server.context_init, hT, h1, h2, Bool.false_eq_true, if_false, if_true,
          Server.context_init_ls, hopen, hq]
        rfl
      refine ⟨1, _, hinit, by decide, rfl, rfl, rfl, by simp [Server.context_create, WINSZ],
        rfl, Nat.zero_le _, ⟨rest, rfl, by rw [hnames]; rfl⟩, ?_, ?_⟩
      · intro name hname
        rw [hnames] at hname
        simp only [List.getElem?_cons_zero, Option.some.injEq] at hname
        subst hname
        refine ⟨rfl, q, ?_, hshow⟩
        simp [Server.context_create, WINSZ]
      · intro h0
        rw [hnames] at h0
        simp at h0
    | none =>
      obtain ⟨hnames, hrest⟩ := nnone rest hn
      have hq := hnone rest hn
      have hinit : Server.context_init crc8 fs Server.context_create req = some (-1,
          { Server.context_create with
            indx := (0 + 1) % 32, win_i := 1, type := CtxType.CTX_LS, dp := some rest,
            end_ := 1 }) := by
        simp only [Server.context_init, hT, h1, h2, Bool.false_eq_true, if_false, if_true,
          Server.context_init_ls, hopen, hq]
        rfl
      refine ⟨-1, _, hinit, by decide, rfl, rfl, rfl, by simp [Server.context_create, WINSZ],
        rfl, Nat.zero_le _, ⟨rest, rfl, by rw [hnames, hrest]; rfl⟩, ?_, fun _ => rfl⟩
      intro name hname
      rw [hnames] at hname
      simp at hname

/-- An ACK in an LS session that has a regular file in slot 0 makes the next
call of `context_ls_update_with_ack`. -/
theorem ls_state_step (crc8 : List Nat → Nat) (byte0 : Nat) (names : List (List Nat))
    (ctx : Server.Context) (j : Nat) (a : Pkg) (hs : Server.LsState crc8 names ctx j)
    (hj : j < names.length) (hfit : ∀ n ∈ names, (stuff n).length ≤ 62)
    (hA : a.type = PKG_ACK) :
    ∃ r ctx1, Server.context_update crc8 byte0 ctx a = some (r, ctx1) ∧
      Server.LsState crc8 names ctx1 (j + 1) := by
  obtain ⟨hty, hwi, hco, hlen, hidx, -, ⟨rest, hdp, hrest⟩, hslot, -⟩ := hs
  have hname : names[j]? = some names[j] := List.getElem?_eq_getElem hj
  obtain ⟨hend, -⟩ := hslot _ hname
  have hx : ctx.indx < 32 := by rw [hidx]; omega
  have h1 : (PKG_ACK == PKG_ACK) = true := by decide
  have hupd : Server.context_update crc8 byte0 ctx a =
      Server.context_ls_update_with_ack crc8 ctx := by
    simp only [Server.context_update, hA, h1, if_true, Server.context_update_with_ack, hend,
      ne_eq, not_true_eq_false, if_false, hty]
  obtain ⟨hsome, hnone⟩ := context_ls_update_step crc8 ctx rest hdp hx
  obtain ⟨nsome, nnone⟩ := next_file_names rest
  have hidx1 : (ctx.indx + 1) % 32 = (j + 1 + 1) % 32 := by rw [hidx]; omega
  cases hn : Server.next_file rest with
  | mk o rest1 =>
    cases o with
    | some e =>
      have hnames := nsome e rest1 hn
      rw [hrest] at hnames
      obtain ⟨g1, g2, g3⟩ := drop_eq_cons names (j + 1) _ _ hnames
      have hmem : e.d_name ∈ names := by
        have h0 := List.getElem?_eq_getElem g3
        rw [h0] at g1
        injection g1 with g1
        rw [← g1]
        exact List.getElem_mem g3
      obtain ⟨q, hq, hshow⟩ := hsome e rest1 hn (hfit _ hmem)
      refine ⟨1, { ctx with dp := some rest1, win_buf := ctx.win_buf.set 0 q,
                            sent := (ctx.sent + e.d_name.length) % 2 ^ 64,
                            indx := (ctx.indx + 1) % 32 },
        by rw [hupd]; exact hq, hty, hwi, hco, by simpa using hlen, hidx1,
        le_of_lt g3, ⟨rest1, rfl, g2.symm⟩, ?_, ?_⟩
      · intro name hnm
        rw [g1] at hnm
        simp only [Option.some.injEq] at hnm
        subst hnm
        refine ⟨hend, q, ?_, ?_⟩
        · show (ctx.win_buf.set 0 q)[0]? = some q
          rw [List.getElem?_set_self hlen]
        · have e1 : (j + 1) % 32 = ctx.indx := hidx.symm
          rw [e1]; exact hshow
      · intro h0
        omega
    | none =>
      obtain ⟨hnames, hr1⟩ := nnone rest1 hn
      rw [hrest] at hnames
      have hq := hnone rest1 hn
      have hlen2 : names.length ≤ j + 1 := by
        have := congrArg List.length hnames
        simp only [List.length_drop, List.length_nil] at this
        omega
      refine ⟨-1, { ctx with dp := some rest1, indx := (ctx.indx + 1) % 32, end_ := 1 },
        by rw [hupd]; exact hq, hty, hwi, hco, hlen, hidx1, by omega,
        ⟨rest1, rfl, ?_⟩, ?_, fun _ => rfl⟩
      · rw [hr1, List.drop_eq_nil_of_le (by omega)]
        rfl
      · intro name hnm
        have : names[j + 1]? = none := List.getElem?_eq_none (by omega)
        rw [this] at hnm
        exact absurd hnm (by simp)

/-- Successive ACKs in an LS session, as long as regular files are left. -/
theorem ls_state_run (crc8 : List Nat → Nat) (byte0 : Nat) (names : List (List Nat))
    (hfit : ∀ n ∈ names, (stuff n).length ≤ 62) :
    ∀ (acks : List Pkg) (ctx : Server.Context) (j : Nat), Server.LsState crc8 names ctx j →
      j + acks.length ≤ names.length → (∀ a ∈ acks, a.type = PKG_ACK) →
      ∃ ctx1, Server.run_updates crc8 byte0 ctx acks = some ctx1 ∧
        Server.LsState crc8 names ctx1 (j + acks.length) := by
  intro acks
  induction acks with
  | nil =>
    intro ctx j hs _ _
    exact ⟨ctx, rfl, hs⟩
  | cons a t ih =>
    intro ctx j hs hlen hall
    simp only [List.length_cons] at hlen
    obtain ⟨r, c1, hupd, hs1⟩ := ls_state_step crc8 byte0 names ctx j a hs (by omega) hfit
      (hall a (List.mem_cons_self _ _))
    obtain ⟨c2, hrun, hs2⟩ := ih c1 (j + 1) hs1 (by omega)
      (fun x hx => hall x (List.mem_cons_of_mem _ hx))
    refine ⟨c2, ?_, ?_⟩
    · simp only [Server.run_updates, hupd]
      exact hrun
    · have e : j + (t.length + 1) = j + 1 + t.length := by omega
      simp only [List.length_cons]
      rw [e]; exact hs2

/-- The LS session after the open and the ACKs `acks`, as long as regular files
are left. -/
theorem ls_session_state (crc8 : List Nat → Nat) (byte0 : Nat) (fs : Server.FileSys)
    (req : Pkg) (es : List Server.Dirent) (acks : List Pkg) (hT : req.type = PKG_LS)
    (hopen : fs.opendir = some es)
    (hfit : ∀ n ∈ Server.file_names es, (stuff n).length ≤ 62)
    (hacks : ∀ a ∈ acks, a.type = PKG_ACK)
    (hlen : acks.length ≤ (Server.file_names es).length) :
    ∃ ctx, Server.session_after crc8 byte0 fs req acks = some ctx ∧
      Server.LsState crc8 (Server.file_names es) ctx acks.length := by
  obtain ⟨r, c0, hinit, hr, hs0⟩ := ls_state_init crc8 fs req es hT hopen hfit
  obtain ⟨c1, hrun, hs1⟩ := ls_state_run crc8 byte0 _ hfit acks c0 0 hs0 (by omega) hacks
  refine ⟨c1, ?_, by simpa using hs1⟩
  simp only [Server.session_after, hinit, ne_eq, hr, not_false_eq_true, if_true]
  exact hrun

/-! ## Claims about LS sessions -/

/-- C26: in an LS session over a directory whose entries, in `readdir` order,
are `es`, with every regular-file name fitting in a frame, the session after
the open and `j` ACKs (`j` at most the number of regular files) has made `j + 1`
calls of `context_ls_update_with_ack`: `win.i = 1`, the index is
`(j + 1) mod 32`; if a `j`-th regular file exists (directories skipped, counted
from 0), slot 0 holds the valid SHOW frame with its name and the index
`j mod 32`, the index before the call, and `end` is clear; if `j` is the number
of regular files, `end` is set. -/
theorem C26_ls_listing (crc8 : List Nat → Nat) (byte0 : Nat) (fs : Server.FileSys)
    (req : Pkg) (es : List Server.Dirent) (acks : List Pkg) (hT : req.type = PKG_LS)
    (hopen : fs.opendir = some es)
    (hfit : ∀ n ∈ Server.file_names es, (stuff n).length ≤ 62)
    (hacks : ∀ a ∈ acks, a.type = PKG_ACK)
    (hlen : acks.length ≤ (Server.file_names es).length) :
    Server.file_names es = (es.filter (fun e => !e.is_dir)).map (fun e => e.d_name) ∧
    ∃ ctx, Server.session_after crc8 byte0 fs req acks = some ctx ∧
      ctx.type = CtxType.CTX_LS ∧ ctx.win_i = 1 ∧ ctx.completed = 0 ∧
      ctx.indx = (acks.length + 1) % 32 ∧
      (∀ name, (Server.file_names es)[acks.length]? = some name →
        ctx.end_ = 0 ∧
        ∃ q, ctx.win_buf[0]? = some q ∧ Server.ShowFrame crc8 q (acks.length % 32) name) ∧
      (acks.length = (Server.file_names es).length → ctx.end_ = 1) := by
  obtain ⟨ctx, hrun, hty, hwi, hco, -, hidx, -, -, hslot, hend⟩ :=
    ls_session_state crc8 byte0 fs req es acks hT hopen hfit hacks hlen
  exact ⟨rfl, ctx, hrun, hty, hwi, hco, hidx, hslot, hend⟩

/-- C26 at the directory with the entries `"."`, `".."` and `"a.bin"` under
`crc8_ref`, after the open and one ACK. -/
theorem C26_ls_listing_witness :
    Server.file_names (Server.dot_entries ++ [Server.abin_entry]) =
      ((Server.dot_entries ++ [Server.abin_entry]).filter (fun e => !e.is_dir)).map
        (fun e => e.d_name) ∧
    ∃ ctx, Server.session_after crc8_ref 0
        (Server.fs_dir (Server.dot_entries ++ [Server.abin_entry])) Server.ls_request_example
        [ack_example] = some ctx ∧
      ctx.type = CtxType.CTX_LS ∧ ctx.win_i = 1 ∧ ctx.completed = 0 ∧
      ctx.indx = ([ack_example].length + 1) % 32 ∧
      (∀ name, (Server.file_names (Server.dot_entries ++ [Server.abin_entry]))[
          [ack_example].length]? = some name →
        ctx.end_ = 0 ∧
        ∃ q, ctx.win_buf[0]? = some q ∧
          Server.ShowFrame crc8_ref q ([ack_example].length % 32) name) ∧
      ([ack_example].length
          = (Server.file_names (Server.dot_entries ++ [Server.abin_entry])).length →
        ctx.end_ = 1) :=
  C26_ls_listing crc8_ref 0 (Server.fs_dir (Server.dot_entries ++ [Server.abin_entry]))
    Server.ls_request_example (Server.dot_entries ++ [Server.abin_entry]) [ack_example]
    (by decide) rfl (by decide) (by decide) (by decide)

/-- C24 (as stated) fails: the open of an LS session over a directory that holds
only `"."` and `".."` fills no slot (the window is the zeroed array of the fresh
context), yet the responder's index goes from 0 to 1. -/
theorem C24_counterexample :
    Server.context_init crc8_ref (Server.fs_dir Server.dot_entries) Server.context_create
        Server.ls_request_example
      = some (-1, { Server.context_create with
                    indx := 1, win_i := 1, type := CtxType.CTX_LS, end_ := 1,
                    dp := some [] }) ∧
    Server.context_create.indx = 0 ∧
    ({ Server.context_create with
        indx := 1, win_i := 1, type := CtxType.CTX_LS, end_ := 1,
        dp := some [] } : Server.Context).win_buf = Server.context_create.win_buf ∧
    Server.context_create.win_buf = List.replicate WINSZ zero_pkg := by
  decide

/-- C24 (amended): in a DOWNLOAD session every increment of the responder's
index is paired with a window slot filled with a DATA frame that carries the
index before the increment: a refill from slot `i` on an error-free stream
writes `k ≥ 1` frames with the indices `j, ..., j + k - 1` modulo 32 into the
slots `i, ..., i + k - 1` and leaves the index at `(j + k) mod 32`.  In an LS
session `context_ls_update_with_ack` increments the index once per call: when
a regular file is left, slot 0 receives its SHOW frame with the index before
the increment; when the iterator is exhausted, the index is incremented all the
same, although no slot is written, and `end` is set. -/
theorem C24_index_increments (crc8 : List Nat → Nat) (byte0 : Nat) (ctx : Server.Context)
    (hx : ctx.indx < 32) :
    (∀ (i : Nat) (f : List Nat), i < WINSZ → Server.WinOk ctx →
      ctx.fp = some (f.map FRead.byte) →
      ∃ k ret ctx1, Server.fill_context_buf_from_index crc8 byte0 ctx i = some (ret, ctx1) ∧
        1 ≤ k ∧ ctx1.win_i = i + k ∧ ctx1.indx = (ctx.indx + k) % 32 ∧
        ∀ m, m < k → ∃ q, ctx1.win_buf[i + m]? = some q ∧
          Server.DataFrame crc8 q ((ctx.indx + m) % 32)) ∧
    (∀ es e rest, ctx.dp = some es → Server.next_file es = (some e, rest) →
      (stuff e.d_name).length ≤ 62 → 0 < ctx.win_buf.length →
      ∃ q ctx1, Server.context_ls_update_with_ack crc8 ctx = some (1, ctx1) ∧
        ctx1.win_buf[0]? = some q ∧ Server.ShowFrame crc8 q ctx.indx e.d_name ∧
        ctx1.indx = (ctx.indx + 1) % 32) ∧
    (∀ es rest, ctx.dp = some es → Server.next_file es = (none, rest) →
      ∃ ctx1, Server.context_ls_update_with_ack crc8 ctx = some (-1, ctx1) ∧
        ctx1.win_buf = ctx.win_buf ∧ ctx1.win_i = ctx.win_i ∧ ctx1.end_ = 1 ∧
        ctx1.indx = (ctx.indx + 1) % 32) := by
  refine ⟨fun i f hi hw hfp => ?_, fun es e rest hdp hn hfit hl => ?_,
    fun es rest hdp hn => ?_⟩
  · obtain ⟨news, rest, ret, c1, hrun, hn1, hn2, hwi, hwb, -, hidx, hfr, -⟩ :=
      fill_context_spec crc8 byte0 ctx i f hi hw hx hfp
    have hal : (ctx.win_buf.take i).length = i := by
      rw [List.length_take, hw.1]
      exact Nat.min_eq_left (le_of_lt hi)
    refine ⟨news.length, ret, c1, hrun, hn1, hwi, hidx, fun m hm => ?_⟩
    have hqm : news[m]? = some news[m] := List.getElem?_eq_getElem hm
    obtain ⟨g1, -⟩ := hfr m _ hqm
    refine ⟨news[m], ?_, g1⟩
    rw [hwb, List.append_assoc, List.getElem?_append_right (by rw [hal]; omega), hal,
      Nat.add_sub_cancel_left, List.getElem?_append_left hm]
    exact hqm
  · obtain ⟨hsome, -⟩ := context_ls_update_step crc8 ctx es hdp hx
    obtain ⟨q, hq, hshow⟩ := hsome e rest hn hfit
    refine ⟨q, { ctx with dp := some rest, win_buf := ctx.win_buf.set 0 q,
                          sent := (ctx.sent + e.d_name.length) % 2 ^ 64,
                          indx := (ctx.indx + 1) % 32 }, hq, ?_, hshow, rfl⟩
    show (ctx.win_buf.set 0 q)[0]? = some q
    rw [List.getElem?_set_self hl]
  · obtain ⟨-, hnone⟩ := context_ls_update_step crc8 ctx es hdp hx
    exact ⟨{ ctx with dp := some rest, indx := (ctx.indx + 1) % 32, end_ := 1 },
      hnone rest hn, rfl, rfl, rfl, rfl⟩

/-- C24 (amended) at the session `opened_example`, whose index is 0. -/
theorem C24_index_increments_witness :
    (∀ (i : Nat) (f : List Nat), i < WINSZ → Server.WinOk Server.opened_example →
      Server.opened_example.fp = some (f.map FRead.byte) →
      ∃ k ret ctx1,
        Server.fill_context_buf_from_index crc8_ref 0 Server.opened_example i
          = some (ret, ctx1) ∧
        1 ≤ k ∧ ctx1.win_i = i + k ∧ ctx1.indx = (Server.opened_example.indx + k) % 32 ∧
        ∀ m, m < k → ∃ q, ctx1.win_buf[i + m]? = some q ∧
          Server.DataFrame crc8_ref q ((Server.opened_example.indx + m) % 32)) ∧
    (∀ es e rest, Server.opened_example.dp = some es →
      Server.next_file es = (some e, rest) →
      (stuff e.d_name).length ≤ 62 → 0 < Server.opened_example.win_buf.length →
      ∃ q ctx1, Server.context_ls_update_with_ack crc8_ref Server.opened_example
          = some (1, ctx1) ∧
        ctx1.win_buf[0]? = some q ∧
        Server.ShowFrame crc8_ref q Server.opened_example.indx e.d_name ∧
        ctx1.indx = (Server.opened_example.indx + 1) % 32) ∧
    (∀ es rest, Server.opened_example.dp = some es → Server.next_file es = (none, rest) →
      ∃ ctx1, Server.context_ls_update_with_ack crc8_ref Server.opened_example
          = some (-1, ctx1) ∧
        ctx1.win_buf = Server.opened_example.win_buf ∧
        ctx1.win_i = Server.opened_example.win_i ∧ ctx1.end_ = 1 ∧
        ctx1.indx = (Server.opened_example.indx + 1) % 32) :=
  C24_index_increments crc8_ref 0 Server.opened_example (by decide)

/-- C25 (fails in the code): an LS request over a directory that holds only
`"."` and `".."` opens a session with `win.i = 1` whose slot 0 was never
written.  After the opening ACK, `sendwin` puts that slot on the wire: a frame
of 68 zero bytes, whose marker is `0x00`, not `0x7E`. -/
theorem C25_zero_frame_on_wire :
    Server.main_pass crc8_ref 0 (Server.fs_dir Server.dot_entries) Server.ls_request_example
        [none] = some [ack_example, zero_pkg] ∧
    pkgvalid crc8_ref Server.ls_request_example = true ∧
    raw zero_pkg = List.replicate 68 0 ∧
    zero_pkg.marker = 0x00 ∧ zero_pkg.marker ≠ 0x7E ∧ ispkg zero_pkg = false := by
  decide

/-- C27 (fails in the code): the responder never sends END in answer to the LS
request alone, and it sends the last SHOW frame twice.  Over a directory with
no regular file, the frames sent while three receive calls time out are the
opening ACK and three times the zeroed slot 0; END only follows an ACK from the
requester.  Over a directory with the regular file `"a.bin"`, after the ACK that
answers `SHOW(0, "a.bin")` the responder sends the same SHOW frame again, and
END only follows a second ACK. -/
theorem C27_ls_trace :
    Server.main_pass crc8_ref 0 (Server.fs_dir Server.dot_entries) Server.ls_request_example
        [none, none, none] = some [ack_example, zero_pkg, zero_pkg, zero_pkg] ∧
    Server.main_pass crc8_ref 0 (Server.fs_dir Server.dot_entries) Server.ls_request_example
        [some ack_example, some ack_example]
      = some [ack_example, zero_pkg, Server.end_example] ∧
    Server.main_pass crc8_ref 0 (Server.fs_dir (Server.dot_entries ++ [Server.abin_entry]))
        Server.ls_request_example [some ack_example, none]
      = some [ack_example, Server.show_abin_example, Server.show_abin_example] ∧
    Server.main_pass crc8_ref 0 (Server.fs_dir (Server.dot_entries ++ [Server.abin_entry]))
        Server.ls_request_example [some ack_example, some ack_example, some ack_example]
      = some [ack_example, Server.show_abin_example, Server.show_abin_example,
              Server.end_example] ∧
    pkginit crc8_ref 5 0 PKG_SHOW (some Server.abin_entry.d_name)
      = some Server.show_abin_example ∧
    pkginit crc8_ref 0 0 PKG_END none = some Server.end_example := by
  decide

/-! ## The responder: what every refill does to the window, on any stream -/

/-- On every stream `pkgread` returns 1 or -1 when it returns. -/
theorem pkgread_loop_ret :
    ∀ (fp : List FRead) (pkg : Pkg) (byte : Nat) (r : Int) (p : Pkg) (rest : List FRead),
      pkgread_loop pkg byte fp = some (r, p, rest) → r = 1 ∨ r = -1 := by
  intro fp
  induction fp with
  | nil =>
    intro pkg byte r p rest h
    simp only [pkgread_loop] at h
    split_ifs at h
    · simp only [Option.some.injEq, Prod.mk.injEq] at h
      exact Or.inr h.1.symm
    · simp only [Option.some.injEq, Prod.mk.injEq] at h
      exact Or.inl h.1.symm
  | cons e t ih =>
    intro pkg byte r p rest h
    cases e with
    | byte b =>
      simp only [pkgread_loop] at h
      split_ifs at h
      · cases ha : add_byte_to_pkg pkg b with
        | none => rw [ha] at h; exact absurd h (by simp)
        | some p1 =>
          rw [ha] at h
          exact ih _ _ _ _ _ h
      · simp only [Option.some.injEq, Prod.mk.injEq] at h
        exact Or.inl h.1.symm
    | fail =>
      simp only [pkgread_loop] at h
      split_ifs at h
      · cases ha : add_byte_to_pkg pkg byte with
        | none => rw [ha] at h; exact absurd h (by simp)
        | some p1 =>
          rw [ha] at h
          exact ih _ _ _ _ _ h
      · simp only [Option.some.injEq, Prod.mk.injEq] at h
        exact Or.inl h.1.symm

/-- One pass of the loop of `fill_context_buf_from_index`, on any stream: when the
loop returns, the pass has put a frame with the current index into slot `i`
and advanced the index. -/
theorem fill_loop_pass (crc8 : List Nat → Nat) (byte0 fuel : Nat) (ctx : Server.Context)
    (i : Nat) (ret : Int) (c : Server.Context) (i1 : Nat) (r : Int)
    (hcond : i < WINSZ ∧ ret > 0) (hx : ctx.indx < 32)
    (h : Server.fill_loop crc8 byte0 (fuel + 1) ctx i ret = some (c, i1, r)) :
    ∃ q r1 ctx2, (r1 = 1 ∨ r1 = -1) ∧ i < ctx.win_buf.length ∧ q.indx = ctx.indx ∧
      ctx2.indx = (ctx.indx + 1) % 32 ∧ ctx2.win_buf = ctx.win_buf.set i q ∧
      ctx2.type = ctx.type ∧ ctx2.end_ = ctx.end_ ∧ ctx2.completed = ctx.completed ∧
      ctx2.win_i = ctx.win_i ∧ ctx2.dp = ctx.dp ∧
      Server.fill_loop crc8 byte0 fuel ctx2 (i + 1) r1 = some (c, i1, r) := by
  cases hfp : ctx.fp with
  | none => simp [Server.fill_loop, hcond, hfp] at h
  | some fp =>
    cases hs : ctx.win_buf[i]? with
    | none => simp [Server.fill_loop, hcond, hfp, hs] at h
    | some slot =>
      cases hrd : pkgread slot byte0 fp with
      | none => simp [Server.fill_loop, hcond, hfp, hs, hrd] at h
      | some res =>
        obtain ⟨r1, p, rest⟩ := res
        have hr1 : r1 = 1 ∨ r1 = -1 := pkgread_loop_ret fp _ byte0 r1 p rest hrd
        have hr0 : r1 ≠ 0 := by rcases hr1 with g | g <;> rw [g] <;> decide
        have hil : i < ctx.win_buf.length := by
          by_contra hn
          rw [List.getElem?_eq_none (by omega)] at hs
          exact absurd hs (by simp)
        simp only [Server.fill_loop, hcond, and_self, if_true, hfp, hs, hrd, hr0, ne_eq,
          not_false_eq_true] at h
        rw [server_incindx_lt _ (by exact hx)] at h
        simp only [List.set_set] at h
        refine ⟨Server.initpkg_data_meta crc8 p ctx.indx, r1, _, hr1, hil, ?_, ?_, ?_, ?_, ?_,
          ?_, ?_, ?_, h⟩
        · show ctx.indx % 32 = ctx.indx
          exact Nat.mod_eq_of_lt hx
        all_goals rfl

/-- The loop of `fill_context_buf_from_index` on any stream, whenever it
returns: the slots below `i` are untouched, the slots `i .. i1 - 1` carry the
indices `j, j + 1, ...` modulo 32 (`j` the index before), the index has advanced
by `i1 - i`, and a loop that made a pass stopped at the end of the window or of
the stream. -/
theorem fill_loop_rel (crc8 : List Nat → Nat) (byte0 : Nat) :
    ∀ (fuel : Nat) (ctx : Server.Context) (i : Nat) (ret : Int) (c : Server.Context)
      (i1 : Nat) (r : Int),
      Server.fill_loop crc8 byte0 fuel ctx i ret = some (c, i1, r) → ctx.indx < 32 →
      i ≤ i1 ∧ (i1 ≤ WINSZ ∨ i1 = i) ∧ c.indx = (ctx.indx + (i1 - i)) % 32 ∧
      c.win_buf.length = ctx.win_buf.length ∧
      (∀ m, m < i → c.win_buf[m]? = ctx.win_buf[m]?) ∧
      (∀ m, i ≤ m → m < i1 → ∃ q, c.win_buf[m]? = some q ∧
        q.indx = (ctx.indx + (m - i)) % 32) ∧
      (i < WINSZ ∧ ret > 0 → i < i1 ∧ (r = 1 ∧ i1 = WINSZ ∨ r = -1)) ∧
      (¬ (i < WINSZ ∧ ret > 0) → i1 = i ∧ r = ret) ∧
      c.type = ctx.type ∧ c.end_ = ctx.end_ ∧ c.completed = ctx.completed ∧
      c.win_i = ctx.win_i ∧ c.dp = ctx.dp := by
  have stop : ∀ (fuel : Nat) (ctx : Server.Context) (i : Nat) (ret : Int)
      (c : Server.Context) (i1 : Nat) (r : Int), ¬ (i < WINSZ ∧ ret > 0) →
      Server.fill_loop crc8 byte0 fuel ctx i ret = some (c, i1, r) → ctx.indx < 32 →
      i ≤ i1 ∧ (i1 ≤ WINSZ ∨ i1 = i) ∧ c.indx = (ctx.indx + (i1 - i)) % 32 ∧
      c.win_buf.length = ctx.win_buf.length ∧
      (∀ m, m < i → c.win_buf[m]? = ctx.win_buf[m]?) ∧
      (∀ m, i ≤ m → m < i1 → ∃ q, c.win_buf[m]? = some q ∧
        q.indx = (ctx.indx + (m - i)) % 32) ∧
      (i < WINSZ ∧ ret > 0 → i < i1 ∧ (r = 1 ∧ i1 = WINSZ ∨ r = -1)) ∧
      (¬ (i < WINSZ ∧ ret > 0) → i1 = i ∧ r = ret) ∧
      c.type = ctx.type ∧ c.end_ = ctx.end_ ∧ c.completed = ctx.completed ∧
      c.win_i = ctx.win_i ∧ c.dp = ctx.dp := by
    intro fuel ctx i ret c i1 r hcond h hx
    rw [fill_loop_stop crc8 byte0 fuel ctx i ret hcond] at h
    simp only [Option.some.injEq, Prod.mk.injEq] at h
    obtain ⟨h1, h2, h3⟩ := h
    subst h1; subst h2; subst h3
    refine ⟨le_refl _, Or.inr rfl, ?_, rfl, fun _ _ => rfl, fun m g1 g2 => ?_,
      fun g => absurd g hcond, fun _ => ⟨rfl, rfl⟩, rfl, rfl, rfl, rfl, rfl⟩
    · simp only [Nat.sub_self, Nat.add_zero]
      exact (Nat.mod_eq_of_lt hx).symm
    · omega
  intro fuel
  induction fuel with
  | zero =>
    intro ctx i ret c i1 r h hx
    by_cases hcond : i < WINSZ ∧ ret > 0
    · simp [Server.fill_loop, hcond] at h
    · exact stop 0 ctx i ret c i1 r hcond h hx
  | succ n ih =>
    intro ctx i ret c i1 r h hx
    by_cases hcond : i < WINSZ ∧ ret > 0
    · obtain ⟨q, r1, ctx2, hr1, hil, hqi, e1, e2, e3, e4, e5, e6, e7, hrun⟩ :=
        fill_loop_pass crc8 byte0 n ctx i ret c i1 r hcond hx h
      have hx2 : ctx2.indx < 32 := by rw [e1]; omega
      obtain ⟨a1, a2, a3, a4, a5, a6, a7, a8, b1, b2, b3, b4, b5⟩ :=
        ih ctx2 (i + 1) r1 c i1 r hrun hx2
      have hW := hcond.1
      refine ⟨by omega, ?_, ?_, ?_, ?_, ?_, ?_, fun g => absurd hcond g, b1.trans e3,
        b2.trans e4, b3.trans e5, b4.trans e6, b5.trans e7⟩
      · rcases a2 with g | g
        · exact Or.inl g
        · exact Or.inl (by omega)
      · rw [a3, e1]; omega
      · rw [a4, e2, List.length_set]
      · intro m hm
        rw [a5 m (by omega), e2, List.getElem?_set_ne (by omega)]
      · intro m g1 g2
        by_cases hmi : m = i
        · subst hmi
          refine ⟨q, ?_, ?_⟩
          · rw [a5 m (by omega), e2, List.getElem?_set_self hil]
          · rw [hqi, Nat.sub_self, Nat.add_zero]
            exact (Nat.mod_eq_of_lt hx).symm
        · obtain ⟨x, hx1, hx2⟩ := a6 m (by omega) g2
          refine ⟨x, hx1, ?_⟩
          rw [hx2, e1]; omega
      · intro _
        refine ⟨by omega, ?_⟩
        by_cases hnext : i + 1 < WINSZ ∧ r1 > 0
        · exact (a7 hnext).2
        · obtain ⟨g1, g2⟩ := a8 hnext
          rcases hr1 with g | g
          · left
            refine ⟨by rw [g2, g], ?_⟩
            have : ¬ (i + 1 < WINSZ) := fun hlt => hnext ⟨hlt, by rw [g]; decide⟩
            omega
          · right; rw [g2, g]
    · exact stop (n + 1) ctx i ret c i1 r hcond h hx

/-- The function `fill_context_buf_from_index` started at a slot `i < WINSZ`, on
any stream, whenever it returns. -/
theorem fill_context_rel (crc8 : List Nat → Nat) (byte0 : Nat) (ctx : Server.Context)
    (i : Nat) (r : Int) (c : Server.Context)
    (h : Server.fill_context_buf_from_index crc8 byte0 ctx i = some (r, c))
    (hx : ctx.indx < 32) (hi : i < WINSZ) :
    i < c.win_i ∧ c.win_i ≤ WINSZ ∧ c.indx = (ctx.indx + (c.win_i - i)) % 32 ∧
      c.win_buf.length = ctx.win_buf.length ∧
      (∀ m, m < i → c.win_buf[m]? = ctx.win_buf[m]?) ∧
      (∀ m, i ≤ m → m < c.win_i → ∃ q, c.win_buf[m]? = some q ∧
        q.indx = (ctx.indx + (m - i)) % 32) ∧
      (r = 1 ∧ c.win_i = WINSZ ∧ c.end_ = ctx.end_ ∨ r = -1 ∧ c.end_ = 1) ∧
      c.type = ctx.type ∧ c.completed = ctx.completed := by
  unfold Server.fill_context_buf_from_index at h
  cases hl : Server.fill_loop crc8 byte0 WINSZ ctx i 1 with
  | none => rw [hl] at h; exact absurd h (by simp)
  | some res =>
    obtain ⟨c1, i1, ret⟩ := res
    rw [hl] at h
    obtain ⟨a1, a2, a3, a4, a5, a6, a7, -, b1, b2, b3, -, -⟩ :=
      fill_loop_rel crc8 byte0 WINSZ ctx i 1 c1 i1 ret hl hx
    obtain ⟨g1, g2⟩ := a7 ⟨hi, by decide⟩
    have hle : i1 ≤ WINSZ := by
      rcases a2 with g | g
      · exact g
      · omega
    rcases g2 with ⟨g3, g4⟩ | g3
    · have hneg : ¬ ret < 0 := by rw [g3]; decide
      simp only [hneg, if_false, Option.some.injEq, Prod.mk.injEq] at h
      obtain ⟨h1, h2⟩ := h
      subst h2
      exact ⟨g1, hle, a3, a4, a5, a6, Or.inl ⟨by rw [← h1, g3], g4, b2⟩, b1, b3⟩
    · have hneg : ret < 0 := by rw [g3]; decide
      simp only [hneg, if_true, Option.some.injEq, Prod.mk.injEq] at h
      obtain ⟨h1, h2⟩ := h
      subst h2
      exact ⟨g1, hle, a3, a4, a5, a6, Or.inr ⟨by rw [← h1, g3], rfl⟩, b1, b3⟩

theorem mem_of_getElem_some {α : Type} (l : List α) (n : Nat) (x : α) (h : l[n]? = some x) :
    x ∈ l := by
  have hlt : n < l.length := by
    by_contra hn
    rw [List.getElem?_eq_none (by omega)] at h
    exact absurd h (by simp)
  rw [List.getElem?_eq_getElem hlt] at h
  injection h with h
  rw [← h]
  exact List.getElem_mem hlt

/-- In a window none of whose frames has an index other than 0, `find_nack_pkg`
can only report position 0. -/
theorem find_nack_pkg_fresh (ctx : Server.Context) (n p : Nat)
    (hl : ctx.win_buf.length = WINSZ) (hz : ∀ q ∈ ctx.win_buf, q.indx = 0)
    (h : Server.find_nack_pkg ctx n = some p) : p = 0 := by
  obtain ⟨-, q, hq, hqn⟩ := find_nack_pkg_some ctx n p h
  have hn : n = 0 := by rw [← hqn]; exact hz q (mem_of_getElem_some _ _ _ hq)
  subst hn
  have h0 : 0 < ctx.win_buf.length := by rw [hl]; decide
  have hs : ctx.win_buf[0]? = some ctx.win_buf[0] := List.getElem?_eq_getElem h0
  have hi : (ctx.win_buf[0]).indx = 0 := hz _ (List.getElem_mem h0)
  have hr : List.range WINSZ = [0, 1, 2, 3, 4] := by decide
  unfold Server.find_nack_pkg at h
  rw [hr] at h
  simp only [List.find?_cons, hs, hi, beq_self_eq_true, Option.some.injEq] at h
  exact h.symm

/-- One call of `context_ls_update_with_ack`, whenever it returns: the window
keeps its size and its fill, the index stays below 32. -/
theorem context_ls_update_rel (crc8 : List Nat → Nat) (ctx c : Server.Context) (r : Int)
    (h : Server.context_ls_update_with_ack crc8 ctx = some (r, c)) (hx : ctx.indx < 32) :
    c.win_i = ctx.win_i ∧ c.win_buf.length = ctx.win_buf.length ∧ c.indx < 32 ∧
      c.type = ctx.type ∧ r ≠ 0 := by
  unfold Server.context_ls_update_with_ack at h
  cases hdp : ctx.dp with
  | none => rw [hdp] at h; exact absurd h (by simp)
  | some es =>
    rw [hdp] at h
    simp only [] at h
    cases hn : (Server.next_file es).1 with
    | none =>
      rw [hn] at h
      simp only [] at h
      rw [server_incindx_lt _ (by exact hx)] at h
      simp only [Option.some.injEq, Prod.mk.injEq] at h
      obtain ⟨h1, h2⟩ := h
      subst h2
      exact ⟨rfl, rfl, Nat.mod_lt _ (by decide), rfl, by rw [← h1]; decide⟩
    | some e =>
      rw [hn] at h
      simp only [] at h
      cases hq : pkginit crc8 e.d_name.length ctx.indx PKG_SHOW (some e.d_name) with
      | none => rw [hq] at h; exact absurd h (by simp)
      | some q =>
        rw [hq] at h
        simp only [] at h
        rw [server_incindx_lt _ (by exact hx)] at h
        simp only [Option.some.injEq, Prod.mk.injEq] at h
        obtain ⟨h1, h2⟩ := h
        subst h2
        exact ⟨rfl, by simp, Nat.mod_lt _ (by decide), rfl, by rw [← h1]; decide⟩

/-! ## Claims about the responder's window in every reachable session -/

/-- C21 (fails in the code): with `end` set, a NACK whose index is carried by no
frame of the filled part of the window does not always complete the session,
because `find_nack_pkg` also looks at the slots beyond `win.i`.  A DOWNLOAD
request for an asset of 127 zero bytes, an ACK (three DATA frames, indices 0, 1
and 2, `end` set) and a NACK for index 2 (the third frame moves to slot 0,
`win.i = 1`) lead to a session whose slots carry the indices 2, 1, 2, 0, 0.
Index 1 is not in the filled part, which is slot 0 alone, yet `find_nack_pkg`
reports it at position 1: `context_update` on a NACK for index 1 returns 1, not
-1, leaves `completed` clear and sets `win.i` to 0. -/
theorem C21_nack_outside_window :
    Server.tail_example.map
        (fun c => (c.win_i, c.end_, c.completed, c.win_buf.map (fun q => q.indx)))
      = some (1, 1, 0, [2, 1, 2, 0, 0]) ∧
    Server.tail_example.map (fun c => Server.find_nack_pkg c 1) = some (some 1) ∧
    (Server.tail_example.bind
        (fun c => Server.context_update crc8_ref 0 c Server.nack1_example)).map
        (fun r => (r.1, r.2.win_i, r.2.completed)) = some (1, 0, 0) ∧
    Server.nack1_example.type = PKG_NACK ∧ Server.nack1_example.indx = 1 ∧
    pkgvalid crc8_ref Server.nack1_example = true := by
  decide

/-- C22 (fails in the code): the run of C20, a DOWNLOAD request for an asset of
64 zero bytes followed by a valid ACK, a valid NACK for index 1 and a valid NACK
for index 0, is a sequence of replies on which every call of `context_update`
returns.  In the session it leaves, `win.i` is `2 ^ 64 - 1`, so slots 0 and 1
both lie below `win.i`, and both hold a frame with index 1. -/
theorem C22_window_indices_repeat :
    (Server.session_after crc8_ref 0 (Server.fs_single (List.replicate 64 0))
        Server.request_example [ack_example, Server.nack1_example, Server.nack0_example]).map
        (fun c => (c.win_i, c.win_buf.map (fun q => q.indx)))
      = some (18446744073709551615, [1, 1, 0, 0, 0]) ∧
    (∃ c m1 m2 q1 q2,
      Server.session_after crc8_ref 0 (Server.fs_single (List.replicate 64 0))
        Server.request_example [ack_example, Server.nack1_example, Server.nack0_example]
        = some c ∧
      m1 < m2 ∧ m2 < c.win_i ∧ c.win_buf[m1]? = some q1 ∧ c.win_buf[m2]? = some q2 ∧
      q1.indx = q2.indx) ∧
    pkgvalid crc8_ref ack_example = true ∧ pkgvalid crc8_ref Server.nack1_example = true ∧
    pkgvalid crc8_ref Server.nack0_example = true := by
  have hp : (Server.session_after crc8_ref 0 (Server.fs_single (List.replicate 64 0))
      Server.request_example [ack_example, Server.nack1_example, Server.nack0_example]).map
      (fun c => (c.win_i, c.win_buf.map (fun q => q.indx)))
      = some (18446744073709551615, [1, 1, 0, 0, 0]) := by decide
  refine ⟨hp, ?_, by decide, by decide, by decide⟩
  cases hc : Server.session_after crc8_ref 0 (Server.fs_single (List.replicate 64 0))
      Server.request_example [ack_example, Server.nack1_example, Server.nack0_example] with
  | none => rw [hc] at hp; exact absurd hp (by simp)
  | some c =>
    rw [hc] at hp
    simp only [Option.map_some', Option.some.injEq, Prod.mk.injEq] at hp
    obtain ⟨hwi, hidx⟩ := hp
    cases hb : c.win_buf with
    | nil => rw [hb] at hidx; exact absurd hidx (by simp)
    | cons q1 t =>
      cases ht : t with
      | nil => rw [hb, ht] at hidx; exact absurd hidx (by simp)
      | cons q2 u =>
        rw [hb, ht] at hidx
        simp only [List.map_cons, List.cons.injEq] at hidx
        refine ⟨c, 0, 1, q1, q2, rfl, by decide, by rw [hwi]; decide, ?_, ?_, ?_⟩
        · rw [hb]; simp
        · rw [hb, ht]; simp
        · rw [hidx.1, hidx.2.1]

/-- C23 (fails in the code): on the run of C20, a DOWNLOAD request for an asset
of 64 zero bytes followed by a valid ACK, a valid NACK for index 1 and a valid
NACK for index 0, the last call of `context_update` returns 1 and stores
`win.i - failed = 1 - 2` in `win.i`: the session it leaves has
`win.i = 2 ^ 64 - 1`, which exceeds `WINSZ = 5`, with `completed` clear. -/
theorem C23_window_fill_overflow :
    (Server.session_after crc8_ref 0 (Server.fs_single (List.replicate 64 0))
        Server.request_example [ack_example, Server.nack1_example]).map
        (fun c => (c.win_i, c.end_, Server.find_nack_pkg c 0)) = some (1, 1, some 2) ∧
    (Server.session_after crc8_ref 0 (Server.fs_single (List.replicate 64 0))
        Server.request_example [ack_example, Server.nack1_example, Server.nack0_example]).map
        (fun c => (c.win_i, c.completed, c.win_buf.length))
      = some (18446744073709551615, 0, 5) ∧
    WINSZ = 5 ∧ ¬ (18446744073709551615 ≤ WINSZ) ∧
    Server.nack0_example.type = PKG_NACK ∧ Server.nack0_example.indx = 0 ∧
    pkgvalid crc8_ref Server.nack0_example = true := by
  decide

/-! ## Claims about the dispatcher, `pkgread` and `get_asset_path` -/

/-- The bytes `pkgvalid` checks do not include the marker. -/
theorem pkgvalid_marker (crc8 : List Nat → Nat) (pkg : Pkg) (m : Nat) :
    pkgvalid crc8 { pkg with marker := m } = pkgvalid crc8 pkg := by
  simp [pkgvalid, crc_region, raw]

/-- C31 (fails in the code): `main` receives with `pkgrecv(&pkg, sock, 0)`, which
returns 1 for every buffer and whose result `main` does not read, and then tests
`pkgvalid` and `iscontext` only.  One pass of `main` is the same whatever byte 0
of the buffer is; the LS request with byte 0 cleared passes `pkgvalid` and opens
a session over the directory with the file `"a.bin"`: the opening ACK and the
SHOW frame are sent. -/
theorem C31_unmarked_request_opens_session :
    (∀ (crc8 : List Nat → Nat) (byte0 : Nat) (fs : Server.FileSys) (pkg : Pkg) (m : Nat)
        (evs : List (Option Pkg)),
      Server.main_pass crc8 byte0 fs { pkg with marker := m } evs
        = Server.main_pass crc8 byte0 fs pkg evs) ∧
    Server.unmarked_ls_example.marker = 0x00 ∧ ispkg Server.unmarked_ls_example = false ∧
    pkgvalid crc8_ref Server.unmarked_ls_example = true ∧
    Server.main_pass crc8_ref 0 (Server.fs_dir (Server.dot_entries ++ [Server.abin_entry]))
        Server.unmarked_ls_example [none]
      = some [ack_example, Server.show_abin_example] := by
  refine ⟨?_, by decide, by decide, by decide, by decide⟩
  intro crc8 byte0 fs pkg m evs
  simp only [Server.main_pass, pkgvalid_marker, Server.iscontext, Server.context_init,
    Server.context_init_download]

/-- C35 (fails in the code): `pkgread` never returns 0.  When `fread` fails
without end of file the loop goes on to `add_byte_to_pkg` with the byte of the
previous read: on the stream that delivers `0x41`, then fails once, then is
at end of file, `pkgread` returns -1 with `size = 2` and the content `41 41`. -/
theorem C35_pkgread_read_failure :
    (∀ (fp : List FRead) (pkg : Pkg) (byte0 : Nat) (r : Int) (p : Pkg) (rest : List FRead),
      pkgread pkg byte0 fp = some (r, p, rest) → r = 1 ∨ r = -1) ∧
    pkgread zero_pkg 0 [FRead.byte 0x41, FRead.fail]
      = some (-1, { zero_pkg with size := 2, content := [0x41, 0x41] ++ List.replicate 61 0 },
          []) ∧
    pkgread zero_pkg 0 [FRead.byte 0x41]
      = some (-1, { zero_pkg with size := 1, content := [0x41] ++ List.replicate 62 0 },
          []) := by
  refine ⟨?_, by decide, by decide⟩
  intro fp pkg byte0 r p rest h
  exact pkgread_loop_ret fp _ byte0 r p rest h

/-- C40 (fails in the code): `get_asset_path` allocates `n + sizeof ASSETS_PATH`,
that is `n + 10`, bytes and stores the terminator at index
`sizeof ASSETS_PATH + n`, which is the size of the allocation, one past its
last byte, for every name and every `n`.  For the name `"f"` with `n = 1` the
allocation has 11 bytes and the store goes to index 11; the buffer holds
`./assets/f` and a zero byte all the same, because `calloc` zeroed it. -/
theorem C40_get_asset_path_terminator :
    (∀ (name : List Nat) (n : Nat),
      (Server.get_asset_path name n).alloc = n + 10 ∧
      (Server.get_asset_path name n).nul_at = (Server.get_asset_path name n).alloc ∧
      ¬ ((Server.get_asset_path name n).nul_at < (Server.get_asset_path name n).alloc)) ∧
    (Server.get_asset_path [102] 1).alloc = 11 ∧
    (Server.get_asset_path [102] 1).nul_at = 11 ∧
    (Server.get_asset_path [102] 1).path = [46, 47, 97, 115, 115, 101, 116, 115, 47, 102, 0] := by
  refine ⟨?_, by decide, by decide, by decide⟩
  intro name n
  have h1 : (Server.get_asset_path name n).alloc = n + 10 := rfl
  have h2 : (Server.get_asset_path name n).nul_at = 10 + n := rfl
  exact ⟨h1, by rw [h1, h2]; omega, by rw [h1, h2]; omega⟩

/-! ## `pkgread` on every stream -/

/-- One call of `add_byte_to_pkg` on a frame with a free slot: it writes one
or two cells, all below the new `size`. -/
theorem add_byte_any (pkg : Pkg) (b : Nat) (hlen : pkg.content.length = 63)
    (h : pkg.size < 63) :
    ∃ p, add_byte_to_pkg pkg b = some p ∧ p.content.length = 63 ∧
      pkg.size + 1 ≤ p.size ∧ p.size ≤ pkg.size + 2 ∧ p.size ≤ 63 ∧
      p.content.drop p.size = pkg.content.drop p.size ∧
      p.marker = pkg.marker ∧ p.indx = pkg.indx ∧ p.type = pkg.type ∧ p.crc8 = pkg.crc8 := by
  refine ⟨_, add_byte_to_pkg_eq pkg b h, ?_⟩
  by_cases hs : is_sentinel b = true ∧ pkg.size + 1 < 63
  · rw [if_pos hs]
    refine ⟨by simp [hlen], by simp, by simp, by simp only []; omega, ?_, rfl, rfl, rfl, rfl⟩
    simp only []
    rw [List.drop_set_of_lt _ _ (by omega), List.drop_set_of_lt _ _ (by omega)]
  · rw [if_neg hs]
    refine ⟨by simp [hlen], by simp, by simp, by simp only []; omega, ?_, rfl, rfl, rfl, rfl⟩
    simp only []
    rw [List.drop_set_of_lt _ _ (by omega)]

/-- The loop of `pkgread` on any stream of read outcomes: it returns, having
used at most as many outcomes as there were free cells; every outcome used
wrote one or two cells, all below the final `size`, which is at most 63. -/
theorem pkgread_loop_any :
    ∀ (fp : List FRead) (pkg : Pkg) (byte : Nat), pkg.content.length = 63 → pkg.size ≤ 63 →
      ∃ r p rest used, pkgread_loop pkg byte fp = some (r, p, rest) ∧ fp = used ++ rest ∧
        pkg.size + used.length ≤ p.size ∧ p.size ≤ pkg.size + 2 * used.length ∧
        p.size ≤ 63 ∧ p.content.length = 63 ∧
        p.content.drop p.size = pkg.content.drop p.size ∧
        (r = 1 ∧ p.size = 63 ∨ r = -1 ∧ rest = [] ∧ p.size < 63) ∧
        p.marker = pkg.marker ∧ p.indx = pkg.indx ∧ p.type = pkg.type ∧
        p.crc8 = pkg.crc8 := by
  intro fp
  induction fp with
  | nil =>
    intro pkg byte hlen hsz
    by_cases h : pkg.size < 63
    · exact ⟨-1, pkg, [], [], by simp [pkgread_loop, h], rfl, by simp, by simp, hsz, hlen, rfl,
        Or.inr ⟨rfl, rfl, h⟩, rfl, rfl, rfl, rfl⟩
    · exact ⟨1, pkg, [], [], by simp [pkgread_loop, h], rfl, by simp, by simp, hsz, hlen, rfl,
        Or.inl ⟨rfl, by omega⟩, rfl, rfl, rfl, rfl⟩
  | cons e t ih =>
    intro pkg byte hlen hsz
    by_cases h : pkg.size < 63
    · have key : ∀ b : Nat, (∀ x : Option (Int × Pkg × List FRead),
          (match add_byte_to_pkg pkg b with
            | none => none
            | some p1 => pkgread_loop p1 b t) = x → pkgread_loop pkg byte (e :: t) = x) →
          ∃ r p rest used, pkgread_loop pkg byte (e :: t) = some (r, p, rest) ∧
            e :: t = used ++ rest ∧
            pkg.size + used.length ≤ p.size ∧ p.size ≤ pkg.size + 2 * used.length ∧
            p.size ≤ 63 ∧ p.content.length = 63 ∧
            p.content.drop p.size = pkg.content.drop p.size ∧
            (r = 1 ∧ p.size = 63 ∨ r = -1 ∧ rest = [] ∧ p.size < 63) ∧
            p.marker = pkg.marker ∧ p.indx = pkg.indx ∧ p.type = pkg.type ∧
            p.crc8 = pkg.crc8 := by
        intro b hrun
        obtain ⟨p1, hp1, a1, a2, a3, a4, a5, a6, a7, a8, a9⟩ := add_byte_any pkg b hlen h
        obtain ⟨r, p, rest, used, hr, hu, b1, b2, b3, b4, b5, b6, b7, b8, b9, b10⟩ :=
          ih p1 b a1 a4
        refine ⟨r, p, rest, e :: used, ?_, by rw [hu]; rfl, ?_, ?_, b3, b4, ?_, b6,
          b7.trans a6, b8.trans a7, b9.trans a8, b10.trans a9⟩
        · apply hrun
          rw [hp1]
          exact hr
        · simp only [List.length_cons]; omega
        · simp only [List.length_cons]; omega
        · rw [b5]
          exact drop_eq_of_le _ _ p1.size p.size (by omega) a5
      cases e with
      | byte b =>
        apply key b
        intro x hx
        simp only [pkgread_loop, h, if_true]
        exact hx
      | fail =>
        apply key byte
        intro x hx
        simp only [pkgread_loop, h, if_true]
        exact hx
    · exact ⟨1, pkg, e :: t, [], by simp [pkgread_loop, h], rfl, by simp, by simp, hsz, hlen,
        rfl, Or.inl ⟨rfl, by omega⟩, rfl, rfl, rfl, rfl⟩

/-- The function `pkgread` on any stream. -/
theorem pkgread_any (fp : List FRead) (pkg : Pkg) (byte0 : Nat)
    (hlen : pkg.content.length = 63) :
    ∃ r p rest used, pkgread pkg byte0 fp = some (r, p, rest) ∧ fp = used ++ rest ∧
      used.length ≤ 63 ∧ used.length ≤ p.size ∧ p.size ≤ 2 * used.length ∧ p.size ≤ 63 ∧
      p.content.length = 63 ∧ p.content.drop p.size = pkg.content.drop p.size ∧
      (r = 1 ∧ p.size = 63 ∨ r = -1 ∧ rest = [] ∧ p.size < 63) ∧
      p.marker = pkg.marker ∧ p.indx = pkg.indx ∧ p.type = pkg.type ∧ p.crc8 = pkg.crc8 := by
  obtain ⟨r, p, rest, used, hr, hu, b1, b2, b3, b4, b5, b6, b7, b8, b9, b10⟩ :=
    pkgread_loop_any fp { pkg with size := 0 } byte0 hlen (Nat.zero_le _)
  simp only [Nat.zero_add] at b1 b2
  exact ⟨r, p, rest, used, hr, hu, by omega, b1, b2, b3, b4, b5, b6, b7, b8, b9, b10⟩

/-- A buffer whose stuffed image has at most 63 bytes goes through the stuffing
loop of `pkginit` without leaving the content area. -/
theorem add_bytes_fits (indx type : Nat) (s : List Nat) (hfit : (stuff s).length ≤ 63) :
    ∃ p, add_bytes (pkginit_blank indx type) s = some p ∧ p.size = (stuff s).length ∧
      payload p = stuff s := by
  have hfit1 : s ≠ [] → (pkginit_blank indx type).size + (stuff s.dropLast).length ≤ 62 := by
    intro hne
    obtain ⟨b, hb⟩ : ∃ b, s = s.dropLast ++ [b] :=
      ⟨s.getLast hne, (List.dropLast_append_getLast hne).symm⟩
    have h1 := stuff_length s
    have h2 := stuff_length s.dropLast
    have h3 : s.length = s.dropLast.length + 1 := by
      conv_lhs => rw [hb]
      simp
    have h4 : s.dropLast.countP is_sentinel ≤ s.countP is_sentinel :=
      List.Sublist.countP_le _ (List.dropLast_sublist s)
    simp only [pkginit_blank]
    omega
  obtain ⟨p, hp, -, -, -, -, -, -, -, hpay⟩ :=
    add_bytes_spec s (pkginit_blank indx type) [] (pkginit_blank_stuffed indx type) hfit1
  obtain ⟨e1, e2⟩ := hpay (by simp only [pkginit_blank]; omega)
  exact ⟨p, hp, by simpa [pkginit_blank] using e1, by simpa [pkginit_blank, payload] using e2⟩

/-! ## Claims about frames that are always valid, and about `pkgread` -/

/-- C37: for any function `crc8`, every frame `pkginit` returns has marker `0x7E`
and passes `pkgvalid`; `pkginit` does return one for every type and index without
a buffer, and with a buffer `s` (passed with its length) whose stuffed image fits
the 63 content bytes.  Likewise, for every stream, `pkgread` into a slot returns
a frame, and that frame completed by `initpkg_data_meta` has marker `0x7E`, type
DATA and passes `pkgvalid`. -/
theorem C37_frames_valid (crc8 : List Nat → Nat) :
    (∀ (size indx type : Nat) (buf : Option (List Nat)) (p : Pkg),
      pkginit crc8 size indx type buf = some p →
      p.marker = 0x7E ∧ pkgvalid crc8 p = true) ∧
    (∀ size indx type : Nat, ∃ p, pkginit crc8 size indx type none = some p) ∧
    (∀ (indx type : Nat) (s : List Nat), (stuff s).length ≤ 63 →
      ∃ p, pkginit crc8 s.length indx type (some s) = some p ∧
        p.marker = 0x7E ∧ pkgvalid crc8 p = true) ∧
    (∀ (fp : List FRead) (slot : Pkg) (byte0 indx : Nat), slot.content.length = 63 →
      ∃ r p rest, pkgread slot byte0 fp = some (r, p, rest) ∧
        (Server.initpkg_data_meta crc8 p indx).marker = 0x7E ∧
        (Server.initpkg_data_meta crc8 p indx).type = PKG_DATA ∧
        pkgvalid crc8 (Server.initpkg_data_meta crc8 p indx) = true) := by
  have first : ∀ (size indx type : Nat) (buf : Option (List Nat)) (p : Pkg),
      pkginit crc8 size indx type buf = some p →
      p.marker = 0x7E ∧ pkgvalid crc8 p = true := by
    intro size indx type buf p h
    obtain ⟨-, -, hm, -⟩ := pkginit_sealed crc8 size indx type buf p h
    exact ⟨hm, pkginit_valid crc8 size indx type buf p h⟩
  refine ⟨first, fun size indx type => ⟨_, pkginit_null crc8 size indx type⟩, ?_, ?_⟩
  · intro indx type s hfit
    obtain ⟨q, hq, -, -⟩ := add_bytes_fits indx type s hfit
    have hl : s.length ≤ 63 := by have := stuff_length s; omega
    have hmod : s.length % 256 = s.length := by omega
    have hq0 := hq
    simp only [pkginit_blank] at hq0
    have hinit : pkginit crc8 s.length indx type (some s) =
        some { q with size := (q.size + 1) % 64,
                      crc8 := crc8 (crc_region { q with size := (q.size + 1) % 64 }) % 256 } := by
      simp only [pkginit, hmod, List.take_length, le_refl, if_true, hq0]
    exact ⟨_, hinit, first _ _ _ _ _ hinit⟩
  · intro fp slot byte0 indx hlen
    obtain ⟨r, p, rest, -, hr, -, -, -, -, hsz, hpl, -⟩ := pkgread_any fp slot byte0 hlen
    obtain ⟨⟨g1, g2, -, g4, -⟩, -⟩ := initpkg_data_meta_frame crc8 p indx hpl hsz
    exact ⟨r, p, rest, hr, g1, g2, g4⟩

/-- C38: for every stream of read outcomes and every slot, `pkgread` returns;
it has used at most 63 read outcomes; no write leaves the content area (the
content keeps its 63 bytes and the cells from the final `size` on are as they
were); the final `size` is at most 63, at least the number of outcomes used and
at most twice that number (one cell per byte, two for a stuffed sentinel), so the
6-bit field did not wrap. -/
theorem C38_pkgread_bounded (fp : List FRead) (pkg : Pkg) (byte0 : Nat)
    (hlen : pkg.content.length = 63) :
    ∃ r p rest used, pkgread pkg byte0 fp = some (r, p, rest) ∧ fp = used ++ rest ∧
      used.length ≤ 63 ∧ used.length ≤ p.size ∧ p.size ≤ 2 * used.length ∧ p.size ≤ 63 ∧
      p.content.length = 63 ∧ p.content.drop p.size = pkg.content.drop p.size ∧
      (r = 1 ∧ p.size = 63 ∨ r = -1 ∧ rest = [] ∧ p.size < 63) := by
  obtain ⟨r, p, rest, used, hr, hu, a1, a2, a3, a4, a5, a6, a7, -⟩ :=
    pkgread_any fp pkg byte0 hlen
  exact ⟨r, p, rest, used, hr, hu, a1, a2, a3, a4, a5, a6, a7⟩

/-- C38 at the zeroed slot and the stream that delivers `0x88`, fails once and
delivers `0x00`. -/
theorem C38_pkgread_bounded_witness :
    ∃ r p rest used,
      pkgread zero_pkg 0 [FRead.byte 0x88, FRead.fail, FRead.byte 0x00] = some (r, p, rest) ∧
      [FRead.byte 0x88, FRead.fail, FRead.byte 0x00] = used ++ rest ∧
      used.length ≤ 63 ∧ used.length ≤ p.size ∧ p.size ≤ 2 * used.length ∧ p.size ≤ 63 ∧
      p.content.length = 63 ∧ p.content.drop p.size = zero_pkg.content.drop p.size ∧
      (r = 1 ∧ p.size = 63 ∨ r = -1 ∧ rest = [] ∧ p.size < 63) :=
  C38_pkgread_bounded [FRead.byte 0x88, FRead.fail, FRead.byte 0x00] zero_pkg 0 (by decide)

/-! ## Claims about the bounds of `pkginit` -/

/-- The stuffing loop leaves the content area once the bytes still to add do
not fit behind `size`. -/
theorem add_bytes_none (s : List Nat) :
    ∀ pkg : Pkg, pkg.size ≤ 63 → 64 ≤ pkg.size + s.length → add_bytes pkg s = none := by
  induction s with
  | nil => intro pkg h1 h2; simp at h2; omega
  | cons b t ih =>
    intro pkg h1 h2
    by_cases hlt : pkg.size < 63
    · simp only [add_bytes, add_byte_to_pkg_eq pkg b hlt]
      apply ih
      · split
        · rename_i hs; show pkg.size + 1 + 1 ≤ 63; omega
        · show pkg.size + 1 ≤ 63; omega
      · simp only [List.length_cons] at h2
        split
        · show 64 ≤ pkg.size + 1 + 1 + t.length; omega
        · show 64 ≤ pkg.size + 1 + t.length; omega
    · simp [add_bytes, add_byte_to_pkg, hlt]

/-- C39 fails on the code: `pkginit` has no test of `size` against the content
area.  For every buffer of 64 to 255 bytes the 64th store of the stuffing loop
is at `content[63]`, outside the frame (`none`); this is what happens in the
responder's `context_ls_update_with_ack` at a directory entry with a 64-byte name
and in the requester's `context_init` at a 64-byte path.  For every buffer whose
stuffed image has exactly 63 bytes the final `size++` wraps the 6-bit field to
0; and for a one-byte name the frame's `size` is 2, one more than the bytes
written. -/
theorem C39_pkginit_leaves_frame :
    (∀ (crc8 : List Nat → Nat) (indx type : Nat) (s : List Nat),
      64 ≤ s.length → s.length ≤ 255 → pkginit crc8 s.length indx type (some s) = none) ∧
    Server.long_name_example.length = 64 ∧
    (∀ crc8 : List Nat → Nat,
      Server.context_ls_update_with_ack crc8
        { Server.context_create with dp := some [Server.long_entry_example] } = none) ∧
    (∀ crc8 : List Nat → Nat,
      context_init crc8 true (zero_ctx CtxType.CTX_DOWNLOAD) CtxType.CTX_DOWNLOAD
        Server.long_name_example = none) ∧
    (∀ (crc8 : List Nat → Nat) (indx type : Nat) (s : List Nat), (stuff s).length = 63 →
      ∃ p, pkginit crc8 s.length indx type (some s) = some p ∧ p.size = 0) ∧
    (pkginit crc8_ref 1 0 PKG_SHOW (some [0x61])).map (fun p => p.size) = some 2 := by
  have over : ∀ (crc8 : List Nat → Nat) (indx type : Nat) (s : List Nat),
      64 ≤ s.length → s.length ≤ 255 → pkginit crc8 s.length indx type (some s) = none := by
    intro crc8 indx type s h1 h2
    have hmod : s.length % 256 = s.length := by omega
    have hnone := add_bytes_none s (pkginit_blank indx type) (by simp [pkginit_blank])
      (by simp only [pkginit_blank]; omega)
    simp only [pkginit_blank] at hnone
    simp only [pkginit, hmod, List.take_length, le_refl, if_true, hnone]
  have hlen : Server.long_name_example.length = 64 := by
    simp [Server.long_name_example]
  refine ⟨over, hlen, ?_, ?_, ?_, by decide⟩
  · intro crc8
    have h := over crc8 0 PKG_SHOW Server.long_name_example (by omega) (by omega)
    rw [hlen] at h
    simp only [Server.context_ls_update_with_ack, Server.context_create, Server.next_file,
      Server.long_entry_example, hlen, h, Bool.false_eq_true, if_false]
  · intro crc8
    have h := over crc8 0 PKG_DOWNLOAD Server.long_name_example (by omega) (by omega)
    simp only [context_init, context_init_download, if_true, h]
  · intro crc8 indx type s hfit
    obtain ⟨q, hq, hsz, -⟩ := add_bytes_fits indx type s (le_of_eq hfit)
    have hl : s.length ≤ 63 := by have := stuff_length s; omega
    have hmod : s.length % 256 = s.length := by omega
    simp only [pkginit_blank] at hq
    refine ⟨{ q with size := (q.size + 1) % 64,
                     crc8 := crc8 (crc_region { q with size := (q.size + 1) % 64 }) % 256 },
      ?_, ?_⟩
    · simp only [pkginit, hmod, List.take_length, le_refl, if_true, hq]
    · show (q.size + 1) % 64 = 0
      rw [hsz, hfit]

/-! ## Claims about names that cross the two endpoints -/

/-- The allocation `get_asset_path` returns when the name has at least `n`
bytes: the root, the `n` name bytes and one zero byte. -/
theorem get_asset_path_path (name : List Nat) (n : Nat) (hn : n ≤ name.length) :
    (Server.get_asset_path name n).path = Server.ASSETS_PATH ++ name.take n ++ [0] := by
  have h9 : Server.ASSETS_PATH.length = 9 := rfl
  have e0 : (List.replicate (n + (9 + 1)) 0).drop (9 + 1 - 1)
      = List.replicate (n + 1) (0 : Nat) := by
    rw [List.drop_replicate]; congr 1
  have e1 : Server.ASSETS_PATH.take (9 + 1 - 1) = Server.ASSETS_PATH := rfl
  have e2 : (Server.ASSETS_PATH ++ List.replicate (n + 1) (0 : Nat)).take (9 + 1 - 1)
      = Server.ASSETS_PATH := by
    rw [List.take_append_of_le_length (by rw [h9])]; rfl
  have e3 : (Server.ASSETS_PATH ++ List.replicate (n + 1) (0 : Nat)).drop (9 + 1 - 1 + n)
      = [0] := by
    have : 9 + 1 - 1 + n = Server.ASSETS_PATH.length + n := by rw [h9]
    rw [this, List.drop_append, List.drop_replicate]
    simp
  have hl : (Server.ASSETS_PATH ++ name.take n ++ [0]).length ≤ 9 + 1 + n := by
    simp [h9, hn]; omega
  simp only [Server.get_asset_path, h9, e0, e1, e2, e3]
  exact List.set_eq_of_length_le hl

/-- The C string of a buffer that starts with bytes none of which is zero. -/
theorem cstr_append (a b : List Nat) (ha : ∀ x ∈ a, x ≠ 0) :
    Server.cstr (a ++ b) = a ++ Server.cstr b := by
  induction a with
  | nil => rfl
  | cons x t ih =>
    have hx : x ≠ 0 := ha x (List.mem_cons_self _ _)
    have := ih (fun y hy => ha y (List.mem_cons_of_mem _ hy))
    simp only [Server.cstr] at this ⊢
    simp [List.takeWhile_cons, hx, this]

theorem stuff_no_zero (s : List Nat) (h : ∀ x ∈ s, x ≠ 0) : ∀ x ∈ stuff s, x ≠ 0 := by
  induction s with
  | nil => intro x hx; simp [stuff] at hx
  | cons b t ih =>
    have hb : b ≠ 0 := h b (List.mem_cons_self _ _)
    have ht := ih (fun y hy => h y (List.mem_cons_of_mem _ hy))
    intro x hx
    unfold stuff at hx
    split at hx
    · simp only [List.mem_cons] at hx
      rcases hx with rfl | rfl | hx
      · exact hb
      · decide
      · exact ht x hx
    · simp only [List.mem_cons] at hx
      rcases hx with rfl | hx
      · exact hb
      · exact ht x hx

theorem stuff_of_no_sentinel (s : List Nat) (h : ∀ x ∈ s, is_sentinel x = false) :
    stuff s = s := by
  induction s with
  | nil => rfl
  | cons b t ih =>
    have hb := h b (List.mem_cons_self _ _)
    have ht := ih (fun y hy => h y (List.mem_cons_of_mem _ hy))
    simp [stuff, hb, ht]

theorem stuff_ne_of_sentinel (s : List Nat) (x : Nat) (hx : x ∈ s)
    (hs : is_sentinel x = true) : stuff s ≠ s := by
  intro h
  have hlen := stuff_length s
  have hpos : 0 < s.countP is_sentinel := List.countP_pos_iff.mpr ⟨x, hx, hs⟩
  rw [h] at hlen
  omega

/-- The first `size` content bytes of a frame `pkginit` built from `s`: the
stuffed image and the zero byte the final `size++` takes in. -/
theorem take_size_content (s : List Nat) (content : List Nat) (size : Nat)
    (hfit : (stuff s).length ≤ 62) (hsz : size = (stuff s).length + 1)
    (hc : content = stuff s ++ List.replicate (63 - (stuff s).length) 0) :
    size ≤ content.length ∧ content.take size = stuff s ++ [0] := by
  subst hsz hc
  constructor
  · simp; omega
  · rw [List.take_append]
    obtain ⟨k, hk⟩ : ∃ k, 63 - (stuff s).length = k + 1 := ⟨62 - (stuff s).length, by omega⟩
    rw [hk, List.replicate_succ]
    simp

/-- The path the responder computes for the DOWNLOAD request the requester's
`context_init` builds for `name`: the root followed by the stuffed image of the
name. -/
theorem download_request_path (crc8 : List Nat → Nat) (ctx : Context) (name : List Nat)
    (h0 : ∀ b ∈ name, b ≠ 0) (hfit : (stuff name).length ≤ 62) :
    ∃ cctx, context_init crc8 true ctx CtxType.CTX_DOWNLOAD name = some (1, cctx) ∧
      pkgvalid crc8 cctx.win_buf = true ∧ cctx.win_buf.type = PKG_DOWNLOAD ∧
      Server.cstr (Server.get_asset_path cctx.win_buf.content cctx.win_buf.size).path
        = Server.ASSETS_PATH ++ stuff name := by
  obtain ⟨p, hp, hv, -, -, ht, hsz, hc, -⟩ := pkginit_buf_decoded crc8 0 PKG_DOWNLOAD name hfit
  obtain ⟨hle, htake⟩ := take_size_content name p.content p.size hfit hsz hc
  refine ⟨{ ctx with indx := 0, type := CtxType.CTX_DOWNLOAD, win_i := 1, fp := [],
                     win_buf := p }, ?_, hv, ht, ?_⟩
  · simp only [context_init, context_init_download, if_true, hp]
  · show Server.cstr (Server.get_asset_path p.content p.size).path = _
    rw [get_asset_path_path _ _ hle, htake]
    have hnz : ∀ x ∈ Server.ASSETS_PATH ++ stuff name, x ≠ 0 := by
      intro x hx
      rcases List.mem_append.mp hx with h | h
      · intro hz; subst hz; revert h; decide
      · exact stuff_no_zero name h0 x h
    have e : Server.ASSETS_PATH ++ (stuff name ++ [0]) ++ [0]
        = (Server.ASSETS_PATH ++ stuff name) ++ [0, 0] := by simp
    rw [e, cstr_append _ _ hnz]
    simp [Server.cstr]

/-- C32 fails on the code: the responder hands `content` and `size` of the
request frame to `get_asset_path` as they arrive and never unstuffs them.  For
every name without a zero byte whose stuffed image fits, the path it opens for
the requester's request is `"./assets/"` followed by the stuffed image of the
name; that is the name itself when no byte is `0x81` or `0x88` and differs from
it otherwise.  For the name `"È"` (bytes `C3 88`) the request is
`sentinel_request_example`, the path is `"./assets/"` followed by `C3 88 FF`,
and with the asset `"./assets/È"` present the pass answers with the ERROR
frame; unstuffing the frame would have given `C3 88`. -/
theorem C32_download_path_keeps_stuffing :
    (∀ (crc8 : List Nat → Nat) (ctx : Context) (name : List Nat), (∀ b ∈ name, b ≠ 0) →
      (stuff name).length ≤ 62 →
      ∃ cctx, context_init crc8 true ctx CtxType.CTX_DOWNLOAD name = some (1, cctx) ∧
        Server.cstr (Server.get_asset_path cctx.win_buf.content cctx.win_buf.size).path
          = Server.ASSETS_PATH ++ stuff name) ∧
    (∀ name : List Nat, (∀ b ∈ name, is_sentinel b = false) → stuff name = name) ∧
    (∀ (name : List Nat) (b : Nat), b ∈ name → is_sentinel b = true → stuff name ≠ name) ∧
    (context_init crc8_ref true (zero_ctx CtxType.CTX_DOWNLOAD) CtxType.CTX_DOWNLOAD
        [0xC3, 0x88]).map (fun r => r.2.win_buf) = some Server.sentinel_request_example ∧
    Server.cstr (Server.get_asset_path Server.sentinel_request_example.content
        Server.sentinel_request_example.size).path
      = Server.ASSETS_PATH ++ [0xC3, 0x88, 0xFF] ∧
    payload (pkg_rmv_sentinel_bytes Server.sentinel_request_example) = [0xC3, 0x88, 0] ∧
    Server.main_pass crc8_ref 0 (Server.fs_only (Server.ASSETS_PATH ++ [0xC3, 0x88]) [1, 2, 3])
        Server.sentinel_request_example [some ack_example]
      = some [Server.error_frame_example] := by
  refine ⟨?_, stuff_of_no_sentinel, stuff_ne_of_sentinel, by decide, by decide, by decide,
    by decide⟩
  intro crc8 ctx name h0 hfit
  obtain ⟨cctx, h1, -, -, h2⟩ := download_request_path crc8 ctx name h0 hfit
  exact ⟨cctx, h1, h2⟩

/-- C34 (as stated) fails: for the file name `"../x"` the requester builds
`traversal_request_example`, and the path the responder computes from it is
`"./assets/../x"`: after the root it holds the separator `/` and the component
`..`.  In a file system where only that path names a file, the responder opens
it and starts the session. -/
theorem C34_counterexample :
    (context_init crc8_ref true (zero_ctx CtxType.CTX_DOWNLOAD) CtxType.CTX_DOWNLOAD
        [46, 46, 47, 120]).map (fun r => r.2.win_buf) = some Server.traversal_request_example ∧
    Server.cstr (Server.get_asset_path Server.traversal_request_example.content
        Server.traversal_request_example.size).path = Server.traversal_path_example ∧
    Server.traversal_path_example.take 9 = Server.ASSETS_PATH ∧
    47 ∈ Server.traversal_path_example.drop 9 ∧
    [46, 46] ∈ (Server.traversal_path_example.drop 9).splitOn 47 ∧
    (Server.context_init crc8_ref (Server.fs_only Server.traversal_path_example [1, 2, 3])
        Server.context_create Server.traversal_request_example).map (fun r => (r.1, r.2.fp))
      = some (1, some [FRead.byte 1, FRead.byte 2, FRead.byte 3]) := by
  refine ⟨by decide, by decide, by decide, by decide, by decide, by decide⟩

/-- C34 (amended): there is no sanitising step.  For every file name without a
zero byte and without the bytes `0x81` and `0x88`, of at most 62 bytes, the path
the responder computes from the request the requester's `context_init` builds
is `"./assets/"` followed by exactly the bytes of the name, `/` and `..`
included; the responder's `context_init` fails when that path does not open,
and keeps the stream of that path when it opens and `stat` reports its
size. -/
theorem C34_asset_path_unsanitized (crc8 : List Nat → Nat) (ctx : Context) (name : List Nat)
    (h0 : ∀ b ∈ name, b ≠ 0) (hs : ∀ b ∈ name, is_sentinel b = false)
    (hfit : name.length ≤ 62) :
    ∃ cctx, context_init crc8 true ctx CtxType.CTX_DOWNLOAD name = some (1, cctx) ∧
      Server.cstr (Server.get_asset_path cctx.win_buf.content cctx.win_buf.size).path
        = Server.ASSETS_PATH ++ name ∧
      (∀ (fs : Server.FileSys) (sctx : Server.Context),
        fs.fopen (Server.ASSETS_PATH ++ name) = none →
        (Server.context_init crc8 fs sctx cctx.win_buf).map (fun r => r.1) = some 0) ∧
      (∀ (fs : Server.FileSys) (sctx : Server.Context) (f : List FRead) (s : Nat),
        fs.fopen (Server.ASSETS_PATH ++ name) = some f →
        fs.stat (Server.ASSETS_PATH ++ name) = some s → s < 2 ^ 64 →
        (Server.context_init crc8 fs sctx cctx.win_buf).map (fun r => (r.1, r.2.fp))
          = some (1, some f)) := by
  have hst := stuff_of_no_sentinel name hs
  obtain ⟨cctx, h1, -, hT, hpath⟩ :=
    download_request_path crc8 ctx name h0 (by rw [hst]; exact hfit)
  rw [hst] at hpath
  refine ⟨cctx, h1, hpath, ?_, ?_⟩
  · intro fs sctx hopen
    have e1 : (PKG_DOWNLOAD == PKG_DOWNLOAD) = true := by decide
    simp only [Server.context_init, hT, e1, if_true, Server.context_init_download, hpath, hopen,
      Option.map_some']
  · intro fs sctx f s hopen hstat hlt
    obtain ⟨d, -, hinit, -⟩ := server_context_init_download crc8 fs sctx cctx.win_buf f s hT
      (by rw [hpath]; exact hopen) (by rw [hpath]; exact hstat) hlt
    rw [hinit]
    rfl

/-- C34 (amended) at the name `"../x"` under `crc8_ref`. -/
theorem C34_asset_path_unsanitized_witness :
    ∃ cctx, context_init crc8_ref true (zero_ctx CtxType.CTX_DOWNLOAD) CtxType.CTX_DOWNLOAD
        [46, 46, 47, 120] = some (1, cctx) ∧
      Server.cstr (Server.get_asset_path cctx.win_buf.content cctx.win_buf.size).path
        = Server.ASSETS_PATH ++ [46, 46, 47, 120] ∧
      (∀ (fs : Server.FileSys) (sctx : Server.Context),
        fs.fopen (Server.ASSETS_PATH ++ [46, 46, 47, 120]) = none →
        (Server.context_init crc8_ref fs sctx cctx.win_buf).map (fun r => r.1) = some 0) ∧
      (∀ (fs : Server.FileSys) (sctx : Server.Context) (f : List FRead) (s : Nat),
        fs.fopen (Server.ASSETS_PATH ++ [46, 46, 47, 120]) = some f →
        fs.stat (Server.ASSETS_PATH ++ [46, 46, 47, 120]) = some s → s < 2 ^ 64 →
        (Server.context_init crc8_ref fs sctx cctx.win_buf).map (fun r => (r.1, r.2.fp))
          = some (1, some f)) :=
  C34_asset_path_unsanitized crc8_ref (zero_ctx CtxType.CTX_DOWNLOAD) [46, 46, 47, 120]
    (by decide) (by decide) (by decide)

/-- C33 fails on the code: the requester's `context_update_with_show` prints
`content[0..size)` as it arrives and never unstuffs it, unlike
`context_update_with_data`.  For every entry name without a zero byte whose
stuffed image fits, the line printed for the SHOW frame the responder's
`pkginit` call builds is the colour prefix, `"- "`, the stuffed image of the
name, the colour reset and a line feed.  For the entry `"È"` (bytes `C3 88`) the
responder's frame is `sentinel_show_example` and the line holds `C3 88 FF`;
unstuffing the frame would have given `C3 88`. -/
theorem C33_show_line_keeps_stuffing :
    (∀ (crc8 : List Nat → Nat) (st : Option (Nat × Nat)) (cctx : Context) (idx : Nat)
      (name : List Nat), cctx.type = CtxType.CTX_LS → cctx.indx = (idx % 256) % 32 →
      (∀ b ∈ name, b ≠ 0) → (stuff name).length ≤ 62 →
      ∃ q c1, pkginit crc8 name.length idx PKG_SHOW (some name) = some q ∧
        context_update crc8 st cctx q = some (1, c1, q) ∧
        c1.stdout = cctx.stdout ++ (RED ++ [45, 32] ++ stuff name ++ RESET ++ [10])) ∧
    (Server.context_init crc8_ref (Server.fs_dir [Server.sentinel_entry_example])
        Server.context_create Server.ls_request_example).map (fun r => r.2.win_buf[0]?)
      = some (some Server.sentinel_show_example) ∧
    (context_update crc8_ref none (zero_ctx CtxType.CTX_LS)
        Server.sentinel_show_example).map (fun r => r.2.1.stdout)
      = some (RED ++ [45, 32, 0xC3, 0x88, 0xFF] ++ RESET ++ [10]) ∧
    payload (pkg_rmv_sentinel_bytes Server.sentinel_show_example) = [0xC3, 0x88, 0] := by
  refine ⟨?_, by decide, by decide, by decide⟩
  intro crc8 st cctx idx name hty hx h0 hfit
  obtain ⟨q, hq, hv, -, hi, ht, hsz, hc, -⟩ := pkginit_buf_decoded crc8 idx PKG_SHOW name hfit
  obtain ⟨-, htake⟩ := take_size_content name q.content q.size hfit hsz hc
  obtain ⟨a, ha, -⟩ := init_pkg_with_ack_eq crc8
  have hT : q.type = PKG_SHOW := by rw [ht]; decide
  have hidx : (q.indx == cctx.indx) = true := by rw [hi, hx]; exact beq_self_eq_true _
  refine ⟨q,
    incindx { cctx with recv := (cctx.recv + q.size) % 2 ^ 64, win_buf := a,
                        stdout := cctx.stdout ++ show_line (q.content.take q.size ++ [0]) },
    hq, ?_, ?_⟩
  · simp only [context_update, hty, context_ls_update, hT, beq_self_eq_true, if_true,
      context_update_with_show, hv, hidx, Bool.and_self, ha]
  · show cctx.stdout ++ show_line (q.content.take q.size ++ [0]) = _
    rw [htake]
    have e : stuff name ++ [0] ++ [0] = stuff name ++ [0, 0] := by simp
    have hcs := cstr_append (stuff name) [0, 0] (stuff_no_zero name h0)
    simp only [Server.cstr] at hcs
    simp only [show_line, e, hcs]
    simp

/-! ## Claims about the indices of the two endpoints -/

/-- The requester accepts a run of valid DATA frames whose indices follow its
expected index: every payload is written and the expected index moves past the
last frame. -/
theorem accept_data_frames (crc8 : List Nat → Nat) (st : Option (Nat × Nat)) :
    ∀ (frs : List Pkg) (cc : Context) (a : Nat), cc.type = CtxType.CTX_DOWNLOAD →
      cc.indx = a % 32 →
      (∀ m, m < frs.length → ∃ q, frs[m]? = some q ∧ Server.DataFrame crc8 q ((a + m) % 32)) →
      ∃ cc1, accept_frames crc8 st cc frs = some cc1 ∧ cc1.indx = (a + frs.length) % 32 ∧
        cc1.fp = cc.fp ++ decode_chunks frs ∧ cc1.skip = cc.skip ∧
        cc1.type = CtxType.CTX_DOWNLOAD := by
  intro frs
  induction frs with
  | nil =>
    intro cc a hD hx _
    exact ⟨cc, rfl, by simpa using hx, by simp [decode_chunks], rfl, hD⟩
  | cons p t ih =>
    intro cc a hD hx hfr
    obtain ⟨q, hq, hdf⟩ := hfr 0 (by simp)
    simp only [List.getElem?_cons_zero, Option.some.injEq] at hq
    subst hq
    obtain ⟨-, hT, hi, hv, -, -⟩ := hdf
    have hi2 : p.indx = cc.indx := by rw [hi, hx]; rfl
    obtain ⟨ak, -, hacc⟩ := context_update_with_data_accept crc8 cc p hv hi2
    have hupd := context_update_download_data crc8 st cc p hD hT
    rw [hacc] at hupd
    have hx1 : (cc.indx + 1) % PKG_MAX_IND = (a + 1) % 32 := by
      rw [hx]; simp only [PKG_MAX_IND]; omega
    obtain ⟨cc1, h1, h2, h3, h4, h5⟩ :=
      ih { cc with win_i := WINSZ,
                   recv := (cc.recv + (pkg_rmv_sentinel_bytes p).size) % 2 ^ 64,
                   fp := cc.fp ++ payload (pkg_rmv_sentinel_bytes p),
                   win_buf := ak,
                   indx := (cc.indx + 1) % PKG_MAX_IND } (a + 1) hD hx1
        (fun m hm => by
          obtain ⟨q, hq, hdf⟩ := hfr (m + 1) (by simpa using hm)
          refine ⟨q, by simpa using hq, ?_⟩
          have e : (a + (m + 1)) % 32 = (a + 1 + m) % 32 := by congr 1; omega
          rw [← e]; exact hdf)
    refine ⟨cc1, ?_, ?_, ?_, h4, h5⟩
    · simp only [accept_frames, hupd]; exact h1
    · rw [h2]; simp only [List.length_cons]; congr 1; omega
    · rw [h3]; simp [decode_chunks]

/-- A refill from slot `i` of a DOWNLOAD session over an error-free stream,
when the slots below `i` hold valid DATA frames with the indices
`a, ..., a + i - 1` and the responder's index is `a + i`. -/
theorem lockstep_fill (crc8 : List Nat → Nat) (byte0 : Nat) (ctx : Server.Context) (i : Nat)
    (r : Int) (c : Server.Context) (a : Nat) (f : List Nat)
    (h : Server.fill_context_buf_from_index crc8 byte0 ctx i = some (r, c))
    (hD : ctx.type = CtxType.CTX_DOWNLOAD) (hw : Server.WinOk ctx) (hx : ctx.indx < 32)
    (hfp : ctx.fp = some (f.map FRead.byte)) (hi : i < WINSZ)
    (hold : ∀ m, m < i → ∃ q, ctx.win_buf[m]? = some q ∧
      Server.DataFrame crc8 q ((a + m) % 32))
    (hidx : ctx.indx = (a + i) % 32) : Server.LockStep crc8 c := by
  obtain ⟨news, rest, ret, c1, hrun, hn1, hn2, hwi, hwb, hfp1, hidx1, hfr, -, hend, hty, -,
    hw1⟩ := fill_context_spec crc8 byte0 ctx i f hi hw hx hfp
  rw [hrun] at h
  simp only [Option.some.injEq, Prod.mk.injEq] at h
  obtain ⟨-, h2⟩ := h
  subst h2
  have hW : WINSZ = 5 := rfl
  have hlen := hw.1
  have htl : (ctx.win_buf.take i).length = i := by rw [List.length_take, hlen]; omega
  refine ⟨by rw [hty]; exact hD, hw1, by rw [hidx1]; omega, by rw [hwi]; exact hn2,
    ⟨rest, hfp1⟩, Or.inr ⟨a, ?_, ?_, ?_⟩⟩
  · intro m hm
    rw [hwi] at hm
    by_cases hmi : m < i
    · obtain ⟨q, hq, hdf⟩ := hold m hmi
      refine ⟨q, ?_, hdf⟩
      rw [hwb, List.append_assoc, List.getElem?_append_left (by rw [htl]; exact hmi),
        List.getElem?_take_of_lt hmi]
      exact hq
    · have hlt : m - i < news.length := by omega
      have hq : news[m - i]? = some news[m - i] := List.getElem?_eq_getElem hlt
      obtain ⟨hdf, -⟩ := hfr (m - i) _ hq
      refine ⟨news[m - i], ?_, ?_⟩
      · rw [hwb, List.append_assoc, List.getElem?_append_right (by rw [htl]; omega), htl,
          List.getElem?_append_left hlt]
        exact hq
      · have e : (ctx.indx + (m - i)) % 32 = (a + m) % 32 := by rw [hidx]; omega
        rw [← e]; exact hdf
  · rw [hidx1, hwi, hidx]; omega
  · intro he
    rcases hend with ⟨-, g2, -⟩ | ⟨-, -, g3⟩
    · rw [hwi]; exact g2
    · rw [g3] at he; exact absurd he (by decide)

/-- A refill started at a slot number outside the array does not enter the
loop: it stores that number in `win.i` and returns 1. -/
theorem fill_context_outside (crc8 : List Nat → Nat) (byte0 : Nat) (ctx : Server.Context)
    (i : Nat) (hi : WINSZ ≤ i) :
    Server.fill_context_buf_from_index crc8 byte0 ctx i = some (1, { ctx with win_i := i }) := by
  have hn : ¬ (i < WINSZ ∧ (1 : Int) > 0) := fun h => absurd h.1 (by omega)
  have hl : Server.fill_loop crc8 byte0 WINSZ ctx i 1 = some (ctx, i, 1) := by
    show Server.fill_loop crc8 byte0 (4 + 1) ctx i 1 = _
    simp only [Server.fill_loop, hn, if_false]
  have h1 : ¬ ((1 : Int) < 0) := by decide
  simp only [Server.fill_context_buf_from_index, hl, h1, if_false]

/-- Every call of the responder's `context_update` that returns and leaves
`win.i` within the array keeps `LockStep`. -/
theorem lockstep_update (crc8 : List Nat → Nat) (byte0 : Nat) (ctx : Server.Context)
    (pkg : Pkg) (r : Int) (c : Server.Context) (hinv : Server.LockStep crc8 ctx)
    (h : Server.context_update crc8 byte0 ctx pkg = some (r, c)) (hc : c.win_i ≤ WINSZ) :
    Server.LockStep crc8 c := by
  obtain ⟨hD, hw, hx, hwi, ⟨f, hfp⟩, hcase⟩ := hinv
  have hW : WINSZ = 5 := rfl
  have hmod0 : ctx.indx = (ctx.indx + 0) % 32 := by omega
  unfold Server.context_update at h
  by_cases hA : (pkg.type == PKG_ACK) = true
  · simp only [hA, if_true, Server.context_update_with_ack] at h
    by_cases he : ctx.end_ = 0
    · simp only [he, ne_eq, not_true_eq_false, if_false, hD,
        Server.context_download_update_with_ack] at h
      exact lockstep_fill crc8 byte0 ctx 0 r c ctx.indx f h hD hw hx hfp (by decide)
        (fun m hm => absurd hm (by omega)) hmod0
    · simp only [ne_eq, he, not_false_eq_true, if_true, Option.some.injEq,
        Prod.mk.injEq] at h
      obtain ⟨-, h2⟩ := h
      subst h2
      exact ⟨hD, hw, hx, hwi, ⟨f, hfp⟩, hcase⟩
  · simp only [hA, Bool.false_eq_true, if_false] at h
    by_cases hN : (pkg.type == PKG_NACK) = true
    · simp only [hN, if_true, Server.context_update_with_nack, hD] at h
      by_cases hcomp : ctx.end_ ≠ 0 ∧ Server.find_nack_pkg ctx pkg.indx = none
      · rw [if_pos hcomp] at h
        simp only [Option.some.injEq, Prod.mk.injEq] at h
        obtain ⟨-, h2⟩ := h
        subst h2
        exact ⟨rfl, hw, hx, hwi, ⟨f, hfp⟩, hcase⟩
      · rw [if_neg hcomp] at h
        unfold Server.context_download_update_with_nack at h
        cases hf : Server.find_nack_pkg ctx pkg.indx with
        | none =>
          simp only [hf] at h
          exact lockstep_fill crc8 byte0 ctx 0 r c ctx.indx f h hD hw hx hfp (by decide)
            (fun m hm => absurd hm (by omega)) hmod0
        | some p =>
          simp only [hf] at h
          obtain ⟨hpW, -⟩ := find_nack_pkg_some ctx pkg.indx p hf
          by_cases hp : p > 0
          · simp only [hp, if_true] at h
            have hpw : p ≤ ctx.win_i := by
              by_contra hlt
              have hlt2 : ctx.win_i < p := by omega
              have hmv0 : Server.memmove_win ctx p = ctx := by
                unfold Server.memmove_win
                rw [if_neg (fun hcnd => hlt hcnd.1)]
              have hsub := size_sub_of_lt ctx.win_i p hlt2 (by omega)
              rw [hmv0, hsub] at h
              by_cases he : ctx.end_ = 0
              · rw [if_neg (by rw [he]; simp)] at h
                rw [fill_context_outside crc8 byte0 ctx _ (by omega)] at h
                simp only [Option.some.injEq, Prod.mk.injEq] at h
                obtain ⟨-, h2⟩ := h
                subst h2
                have hbig : ctx.win_i + 2 ^ 64 - p ≤ WINSZ := hc
                omega
              · rw [if_pos he] at h
                simp only [Option.some.injEq, Prod.mk.injEq] at h
                obtain ⟨-, h2⟩ := h
                subst h2
                have hbig : ctx.win_i + 2 ^ 64 - p ≤ WINSZ := hc
                omega
            obtain ⟨buf, hmv, k5, hwok⟩ := memmove_win_spec ctx p hw hpw hwi
            obtain ⟨c1, hc1def⟩ : ∃ c1, c1 = Server.memmove_win ctx p := ⟨_, rfl⟩
            rw [← hc1def] at h
            have hc1 : c1 = { ctx with win_buf := buf } := hc1def.trans hmv
            have k6 : c1.win_i = ctx.win_i := by rw [hc1]
            have k7 : c1.end_ = ctx.end_ := by rw [hc1]
            have k8 : c1.indx = ctx.indx := by rw [hc1]
            have k5b : ∀ m, m < ctx.win_i - p → c1.win_buf[m]? = ctx.win_buf[p + m]? := by
              rw [hc1]; exact k5
            have hwok1 : Server.WinOk c1 := by rw [hc1]; exact hwok
            have hfp1 : c1.fp = some (f.map FRead.byte) := by rw [hc1]; exact hfp
            have hD1 : c1.type = CtxType.CTX_DOWNLOAD := by rw [hc1]; exact hD
            have hx1 : c1.indx < 32 := by rw [k8]; exact hx
            have hsub : Server.size_sub c1.win_i p = c1.win_i - p := by
              rw [k6]
              exact size_sub_of_le ctx.win_i p hpw (by omega)
            rw [hsub] at h
            by_cases he : ctx.end_ = 0
            · have he1 : ¬ (c1.end_ ≠ 0) := by rw [k7, he]; simp
              rw [if_neg he1] at h
              rcases hcase with ⟨-, hw1, hi0, -⟩ | ⟨a, hfr, hidx, hfull⟩
              · have hz : c1.win_i - p = 0 := by rw [k6]; omega
                rw [hz] at h
                exact lockstep_fill crc8 byte0 c1 0 r c c1.indx f h hD1 hwok1 hx1 hfp1
                  (by decide) (fun m hm => absurd hm (by omega)) (by omega)
              · have hf5 := hfull he
                refine lockstep_fill crc8 byte0 c1 (c1.win_i - p) r c (a + p) f h hD1 hwok1
                  hx1 hfp1 (by rw [k6]; omega) ?_ ?_
                · intro m hm1
                  rw [k6] at hm1
                  obtain ⟨q, hq, hdf⟩ := hfr (p + m) (by omega)
                  refine ⟨q, by rw [k5b m hm1]; exact hq, ?_⟩
                  have e : (a + (p + m)) % 32 = (a + p + m) % 32 := by congr 1; omega
                  rw [← e]; exact hdf
                · rw [k8, k6, hidx]; congr 1; omega
            · have he1 : c1.end_ ≠ 0 := by rw [k7]; exact he
              rw [if_pos he1] at h
              simp only [Option.some.injEq, Prod.mk.injEq] at h
              obtain ⟨-, h2⟩ := h
              subst h2
              rcases hcase with ⟨he0, -⟩ | ⟨a, hfr, hidx, -⟩
              · exact absurd he0 he
              · refine ⟨hD1, hwok1, hx1, ?_, ⟨f, hfp1⟩, Or.inr ⟨a + p, ?_, ?_, ?_⟩⟩
                · show c1.win_i - p ≤ WINSZ
                  rw [k6]; omega
                · intro m hm1
                  have hm2 : m < ctx.win_i - p := by
                    have : m < c1.win_i - p := hm1
                    rw [k6] at this; exact this
                  obtain ⟨q, hq, hdf⟩ := hfr (p + m) (by omega)
                  refine ⟨q, ?_, ?_⟩
                  · show c1.win_buf[m]? = some q
                    rw [k5b m hm2]; exact hq
                  · have e : (a + (p + m)) % 32 = (a + p + m) % 32 := by congr 1; omega
                    rw [← e]; exact hdf
                · show c1.indx = (a + p + (c1.win_i - p)) % 32
                  rw [k8, k6, hidx]; congr 1; omega
                · intro he2
                  exact absurd he2 he1
          · simp only [hp, if_false, Option.some.injEq, Prod.mk.injEq] at h
            obtain ⟨-, h2⟩ := h
            subst h2
            exact ⟨hD, hw, hx, hwi, ⟨f, hfp⟩, hcase⟩
    · simp only [hN, Bool.false_eq_true, if_false, Option.some.injEq, Prod.mk.injEq] at h
      obtain ⟨-, h2⟩ := h
      subst h2
      exact ⟨hD, hw, hx, hwi, ⟨f, hfp⟩, hcase⟩

/-- Every sequence of replies during which `win.i` stays within the array keeps
`LockStep`. -/
theorem lockstep_run (crc8 : List Nat → Nat) (byte0 : Nat) :
    ∀ (replies : List Pkg) (ctx c : Server.Context), Server.LockStep crc8 ctx →
      (∀ (n : Nat) (c1 : Server.Context),
        Server.run_updates crc8 byte0 ctx (replies.take n) = some c1 → c1.win_i ≤ WINSZ) →
      Server.run_updates crc8 byte0 ctx replies = some c → Server.LockStep crc8 c := by
  intro replies
  induction replies with
  | nil =>
    intro ctx c hinv _ h
    simp only [Server.run_updates, Option.some.injEq] at h
    subst h
    exact hinv
  | cons a t ih =>
    intro ctx c hinv hin h
    simp only [Server.run_updates] at h
    cases hu : Server.context_update crc8 byte0 ctx a with
    | none => rw [hu] at h; exact absurd h (by simp)
    | some res =>
      obtain ⟨r1, c1⟩ := res
      rw [hu] at h
      have hc1 : c1.win_i ≤ WINSZ := by
        apply hin 1 c1
        simp only [List.take_succ_cons, List.take_zero, Server.run_updates, hu]
      refine ih c1 c (lockstep_update crc8 byte0 ctx a r1 c1 hinv hu hc1) ?_ h
      intro n c2 hn
      apply hin (n + 1) c2
      simp only [List.take_succ_cons, Server.run_updates, hu]
      exact hn

/-- Every session reached from a DOWNLOAD request for an asset that opens,
whose size `stat` reports and that is read without error, through replies
during which `win.i` stays within the array, satisfies `LockStep`. -/
theorem lockstep_session (crc8 : List Nat → Nat) (byte0 : Nat) (fs : Server.FileSys)
    (req : Pkg) (replies : List Pkg) (c : Server.Context) (f : List Nat) (s : Nat)
    (hT : req.type = PKG_DOWNLOAD)
    (hopen : fs.fopen (Server.cstr (Server.get_asset_path req.content req.size).path)
      = some (f.map FRead.byte))
    (hstat : fs.stat (Server.cstr (Server.get_asset_path req.content req.size).path) = some s)
    (hs : s < 2 ^ 64)
    (hin : ∀ (n : Nat) (c1 : Server.Context),
      Server.session_after crc8 byte0 fs req (replies.take n) = some c1 → c1.win_i ≤ WINSZ)
    (h : Server.session_after crc8 byte0 fs req replies = some c) :
    Server.LockStep crc8 c := by
  obtain ⟨d, -, hinit, hv, -, hi, ht, -, -, hlen, -⟩ :=
    server_context_init_download crc8 fs Server.context_create req (f.map FRead.byte) s hT
      hopen hstat hs
  have hsa : ∀ l : List Pkg, Server.session_after crc8 byte0 fs req l =
      Server.run_updates crc8 byte0
        { Server.context_create with indx := 0, win_i := 1, type := CtxType.CTX_DOWNLOAD,
                                     fp := some (f.map FRead.byte),
                                     win_buf := Server.context_create.win_buf.set 0 d } l := by
    intro l
    unfold Server.session_after
    rw [hinit]
    simp only []
    rw [if_pos (by decide)]
  rw [hsa] at h
  refine lockstep_run crc8 byte0 replies _ c ?_ (fun n c1 hn => hin n c1 (by rw [hsa]; exact hn)) h
  have hw0 := winok_set Server.context_create 0 d winok_context_create hlen
    { Server.context_create with indx := 0, win_i := 1, type := CtxType.CTX_DOWNLOAD,
                                 fp := some (f.map FRead.byte),
                                 win_buf := Server.context_create.win_buf.set 0 d } rfl
  refine ⟨rfl, hw0, by show (0 : Nat) < 32; decide, by show (1 : Nat) ≤ WINSZ; decide,
    ⟨f, rfl⟩, Or.inl ⟨rfl, rfl, rfl, d, ?_, ht, hi, hv⟩⟩
  show (Server.context_create.win_buf.set 0 d)[0]? = some d
  rw [List.getElem?_set_self (by simp [Server.context_create, WINSZ])]

/-- C36: take a DOWNLOAD request for an asset that opens, whose size `stat`
reports and that is read without error, any sequence of replies during which
`win.i` has stayed within the five slots of the window, and the session `c` the
responder is in after them, its window not empty.  A requester
in a DOWNLOAD session whose expected index is the index of the first frame of
that window, handed the frames of the window in order, ends with its expected
index equal to the responder's index `c.indx`; when the frames are DATA frames
it has accepted every one of them (all payloads written, `skip` untouched).
While `end` is clear, the window the responder builds on the next ACK starts
with a DATA frame that carries `c.indx`.  With no reply yet the window is the
DESCRIPTOR frame, so the expected index after the DESCRIPTOR is the index of the
first DATA frame. -/
theorem C36_index_lock_step (crc8 : List Nat → Nat) (byte0 : Nat) (fs : Server.FileSys)
    (req : Pkg) (replies : List Pkg) (c : Server.Context) (f : List Nat) (s : Nat)
    (st : Option (Nat × Nat)) (cc : Context)
    (hT : req.type = PKG_DOWNLOAD)
    (hopen : fs.fopen (Server.cstr (Server.get_asset_path req.content req.size).path)
      = some (f.map FRead.byte))
    (hstat : fs.stat (Server.cstr (Server.get_asset_path req.content req.size).path) = some s)
    (hs : s < 2 ^ 64)
    (hin : ∀ (n : Nat) (c1 : Server.Context),
      Server.session_after crc8 byte0 fs req (replies.take n) = some c1 → c1.win_i ≤ WINSZ)
    (h : Server.session_after crc8 byte0 fs req replies = some c)
    (hcc : cc.type = CtxType.CTX_DOWNLOAD) (hwin : 0 < c.win_i)
    (hfirst : ∀ q, c.win_buf[0]? = some q → cc.indx = q.indx) :
    ∃ cc1, accept_frames crc8 st cc (c.win_buf.take c.win_i) = some cc1 ∧
      cc1.indx = c.indx ∧
      ((∀ q ∈ c.win_buf.take c.win_i, q.type = PKG_DATA) →
        cc1.fp = cc.fp ++ decode_chunks (c.win_buf.take c.win_i) ∧ cc1.skip = cc.skip) ∧
      (∀ ack : Pkg, ack.type = PKG_ACK → c.end_ = 0 →
        ∃ ret c2 q, Server.context_update crc8 byte0 c ack = some (ret, c2) ∧
          c2.win_buf[0]? = some q ∧ q.type = PKG_DATA ∧ q.indx = c.indx) := by
  obtain ⟨hD, hw, hx, hwi, ⟨f1, hfp⟩, hcase⟩ :=
    lockstep_session crc8 byte0 fs req replies c f s hT hopen hstat hs hin h
  have hW : WINSZ = 5 := rfl
  have hnext : ∀ ack : Pkg, ack.type = PKG_ACK → c.end_ = 0 →
      ∃ ret c2 q, Server.context_update crc8 byte0 c ack = some (ret, c2) ∧
        c2.win_buf[0]? = some q ∧ q.type = PKG_DATA ∧ q.indx = c.indx := by
    intro ack hA he
    obtain ⟨k, rest, ret, c2, hupd, hk1, -, -, hfr, -⟩ :=
      context_update_ack_refill crc8 byte0 c ack f1 hA hD he hw hx hfp
    obtain ⟨q, hq, hdf, -⟩ := hfr 0 (by omega)
    refine ⟨ret, c2, q, hupd, hq, hdf.2.1, ?_⟩
    have := hdf.2.2.1
    omega
  rcases hcase with ⟨-, hw1, hi0, d, hd0, hdT, hdi, -⟩ | ⟨a, hfr, hidx, -⟩
  · have htake : c.win_buf.take c.win_i = [d] := by
      rw [hw1]
      cases hl : c.win_buf with
      | nil => rw [hl] at hd0; simp at hd0
      | cons x t =>
        rw [hl] at hd0
        simp only [List.getElem?_cons_zero, Option.some.injEq] at hd0
        simp [hd0]
    have hne : d.type ≠ PKG_DATA := by rw [hdT]; decide
    have hcx : cc.indx = c.indx := by rw [hfirst d hd0, hdi, hi0]
    have hall : (∀ q ∈ c.win_buf.take c.win_i, q.type = PKG_DATA) → False := by
      intro hq
      exact hne (hq d (by rw [htake]; simp))
    obtain ⟨ak, n, -, -, -, -, -, hupd⟩ := context_update_descriptor crc8 st cc d hcc hdT
    rw [htake]
    by_cases hcnd : (pkgvalid crc8 d && d.indx == cc.indx && has_disk_space st d.size) = true
    · rw [if_pos hcnd] at hupd
      refine ⟨{ cc with win_buf := ak, recv := (cc.recv + d.size) % 2 ^ 64 }, ?_, hcx,
        fun hq => (hall (by rw [htake]; exact hq)).elim, hnext⟩
      simp only [accept_frames, hupd]
    · rw [if_neg hcnd] at hupd
      refine ⟨{ cc with win_buf := n }, ?_, hcx,
        fun hq => (hall (by rw [htake]; exact hq)).elim, hnext⟩
      simp only [accept_frames, hupd]
  · obtain ⟨q0, hq0, hdf0⟩ := hfr 0 hwin
    have hx0 : cc.indx = a % 32 := by rw [hfirst q0 hq0, hdf0.2.2.1]; rfl
    have hlen : (c.win_buf.take c.win_i).length = c.win_i := by
      rw [List.length_take, hw.1]; omega
    obtain ⟨cc1, h1, h2, h3, h4, -⟩ :=
      accept_data_frames crc8 st (c.win_buf.take c.win_i) cc a hcc hx0
        (fun m hm => by
          rw [hlen] at hm
          obtain ⟨q, hq, hdf⟩ := hfr m hm
          exact ⟨q, by rw [List.getElem?_take_of_lt hm]; exact hq, hdf⟩)
    exact ⟨cc1, h1, by rw [h2, hlen, hidx], fun _ => ⟨h3, h4⟩, hnext⟩

/-- C36 at the session reached under `crc8_ref` from a DOWNLOAD request for an
asset of 400 zero bytes through one ACK (five DATA frames, indices 0 to 4, `end`
clear), with a requester whose expected index is 0. -/
theorem C36_index_lock_step_witness :
    ∃ c, Server.session_after crc8_ref 0 (Server.fs_single (List.replicate 400 0))
        Server.request_example [ack_example] = some c ∧ c.win_i = 5 ∧ c.end_ = 0 ∧
      ∃ cc1, accept_frames crc8_ref none (zero_ctx CtxType.CTX_DOWNLOAD)
          (c.win_buf.take c.win_i) = some cc1 ∧
        cc1.indx = c.indx ∧
        ((∀ q ∈ c.win_buf.take c.win_i, q.type = PKG_DATA) →
          cc1.fp = (zero_ctx CtxType.CTX_DOWNLOAD).fp ++ decode_chunks (c.win_buf.take c.win_i) ∧
          cc1.skip = (zero_ctx CtxType.CTX_DOWNLOAD).skip) ∧
        (∀ ack : Pkg, ack.type = PKG_ACK → c.end_ = 0 →
          ∃ ret c2 q, Server.context_update crc8_ref 0 c ack = some (ret, c2) ∧
            c2.win_buf[0]? = some q ∧ q.type = PKG_DATA ∧ q.indx = c.indx) := by
  have hp : (Server.session_after crc8_ref 0 (Server.fs_single (List.replicate 400 0))
      Server.request_example [ack_example]).map
        (fun c => (c.win_i, c.end_, (c.win_buf[0]?).map (fun q => q.indx)))
      = some (5, 0, some 0) := by decide
  have hp0 : (Server.session_after crc8_ref 0 (Server.fs_single (List.replicate 400 0))
      Server.request_example []).map (fun c => c.win_i) = some 1 := by decide
  cases hc : Server.session_after crc8_ref 0 (Server.fs_single (List.replicate 400 0))
      Server.request_example [ack_example] with
  | none => rw [hc] at hp; exact absurd hp (by simp)
  | some c =>
    rw [hc] at hp
    simp only [Option.map_some', Option.some.injEq, Prod.mk.injEq] at hp
    obtain ⟨hp1, hp2, hp3⟩ := hp
    have hin : ∀ (n : Nat) (c1 : Server.Context),
        Server.session_after crc8_ref 0 (Server.fs_single (List.replicate 400 0))
          Server.request_example ([ack_example].take n) = some c1 → c1.win_i ≤ WINSZ := by
      intro n c1 hn
      cases n with
      | zero =>
        simp only [List.take_zero] at hn
        rw [hn] at hp0
        simp only [Option.map_some', Option.some.injEq] at hp0
        rw [hp0]; decide
      | succ m =>
        simp only [List.take_succ_cons, List.take_nil] at hn
        rw [hc] at hn
        simp only [Option.some.injEq] at hn
        rw [← hn, hp1]; decide
    refine ⟨c, rfl, hp1, hp2,
      C36_index_lock_step crc8_ref 0 (Server.fs_single (List.replicate 400 0))
        Server.request_example [ack_example] c (List.replicate 400 0) 400
        none (zero_ctx CtxType.CTX_DOWNLOAD) (by decide) rfl (by simp [Server.fs_single])
        (by norm_num) hin hc rfl (by omega) ?_⟩
    intro q hq
    rw [hq] at hp3
    simp only [Option.map_some', Option.some.injEq] at hp3
    rw [hp3]
    rfl

end Constantine
